import Mathlib

/-!
# Host metrics collectors (`metrics/host.go`)

A shallow embedding of the host collectors of the monitoring agent: the four
collectors `collectLoadAverage`, `collectMemory`, `collectCpu`, `collectDisk`,
their driver `CollectHost`, the constructor `NewHostStore` and the small
transform functions.

Conventions of the embedding.

* Go strings are lists of characters.  All the text the collectors index by
  byte (`line[0]`, `pct[len(pct)-1]`, the suffix letter of a swap size) is
  ASCII in the formats read here, where bytes and characters coincide.
* `int64` values are integers; where the source can overflow the result is
  wrapped explicitly (`wrapInt`).
* `float64` values are modelled exactly: a finite value is an integer number of
  units of `2^-1074` (the smallest positive binary64), and every arithmetic
  operation rounds the exact result to the nearest binary64, ties to even.
  The sign of zero is not recorded; no zero is ever used as a divisor whose
  sign could be observed.
* The metric store lives in another file of the package.  A collector is
  modelled by the list of store calls it makes, in order, together with the
  way it ends: `nil`, an `error`, or a run-time panic.
* The file system, the external commands and the helpers of package `util`
  are fields of an environment `Env`.
-/

namespace Metrics

/-! ## Strings -/

/-- Go string, as the list of its characters. -/
abbrev Str := List Char

/-- Decimal digit test, `'0' <= c && c <= '9'`. -/
def isDigit (c : Char) : Bool := decide ('0' ≤ c) && decide (c ≤ '9')

/-- Numeric value of a decimal digit. -/
def digitVal (c : Char) : Nat := c.toNat - '0'.toNat

/-- Value of a string of decimal digits read left to right, starting from `acc`. -/
def digitsVal : Str → Nat → Nat
  | [], acc => acc
  | c :: cs, acc => digitsVal cs (acc * 10 + digitVal c)

/-- The white space of `unicode.IsSpace`, which `strings.Fields` splits on. -/
def isSpace (c : Char) : Bool :=
  c = '\t' || c = '\n' || c = '\x0b' || c = '\x0c' || c = '\r' || c = ' ' ||
  c.toNat = 0x85 || c.toNat = 0xA0 || c.toNat = 0x1680 ||
  (decide (0x2000 ≤ c.toNat) && decide (c.toNat ≤ 0x200A)) ||
  c.toNat = 0x2028 || c.toNat = 0x2029 || c.toNat = 0x202F || c.toNat = 0x205F ||
  c.toNat = 0x3000

/-- The class `\s` of the regular-expression library: `[\t\n\f\r ]`. -/
def isReSpace (c : Char) : Bool :=
  c = '\t' || c = '\n' || c = '\x0c' || c = '\r' || c = ' '

/-- Upper-case ASCII letter, the class `[A-Z]`. -/
def isUpper (c : Char) : Bool := decide ('A' ≤ c) && decide (c ≤ 'Z')

/-- ASCII lower-casing of one character. -/
def lowerChar (c : Char) : Char :=
  if isUpper c then Char.ofNat (c.toNat + 32) else c

/-- Call of `strings.Split(s, sep)` for a one-character separator: the pieces
between the separators, never an empty list. -/
def Split (sep : Char) : Str → List Str
  | [] => [[]]
  | c :: cs =>
    if c = sep then [] :: Split sep cs
    else
      match Split sep cs with
      | [] => [[c]]
      | w :: ws => (c :: w) :: ws

/-- Worker of `Fields`: the field still open at the head of the text, and the
complete fields after it. -/
def fieldsAux : Str → Str × List Str
  | [] => ([], [])
  | c :: cs =>
    let r := fieldsAux cs
    if isSpace c then ([], if r.1 = [] then r.2 else r.1 :: r.2)
    else (c :: r.1, r.2)

/-- Call of `strings.Fields(s)`: the maximal runs of non-space characters. -/
def Fields (s : Str) : List Str :=
  let r := fieldsAux s
  if r.1 = [] then r.2 else r.1 :: r.2

/-! ## Errors -/

/-- The two causes of a `strconv.NumError`. -/
inductive NumCause
  | ErrSyntax
  | ErrRange
deriving DecidableEq, Repr

/-- Go `error` values met by the collectors: an error of the operating system
(file probe, file read, command run, line scanner), or a `*strconv.NumError`
with its function name, its input and its cause. -/
inductive Error
  | os (msg : Str)
  | num (func : Str) (input : Str) (cause : NumCause)
deriving DecidableEq, Repr

/-! ## `strconv.ParseInt` and `strconv.ParseUint`, base 10 -/

/-- Loop of `strconv.ParseUint(s, 10, bitSize)` over the characters, with the
accumulator `n`; `maxVal = 2^bitSize - 1`.  A range error returns `maxVal`
at once, without looking at the rest. -/
def parseUintLoop (maxVal : Nat) : Str → Nat → Nat × Option NumCause
  | [], n => (n, none)
  | c :: cs, n =>
    if isDigit c then
      if (2 ^ 64 - 1) / 10 + 1 ≤ n then (maxVal, some .ErrRange)
      else
        let n1 := n * 10 + digitVal c
        if 2 ^ 64 ≤ n1 ∨ maxVal < n1 then (maxVal, some .ErrRange)
        else parseUintLoop maxVal cs n1
    else (0, some .ErrSyntax)

/-- Call of `strconv.ParseUint(s, 10, bitSize)`: value and cause of failure. -/
def ParseUint (s : Str) (bitSize : Nat) : Nat × Option NumCause :=
  if s = [] then (0, some .ErrSyntax) else parseUintLoop (2 ^ bitSize - 1) s 0

/-- Call of `strconv.ParseInt(s, 10, bitSize)`.  On a syntax error the value
is 0; on a range error it is the nearest bound of the type. -/
def ParseInt (s : Str) (bitSize : Nat) : Int × Option Error :=
  if s = [] then (0, some (.num "ParseInt".toList s .ErrSyntax))
  else
    let neg : Bool := s.head? = some '-'
    let body : Str := if s.head? = some '+' ∨ s.head? = some '-' then s.tail else s
    match ParseUint body bitSize with
    | (_, some .ErrSyntax) => (0, some (.num "ParseInt".toList s .ErrSyntax))
    | (un, _) =>
      let cutoff : Nat := 2 ^ (bitSize - 1)
      if neg = false ∧ cutoff ≤ un then
        ((cutoff : Int) - 1, some (.num "ParseInt".toList s .ErrRange))
      else if neg = true ∧ cutoff < un then
        (-(cutoff : Int), some (.num "ParseInt".toList s .ErrRange))
      else (if neg then -(un : Int) else (un : Int), none)

/-- Two's-complement wrap of an integer into the signed type of `bits` bits. -/
def wrapInt (bits : Nat) (x : Int) : Int :=
  (x + 2 ^ (bits - 1)) % 2 ^ bits - 2 ^ (bits - 1)

/-! ## Regular expressions

`FindStringSubmatch` returns the leftmost match, preferring at each choice the
greedy alternative.  In both patterns every repetition is followed by a
character its class excludes (after `[^:]+` a colon, after `\s+` a digit, after
`\d+` a dot), so giving back characters never helps and the match at a start
position is found by taking each run maximal. -/

/-- Leftmost search: the first suffix of the text at which `m` matches. -/
def findFrom {α : Type} (m : Str → Option α) : Str → Option α
  | [] => m []
  | c :: cs =>
    match m (c :: cs) with
    | some r => some r
    | none => findFrom m cs

/-- Match of `([^:]+):\s+(\d+)` anchored at the start of `s`: groups 1 and 2. -/
def meminfoMatchAt (s : Str) : Option (Str × Str) :=
  let key := s.takeWhile (fun c => c != ':')
  if key = [] then none
  else
    match s.dropWhile (fun c => c != ':') with
    | ':' :: r =>
      if r.takeWhile isReSpace = [] then none
      else
        let ds := (r.dropWhile isReSpace).takeWhile isDigit
        if ds = [] then none else some (key, ds)
    | _ => none

/-- Call of `meminfoParser.FindStringSubmatch(line)`: `results[1]` and
`results[2]`, or `none` for a `nil` result. -/
def meminfoParser (line : Str) : Option (Str × Str) := findFrom meminfoMatchAt line

/-- Match of `= (\d+\.\d{2}[A-Z])(.*)` anchored at the start of `s`: groups 1
and 2.  The dot of `(.*)` does not match a line feed. -/
def swapMatchAt (s : Str) : Option (Str × Str) :=
  match s with
  | '=' :: ' ' :: r =>
    let ds := r.takeWhile isDigit
    if ds = [] then none
    else
      match r.dropWhile isDigit with
      | '.' :: a :: b :: u :: rest =>
        if isDigit a ∧ isDigit b ∧ isUpper u then
          some (ds ++ ['.', a, b, u], rest.takeWhile (fun c => c != '\n'))
        else none
      | _ => none
  | _ => none

/-- Call of `swapRegexp.FindStringSubmatch(s)`: `matches[1]` and `matches[2]`,
or `none` for a `nil` result. -/
def swapRegexp (s : Str) : Option (Str × Str) := findFrom swapMatchAt s

/-! ## `float64`

A finite binary64 value is an integer multiple of `2^-1074`; the model keeps
that integer.  A value of magnitude `v` units with `v < 2^53` is stored exactly
(the subnormals and the lowest binade have one unit between neighbours); above
that a value of bit length `L` has `2^(L-53)` units between neighbours.  The
largest finite value is `(2^53 - 1) * 2^2045` units and every result of
magnitude `2^2098` units or more is an infinity. -/

/-- IEEE 754 binary64 value: a finite value in units of `2^-1074`, an infinity
with its sign, or a NaN. -/
inductive F64
  | fin (v : Int)
  | inf (neg : Bool)
  | nan
deriving DecidableEq, Repr

/-- Bit length of a natural number, by halving at most `fuel` times. -/
def bitLenAux : Nat → Nat → Nat
  | 0, _ => 0
  | fuel + 1, n => if n = 0 then 0 else bitLenAux fuel (n / 2) + 1

/-- Bit length of a natural number: 0 for 0, else the `L` with
`2^(L-1) ≤ n < 2^L`. -/
def bitLen (n : Nat) : Nat := bitLenAux n n

/-- Nearest integer to `n / d`, ties to the even one. -/
def rhe (n d : Nat) : Nat :=
  let q := n / d
  let r := n % d
  if 2 * r < d then q else if d < 2 * r then q + 1 else if q % 2 = 0 then q else q + 1

/-- Nearest binary64 magnitude to the exact magnitude `n / d` units, in units,
before the overflow test: the spacing is `2^s` units with `s` the bit length of
the integer part less 53. -/
def roundUnits (n d : Nat) : Nat :=
  let s := bitLen (n / d) - 53
  rhe n (d * 2 ^ s) * 2 ^ s

/-- Magnitude, in units, from which a rounded result is an infinity: `2^1024`. -/
def overflowUnits : Nat := 2 ^ 2098

/-- One, in units. -/
def oneUnits : Nat := 2 ^ 1074

/-- Rounding of the exact value `±n/d` units to binary64. -/
def F64.round (neg : Bool) (n d : Nat) : F64 :=
  let r := roundUnits n d
  if overflowUnits ≤ r then .inf neg
  else .fin (if neg then -(r : Int) else (r : Int))

/-- Conversion `float64(i)` of an integer. -/
def F64.ofInt (i : Int) : F64 := F64.round (decide (i < 0)) (i.natAbs * oneUnits) 1

/-- Product `x * y` in binary64. -/
def F64.mul : F64 → F64 → F64
  | .fin a, .fin b =>
    F64.round (xor (decide (a < 0)) (decide (b < 0))) (a.natAbs * b.natAbs) oneUnits
  | .fin a, .inf n => if a = 0 then .nan else .inf (xor (decide (a < 0)) n)
  | .inf n, .fin b => if b = 0 then .nan else .inf (xor n (decide (b < 0)))
  | .inf n, .inf m => .inf (xor n m)
  | .nan, _ => .nan
  | _, .nan => .nan

/-- Quotient `x / y` in binary64.  A finite non-zero value divided by zero is
the infinity of the sign of the dividend: the zero divisors that occur come
from non-negative integers and unsigned decimals, and are positive zeros. -/
def F64.div : F64 → F64 → F64
  | .fin a, .fin b =>
    if b = 0 then (if a = 0 then .nan else .inf (decide (a < 0)))
    else F64.round (xor (decide (a < 0)) (decide (b < 0))) (a.natAbs * oneUnits) b.natAbs
  | .fin _, .inf _ => .fin 0
  | .inf n, .fin b => .inf (xor n (decide (b < 0)))
  | .inf _, .inf _ => .nan
  | .nan, _ => .nan
  | _, .nan => .nan

/-- Integer part of a finite value, towards zero. -/
def F64.trunc : F64 → Option Int
  | .fin v => some (if v < 0 then -((v.natAbs / oneUnits : Nat) : Int) else ((v.natAbs / oneUnits : Nat) : Int))
  | _ => none

/-- Conversion of a `float64` to the signed integer type of `bits` bits: the
integer part when the type can hold it.  Otherwise the language leaves the
result to the implementation, which `oor` stands for. -/
def F64.toInt (oor : F64 → Int) (bits : Nat) (f : F64) : Int :=
  match f.trunc with
  | some t => if -(2 ^ (bits - 1) : Int) ≤ t ∧ t < 2 ^ (bits - 1) then t else wrapInt bits (oor f)
  | none => wrapInt bits (oor f)

/-- A binary64 value is one the type holds: finite values have at most 53
significant bits and lie below the overflow threshold. -/
def F64.valid : F64 → Prop
  | .fin v => v.natAbs < overflowUnits ∧ 2 ^ (bitLen v.natAbs - 53) ∣ v.natAbs
  | _ => True

/-! ## `strconv.ParseFloat`

The decimal grammar of the library: an optional sign, digits with an optional
point, an optional exponent, or one of the names `inf`, `infinity`, `nan`.  The
result is the binary64 nearest to the decimal value, ties to even; overflow
gives an infinity together with a range error.  Hexadecimal mantissas and
underscores between digits, which some versions of the library also read, are
syntax errors here; no statement below is about such a string. -/

/-- The names of the infinities and of NaN, compared without regard to case. -/
def special (s : Str) : Option F64 :=
  let l := s.map lowerChar
  if l = "+inf".toList ∨ l = "+infinity".toList ∨ l = "inf".toList ∨ l = "infinity".toList then
    some (.inf false)
  else if l = "-inf".toList ∨ l = "-infinity".toList then some (.inf true)
  else if l = "nan".toList then some .nan
  else none

/-- Exponent digits of `readFloat`: the value stops growing once it has
reached 10000. -/
def expDigits : Str → Nat → Nat
  | [], e => e
  | c :: cs, e => expDigits cs (if e < 10000 then e * 10 + digitVal c else e)

/-- Exponent part of `readFloat`, read from the text after the mantissa: the
decimal exponent when the text is empty or a well-formed exponent that ends
the string, else `none`. -/
def readExp (s : Str) : Option Int :=
  match s with
  | [] => some 0
  | c :: r =>
    if c = 'e' ∨ c = 'E' then
      let neg : Bool := r.head? = some '-'
      let ds : Str := if r.head? = some '+' ∨ r.head? = some '-' then r.tail else r
      if ds = [] ∨ ds.any (fun d => !isDigit d) then none
      else some (if neg then -((expDigits ds 0 : Nat) : Int) else ((expDigits ds 0 : Nat) : Int))
    else none

/-- The scanner `readFloat`: sign, mantissa digits as a number, and the power
of ten that scales them; `none` when the string is not a decimal number. -/
def readFloat (s : Str) : Option (Bool × Nat × Int) :=
  let neg : Bool := s.head? = some '-'
  let r : Str := if s.head? = some '+' ∨ s.head? = some '-' then s.tail else s
  let ip := r.takeWhile isDigit
  let r1 := r.dropWhile isDigit
  let fp : Str := match r1 with
    | '.' :: t => t.takeWhile isDigit
    | _ => []
  let r2 : Str := match r1 with
    | '.' :: t => t.dropWhile isDigit
    | _ => r1
  if ip = [] ∧ fp = [] then none
  else
    match readExp r2 with
    | none => none
    | some e => some (neg, digitsVal (ip ++ fp) 0, e - fp.length)

/-- Call of `strconv.ParseFloat(s, 64)`: the value and the error. -/
def ParseFloat (s : Str) : F64 × Option Error :=
  match special s with
  | some f => (f, none)
  | none =>
    match readFloat s with
    | none => (.fin 0, some (.num "ParseFloat".toList s .ErrSyntax))
    | some (neg, m, e) =>
      let f : F64 :=
        if 0 ≤ e then F64.round neg (m * 10 ^ e.toNat * oneUnits) 1
        else F64.round neg (m * oneUnits) (10 ^ (-e).toNat)
      match f with
      | .fin v => (.fin v, none)
      | g => (g, some (.num "ParseFloat".toList s .ErrRange))

/-! ## The store, the environment and the outcome of a collector -/

/-- Metric kinds of the store; `Gauge` is the constant `collectDisk` passes. -/
inductive MetricType
  | Gauge
  | Counter
deriving DecidableEq, Repr

/-- Calls a collector makes on the store. -/
inductive Call
  | save (family name : Str) (value : Int)
  | saveType (family name : Str) (value : Int) (t : MetricType)
deriving DecidableEq, Repr

/-- How a collector ends: it returns `nil`, it returns an error, or it stops
with a run-time panic (an index or a slice bound out of range). -/
inductive Outcome
  | nil
  | error (e : Error)
  | runtimePanic
deriving DecidableEq, Repr

/-- Run of a collector: the store calls made, in order, and the outcome. -/
structure Run where
  calls : List Call
  result : Outcome
deriving DecidableEq, Repr

/-- What the collectors take from outside `host.go`: the file probe
`util.FileExists`, `ioutil.ReadFile`, the combined output of an external
command, the line splitter `util.ReadLines`, the constant `CLK_TCK`, and the
integer an out-of-range conversion from `float64` yields on the platform. -/
structure Env where
  FileExists : Str → Except Error Bool
  ReadFile : Str → Except Error Str
  CombinedOutput : Str → List Str → Except Error Str
  ReadLines : Str → Except Error (List Str)
  CLK_TCK : Nat
  convert : F64 → Int

/-- The transform functions a metric can be declared with. -/
inductive Transform
  | tickPercentage
  | multiplyBy100
deriving DecidableEq, Repr

/-- The display functions a metric can be declared with. -/
inductive Display
  | displayLoad
  | displayPercent
  | displayInMB
deriving DecidableEq, Repr

/-- Declarations `NewHostStore` makes on the new store. -/
inductive Decl
  | declareGauge (family name : Str) (transform : Option Transform) (display : Display)
  | declareCounter (family name : Str) (transform : Option Transform) (display : Display)
  | declareDynamicFamily (family : Str)
deriving DecidableEq, Repr

/-- Result of `NewHostStore`: the package variable `cycleTicks` it assigns and
the declarations of the store it returns. -/
structure HostStore where
  cycleTicks : F64
  decls : List Decl
deriving DecidableEq, Repr

/-! ## Transforms and displays -/

/-- Initial value of the package variable: `CLK_TCK * 15`. -/
def cycleTicksInit (env : Env) : F64 := F64.ofInt ((env.CLK_TCK * 15 : Nat) : Int)

/-- The transform `tickPercentage`, reading the package variable `cycleTicks`:
`int64((float64(cur-prev) / cycleTicks) * 100)`. -/
def tickPercentage (env : Env) (cycleTicks : F64) (cur prev : Int) : Int :=
  F64.toInt env.convert 64
    (F64.mul (F64.div (F64.ofInt (wrapInt 64 (cur - prev))) cycleTicks) (F64.ofInt 100))

/-- The transform `multiplyBy100`. -/
def multiplyBy100 (val : Int) : Int := wrapInt 64 (val * 100)

/-- Call of `strconv.Itoa`. -/
def Itoa (i : Int) : Str :=
  if i < 0 then '-' :: Nat.toDigits 10 i.natAbs else Nat.toDigits 10 i.natAbs

/-- The display `displayPercent`: `strconv.Itoa(int(val)) + "%"`. -/
def displayPercent (val : Int) : Str := Itoa val ++ ['%']

/-- Call of `strconv.FormatFloat(f, 'f', 2, 64)`: the exact value of `f` rounded
to two decimals, ties to even, with a minus sign for a negative value; the
infinities and NaN print as `+Inf`, `-Inf` and `NaN`. -/
def FormatFloat2 (f : F64) : Str :=
  match f with
  | .fin v =>
    let r := rhe (v.natAbs * 100) oneUnits
    (if v < 0 then ['-'] else []) ++ Nat.toDigits 10 (r / 100) ++
      ['.', Nat.digitChar (r / 10 % 10), Nat.digitChar (r % 10)]
  | .inf false => "+Inf".toList
  | .inf true => "-Inf".toList
  | .nan => "NaN".toList

/-- The display `displayLoad`: `strconv.FormatFloat(float64(val)/100, 'f', 2, 64)`. -/
def displayLoad (val : Int) : Str := FormatFloat2 (F64.div (F64.ofInt val) (F64.ofInt 100))

/-- The display `displayInMB`:
`strconv.FormatFloat(float64(val)/(1024*1024), 'f', 2, 64) + "m"`. -/
def displayInMB (val : Int) : Str :=
  FormatFloat2 (F64.div (F64.ofInt val) (F64.ofInt (1024 * 1024))) ++ ['m']

/-- The constructor `NewHostStore`: assigns `cycleTicks` from the product
`cycleSeconds * CLK_TCK`, computed in the 64-bit `uint`, and declares the
schema. -/
def NewHostStore (env : Env) (cycleSeconds : Nat) : HostStore :=
  { cycleTicks := F64.ofInt (((cycleSeconds * env.CLK_TCK) % 2 ^ 64 : Nat) : Int)
    decls :=
      [ .declareGauge "swap".toList [] none .displayPercent,
        .declareGauge "load".toList "1".toList (some .multiplyBy100) .displayLoad,
        .declareGauge "load".toList "5".toList (some .multiplyBy100) .displayLoad,
        .declareGauge "load".toList "15".toList (some .multiplyBy100) .displayLoad,
        .declareCounter "cpu".toList [] (some .tickPercentage) .displayPercent,
        .declareCounter "cpu".toList "user".toList (some .tickPercentage) .displayPercent,
        .declareCounter "cpu".toList "system".toList (some .tickPercentage) .displayPercent,
        .declareCounter "cpu".toList "iowait".toList (some .tickPercentage) .displayPercent,
        .declareCounter "cpu".toList "steal".toList (some .tickPercentage) .displayPercent,
        .declareDynamicFamily "disk".toList,
        .declareGauge "disk".toList "/".toList none .displayPercent ] }

/-! ## `collectMemory` -/

/-- Go map from strings to `int64`, as the list of its assignments, latest
first; a key never assigned reads as 0. -/
def mapGet (m : List (Str × Int)) (k : Str) : Int :=
  match m.find? (fun p => p.1 = k) with
  | some p => p.2
  | none => 0

/-- The loop of `collectMemory` over the lines of `meminfo`, filling
`memMetrics`: empty lines and lines the pattern does not match are passed
over, a number `ParseInt` rejects ends the collector with that error. -/
def meminfoLoop : List Str → List (Str × Int) → Except Error (List (Str × Int))
  | [], m => .ok m
  | line :: rest, m =>
    if line = [] then meminfoLoop rest m
    else
      match meminfoParser line with
      | none => meminfoLoop rest m
      | some (k, v) =>
        match ParseInt v 64 with
        | (val, none) => meminfoLoop rest ((k, val) :: m)
        | (_, some e) => .error e

/-- The value `collectMemory` saves from `SwapFree` and `SwapTotal`: 100 when
free is 0, else 0 when free equals total, else
`int64(100 - int8(100*(float64(free)/float64(total))))`, the subtraction being
done in `int8`. -/
def swapFromMeminfo (env : Env) (free total : Int) : Int :=
  if free = 0 then 100
  else if free = total then 0
  else
    wrapInt 8 (100 - F64.toInt env.convert 8
      (F64.mul (F64.ofInt 100) (F64.div (F64.ofInt free) (F64.ofInt total))))

/-- The function `normalizeSwap`. -/
def normalizeSwap (val : F64) (size : Char) : F64 :=
  if size = 'M' ∨ size = 'm' then F64.mul val (F64.ofInt 1024)
  else if size = 'K' ∨ size = 'k' then val
  else if size = 'G' ∨ size = 'g' then F64.mul (F64.mul val (F64.ofInt 1024)) (F64.ofInt 1024)
  else if size = 'T' ∨ size = 't' then
    F64.mul (F64.mul (F64.mul val (F64.ofInt 1024)) (F64.ofInt 1024)) (F64.ofInt 1024)
  else val

/-- The fallback branch of `collectMemory` from the lines of the output of
`sysctl -n vm.swapusage` on: two matches of `swapRegexp`, the two sizes parsed
without their suffix letter, normalized, and the percentage saved. -/
def swapFallback (env : Env) (lines : List Str) : Run :=
  match lines with
  | [] => ⟨[], .runtimePanic⟩
  | rest :: _ =>
    match swapRegexp rest with
    | none => ⟨[], .runtimePanic⟩
    | some (total, rest2) =>
      match swapRegexp rest2 with
      | none => ⟨[], .runtimePanic⟩
      | some (used, _) =>
        match total.getLast?, used.getLast? with
        | some st, some su =>
          match ParseFloat total.dropLast with
          | (_, some e) => ⟨[], .error e⟩
          | (tot, none) =>
            match ParseFloat used.dropLast with
            | (_, some e) => ⟨[], .error e⟩
            | (usd, none) =>
              let t := normalizeSwap tot st
              let u := normalizeSwap usd su
              if t = .fin 0 then ⟨[.save "swap".toList [] 100], .nil⟩
              else
                ⟨[.save "swap".toList []
                    (F64.toInt env.convert 64 (F64.mul (F64.ofInt 100) (F64.div u t)))], .nil⟩
        | _, _ => ⟨[], .runtimePanic⟩

/-- The collector `collectMemory`. -/
def collectMemory (env : Env) (path : Str) : Run :=
  match env.FileExists (path ++ "/meminfo".toList) with
  | .error e => ⟨[], .error e⟩
  | .ok true =>
    match env.ReadFile (path ++ "/meminfo".toList) with
    | .error e => ⟨[], .error e⟩
    | .ok content =>
      match meminfoLoop (Split '\n' content) [] with
      | .error e => ⟨[], .error e⟩
      | .ok memMetrics =>
        ⟨[.save "swap".toList []
            (swapFromMeminfo env (mapGet memMetrics "SwapFree".toList)
              (mapGet memMetrics "SwapTotal".toList))], .nil⟩
  | .ok false =>
    match env.CombinedOutput "sysctl".toList ["-n".toList, "vm.swapusage".toList] with
    | .error e => ⟨[], .error e⟩
    | .ok sout =>
      match env.ReadLines sout with
      | .error e => ⟨[], .error e⟩
      | .ok lines => swapFallback env lines

/-! ## `collectLoadAverage` -/

/-- The second half of `collectLoadAverage`, from `loadavgString` on: split on
single spaces, parse the first three pieces in turn, then make the three
saves.  A piece that does not parse returns its error; a missing second or
third piece is an index out of range. -/
def saveLoadAverage (env : Env) (loadavgString : Str) : Run :=
  match Split ' ' loadavgString with
  | [] => ⟨[], .runtimePanic⟩
  | s0 :: r0 =>
    match ParseFloat s0 with
    | (_, some e) => ⟨[], .error e⟩
    | (load1, none) =>
      match r0 with
      | [] => ⟨[], .runtimePanic⟩
      | s1 :: r1 =>
        match ParseFloat s1 with
        | (_, some e) => ⟨[], .error e⟩
        | (load5, none) =>
          match r1 with
          | [] => ⟨[], .runtimePanic⟩
          | s2 :: _ =>
            match ParseFloat s2 with
            | (_, some e) => ⟨[], .error e⟩
            | (load15, none) =>
              ⟨[ .save "load".toList "1".toList
                   (F64.toInt env.convert 64 (F64.mul load1 (F64.ofInt 100))),
                 .save "load".toList "5".toList
                   (F64.toInt env.convert 64 (F64.mul load5 (F64.ofInt 100))),
                 .save "load".toList "15".toList
                   (F64.toInt env.convert 64 (F64.mul load15 (F64.ofInt 100))) ], .nil⟩

/-- The collector `collectLoadAverage`: the file `loadavg` when it exists, else
the first line of `sysctl -n vm.loadavg` without its first two and last two
characters. -/
def collectLoadAverage (env : Env) (path : Str) : Run :=
  match env.FileExists (path ++ "/loadavg".toList) with
  | .error e => ⟨[], .error e⟩
  | .ok true =>
    match env.ReadFile (path ++ "/loadavg".toList) with
    | .error e => ⟨[], .error e⟩
    | .ok content => saveLoadAverage env content
  | .ok false =>
    match env.CombinedOutput "sysctl".toList ["-n".toList, "vm.loadavg".toList] with
    | .error e => ⟨[], .error e⟩
    | .ok sout =>
      match env.ReadLines sout with
      | .error e => ⟨[], .error e⟩
      | .ok lines =>
        match lines with
        | [] => ⟨[], .runtimePanic⟩
        | l :: _ =>
          if l.length < 4 then ⟨[], .runtimePanic⟩
          else saveLoadAverage env ((l.drop 2).take (l.length - 4))

/-! ## `collectCpu` -/

/-- Sum of two `int64` values. -/
def add64 (a b : Int) : Int := wrapInt 64 (a + b)

/-- The part of `collectCpu` after the file is read: the fields of the first
line at the indices 1, 2, 3, 5, 6, 7 and 8 are parsed, the errors of `ParseInt`
being dropped, and five values are saved.  A first line with fewer than nine
fields is an index out of range. -/
def saveCpu (contents : Str) : Run :=
  match Split '\n' contents with
  | [] => ⟨[], .runtimePanic⟩
  | line :: _ =>
    let fields := Fields line
    match fields[1]?, fields[2]?, fields[3]?, fields[5]?, fields[6]?, fields[7]?, fields[8]? with
    | some f1, some f2, some f3, some f5, some f6, some f7, some f8 =>
      let user := (ParseInt f1 64).1
      let nice := (ParseInt f2 64).1
      let system := (ParseInt f3 64).1
      let iowait := (ParseInt f5 64).1
      let irq := (ParseInt f6 64).1
      let softIrq := (ParseInt f7 64).1
      let steal := (ParseInt f8 64).1
      let total := add64 (add64 (add64 (add64 (add64 (add64 user nice) system) iowait) irq) softIrq) steal
      ⟨[ .save "cpu".toList [] total,
         .save "cpu".toList "user".toList user,
         .save "cpu".toList "system".toList system,
         .save "cpu".toList "iowait".toList iowait,
         .save "cpu".toList "steal".toList steal ], .nil⟩
    | _, _, _, _, _, _, _ => ⟨[], .runtimePanic⟩

/-- The collector `collectCpu`: nothing is done when the file `stat` does not
exist. -/
def collectCpu (env : Env) (path : Str) : Run :=
  match env.FileExists (path ++ "/stat".toList) with
  | .error e => ⟨[], .error e⟩
  | .ok false => ⟨[], .nil⟩
  | .ok true =>
    match env.ReadFile (path ++ "/stat".toList) with
    | .error e => ⟨[], .error e⟩
    | .ok contents => saveCpu contents

/-! ## `collectDisk` -/

/-- Assignment `usage[k] = v` on a Go map kept as a list of entries with
distinct keys. -/
def mapSet (m : List (Str × Int)) (k : Str) (v : Int) : List (Str × Int) :=
  match m with
  | [] => [(k, v)]
  | p :: rest => if p.1 = k then (k, v) :: rest else p :: mapSet rest k v

/-- The loop of `collectDisk` over the lines, filling `usage`; `none` is the
index out of range of `line[0]` on an empty line.  The value `ParseInt`
returns is stored whether or not it comes with an error. -/
def diskLoop : List Str → List (Str × Int) → Option (List (Str × Int))
  | [], usage => some usage
  | line :: rest, usage =>
    match line with
    | [] => none
    | c :: _ =>
      if c = '/' then
        let items := Fields line
        if items.length < 5 then diskLoop rest usage
        else
          match items[4]?, items.getLast? with
          | some pct, some name =>
            match pct.getLast? with
            | none => none
            | some l =>
              if l = '%' then diskLoop rest (mapSet usage name (ParseInt pct.dropLast 32).1)
              else diskLoop rest usage
          | _, _ => none
      else diskLoop rest usage

/-- The part of `collectDisk` after the lines are read: one `saveType` per
entry of `usage`.  Go leaves the order in which a map is ranged over open; the
list has the entries in the order in which their keys were first assigned. -/
def saveDisk (lines : List Str) : Run :=
  match diskLoop lines [] with
  | none => ⟨[], .runtimePanic⟩
  | some usage =>
    ⟨usage.map (fun p => Call.saveType "disk".toList p.1 p.2 .Gauge), .nil⟩

/-- The collector `collectDisk`: the output of `df` for the empty path, else
the file at the path. -/
def collectDisk (env : Env) (path : Str) : Run :=
  if path = [] then
    match env.CombinedOutput "df".toList [] with
    | .error e => ⟨[], .error e⟩
    | .ok sout =>
      match env.ReadLines sout with
      | .error e => ⟨[], .error e⟩
      | .ok lines => saveDisk lines
  else
    match env.ReadFile path with
    | .error e => ⟨[], .error e⟩
    | .ok data =>
      match env.ReadLines data with
      | .error e => ⟨[], .error e⟩
      | .ok lines => saveDisk lines

/-! ## `CollectHost` -/

/-- The driver `CollectHost`: load average, memory, cpu, then disk with the
empty path; the first collector that does not return `nil` ends the pass. -/
def CollectHost (env : Env) (path : Str) : Run :=
  let r1 := collectLoadAverage env path
  match r1.result with
  | .nil =>
    let r2 := collectMemory env path
    match r2.result with
    | .nil =>
      let r3 := collectCpu env path
      match r3.result with
      | .nil =>
        let r4 := collectDisk env []
        match r4.result with
        | .nil => ⟨r1.calls ++ r2.calls ++ r3.calls ++ r4.calls, .nil⟩
        | o => ⟨r1.calls ++ r2.calls ++ r3.calls ++ r4.calls, o⟩
      | o => ⟨r1.calls ++ r2.calls ++ r3.calls, o⟩
    | o => ⟨r1.calls ++ r2.calls, o⟩
  | o => ⟨r1.calls, o⟩

/-! ## Sample environments -/

/-- Line splitter in the manner of a line scanner: the pieces between line
feeds, without a last empty piece. -/
def scanLines (data : Str) : List Str :=
  let l := Split '\n' data
  if l.getLast? = some [] then l.dropLast else l

/-- Environment over a list of files and a list of command outputs keyed by
command name, with `CLK_TCK = 100` and out-of-range conversions yielding the
smallest `int64`. -/
def sampleEnv (files : List (Str × Str)) (cmds : List (Str × Str)) : Env :=
  { FileExists := fun p => .ok (files.any (fun f => f.1 = p))
    ReadFile := fun p =>
      match files.find? (fun f => f.1 = p) with
      | some f => .ok f.2
      | none => .error (.os "no such file".toList)
    CombinedOutput := fun c args =>
      match cmds.find? (fun f => f.1 = c ++ args.flatten) with
      | some f => .ok f.2
      | none => .error (.os "exit status 1".toList)
    ReadLines := fun d => .ok (scanLines d)
    CLK_TCK := 100
    convert := fun _ => -(2 ^ 63) }

/-! ## The scaling of swap sizes, as specified -/

/-- The exact product of a binary64 value by a positive natural number: the
product itself while its magnitude is below the overflow threshold, beyond it
the infinity of the same sign. -/
def F64.timesExact (v : F64) (k : Nat) : F64 :=
  match v with
  | .fin x => if x.natAbs * k < overflowUnits then .fin (x * (k : Int)) else .inf (decide (x < 0))
  | .inf n => .inf n
  | .nan => .nan

/-- The normalization of a swap size in the words of the specification: the
factor is 1 for `K`, 1024 for `M`, `1024^2` for `G`, `1024^3` for `T`, in either
case of the letter, and a size with any other suffix is left as it is. -/
def normalizeSwapSpec (v : F64) (size : Char) : F64 :=
  if size = 'K' ∨ size = 'k' then v
  else if size = 'M' ∨ size = 'm' then v.timesExact 1024
  else if size = 'G' ∨ size = 'g' then v.timesExact (1024 ^ 2)
  else if size = 'T' ∨ size = 't' then v.timesExact (1024 ^ 3)
  else v

/-- The binary64 value nearest to the decimal number with the integer digits
`D` and the two fractional digits `a`, `b`: the value `ParseFloat` gives to
`D.ab` when that is below the overflow threshold. -/
def nearestTwoDecimals (D : Str) (a b : Char) : F64 :=
  .fin ((roundUnits (digitsVal (D ++ [a, b]) 0 * oneUnits) 100 : Nat) : Int)

/-- The two-decimal rendering of `v / 100` in the words of the specification:
the decimal digits of `v div 100`, a point, then `v mod 100` written with
exactly two digits. -/
def twoDecimalRendering (v : Nat) : Str :=
  Nat.toDigits 10 (v / 100) ++ ['.', Nat.digitChar (v % 100 / 10), Nat.digitChar (v % 100 % 10)]

/-! ## Sample hosts -/

deriving instance DecidableEq for Except

/-- A `meminfo` of a host without swap space. -/
def noSwapMeminfo : Str := "MemTotal: 1024 kB\nSwapTotal: 0 kB\nSwapFree: 0 kB\n".toList

/-- Host whose `/proc/meminfo` reports no swap space. -/
def noSwapEnv : Env := sampleEnv [("/proc/meminfo".toList, noSwapMeminfo)] []

/-- A `meminfo` of a host whose swap space is all free. -/
def idleSwapMeminfo : Str :=
  "MemTotal: 1024 kB\nSwapTotal: 2048 kB\nSwapFree: 2048 kB\n".toList

/-- Host whose swap space is all free. -/
def idleSwapEnv : Env := sampleEnv [("/proc/meminfo".toList, idleSwapMeminfo)] []

/-- A `meminfo` with two thirds of the swap space free. -/
def thirdSwapMeminfo : Str := "SwapTotal: 3 kB\nSwapFree: 2 kB\n".toList

/-- Host with two thirds of its swap space free. -/
def thirdSwapEnv : Env := sampleEnv [("/proc/meminfo".toList, thirdSwapMeminfo)] []

/-- Output of `df` with a well-formed line, a line whose percentage field is
`-%`, and a line of three fields. -/
def dfDashOutput : Str :=
  ("Filesystem 1K-blocks Used Available Use% Mounted on\n" ++
   "/dev/sda1  100G  50G  50G  50%  /\n" ++
   "/dev/sdb1  100G  50G  50G  -%  /data\n" ++
   "/dev/sdc1  100G  50G\n").toList

/-- Host whose `df` prints `dfDashOutput`. -/
def dfDashEnv : Env := sampleEnv [] [("df".toList, dfDashOutput)]

/-- Output of `df` with a well-formed line, a line whose percentage field is
`abc%`, and a line whose percentage does not fit in 32 bits. -/
def dfGarbledOutput : Str :=
  ("/dev/sda1  100G  50G  50G  50%  /\n" ++
   "/dev/sdb1  100G  50G  50G  abc%  /mnt\n" ++
   "/dev/sdc1  100G  50G  50G  4294967296%  /big\n").toList

/-- Host whose `df` prints `dfGarbledOutput`. -/
def dfGarbledEnv : Env := sampleEnv [] [("df".toList, dfGarbledOutput)]

/-- Host whose `/proc/loadavg` reads `0.29 0.57 0.58`. -/
def loadEnv029 : Env := sampleEnv [("/proc/loadavg".toList, "0.29 0.57 0.58".toList)] []

/-- Host whose `/proc/loadavg` reads `0.50 1.20 2.35`. -/
def loadEnv050 : Env := sampleEnv [("/proc/loadavg".toList, "0.50 1.20 2.35".toList)] []

/-- Host whose `/proc/stat` starts with `cpu` and seven numbers. -/
def statSevenEnv : Env := sampleEnv [("/proc/stat".toList, "cpu 1 2 3 4 5 6 7\n".toList)] []

/-- A `stat` in the layout of the kernel: user, nice, system, idle, iowait,
irq, softirq, steal, guest, guest_nice. -/
def statContents : Str :=
  "cpu  10 20 30 4000 50 60 70 80 0 0\ncpu0 10 20 30 4000 50 60 70 80 0 0\nintr 0\n".toList

/-- Host whose `/proc/stat` is `statContents`. -/
def statEnv : Env := sampleEnv [("/proc/stat".toList, statContents)] []

/-- Host with no files and no commands; `CLK_TCK` is 100. -/
def bareEnv : Env := sampleEnv [] []

/-- Host without `/proc` whose `sysctl -n vm.swapusage` prints the line given. -/
def swapusageEnv (line : Str) : Env :=
  sampleEnv [] [("sysctl-nvm.swapusage".toList, line ++ ['\n'])]

/-- A total of 310 nines before the point: beyond the range of `float64`. -/
def hugeTotal : Str := List.replicate 310 '9' ++ ".00".toList

/-- Host whose `loadavg` is well formed, whose `meminfo` holds a number beyond
`int64`, and whose `stat` and `df` are well formed. -/
def badMeminfoEnv : Env :=
  sampleEnv
    [ ("/proc/loadavg".toList, "0.50 1.20 2.35 1/234 5678\n".toList),
      ("/proc/meminfo".toList, "SwapTotal: 99999999999999999999 kB\nSwapFree: 0 kB\n".toList),
      ("/proc/stat".toList, statContents) ]
    [("df".toList, dfDashOutput)]

/-- Host without `/proc` whose `sysctl -n vm.swapusage` prints nothing. -/
def silentSwapusageEnv : Env := sampleEnv [] [("sysctl-nvm.swapusage".toList, [])]

/-- Output of `df` with an empty line between the header and a well-formed
line. -/
def dfBlankOutput : Str :=
  ("Filesystem 1K-blocks Used Available Use% Mounted on\n" ++
   "\n" ++
   "/dev/sda1  100G  50G  50G  50%  /\n").toList

/-- Host whose `df` prints `dfBlankOutput`. -/
def dfBlankEnv : Env := sampleEnv [] [("df".toList, dfBlankOutput)]

/-- Host whose `/proc/loadavg` has the content given. -/
def loadavgEnv (content : Str) : Env := sampleEnv [("/proc/loadavg".toList, content)] []

/-- Host whose `/proc/stat` has a first line with a field that is not a number
and a field beyond `int64`. -/
def statGarbledEnv : Env :=
  sampleEnv [("/proc/stat".toList, "cpu 99999999999999999999 x 30 4000 50 60 70 80\n".toList)] []

/-- Host with two copies of a `meminfo`, the second with the line
`garbage here` inserted after the first line. -/
def twoMeminfoEnv : Env :=
  sampleEnv
    [ ("/proc/meminfo".toList, "SwapTotal: 3 kB\nSwapFree: 2 kB\n".toList),
      ("/alt/meminfo".toList, "SwapTotal: 3 kB\ngarbage here\nSwapFree: 2 kB\n".toList) ] []

/-- Host with the file `/proc/loadavg` and, for a path without that file, the
same three load averages in the output of `sysctl -n vm.loadavg`. -/
def bothLoadEnv : Env :=
  sampleEnv [("/proc/loadavg".toList, "0.50 1.20 2.35".toList)]
    [("sysctl-nvm.loadavg".toList, "\x7b 0.50 1.20 2.35 \x7d\n".toList)]

/-! ## Lemmas on the rounding of `float64` -/

theorem bitLenAux_zero (fuel : Nat) : bitLenAux fuel 0 = 0 := by
  cases fuel <;> simp [bitLenAux]

theorem bitLenAux_spec (fuel : Nat) : ∀ n : Nat, n ≤ fuel →
    n < 2 ^ bitLenAux fuel n ∧ (n ≠ 0 → 2 ^ (bitLenAux fuel n - 1) ≤ n) := by
  induction fuel with
  | zero =>
    intro n hn
    have h0 : n = 0 := by omega
    subst h0
    simp [bitLenAux]
  | succ fuel ih =>
    intro n hn
    by_cases h0 : n = 0
    · subst h0
      simp [bitLenAux]
    · have hhalf : n / 2 ≤ fuel := by omega
      obtain ⟨hlt, hge⟩ := ih (n / 2) hhalf
      have hdef : bitLenAux (fuel + 1) n = bitLenAux fuel (n / 2) + 1 := by
        simp [bitLenAux, h0]
      rw [hdef]
      constructor
      · have : 2 ^ (bitLenAux fuel (n / 2) + 1) = 2 * 2 ^ bitLenAux fuel (n / 2) := by
          rw [pow_succ]; ring
        omega
      · intro _
        simp only [Nat.add_sub_cancel]
        by_cases hz : n / 2 = 0
        · rw [hz, bitLenAux_zero]
          simp
          omega
        · have h1 := hge hz
          have hpos : 1 ≤ bitLenAux fuel (n / 2) := by
            by_contra hc
            have : bitLenAux fuel (n / 2) = 0 := by omega
            rw [this] at hlt
            simp at hlt
            exact hz hlt
          have : 2 ^ bitLenAux fuel (n / 2) = 2 * 2 ^ (bitLenAux fuel (n / 2) - 1) := by
            conv_lhs => rw [← Nat.sub_add_cancel hpos]
            rw [pow_succ]; ring
          omega

theorem lt_two_pow_bitLen (n : Nat) : n < 2 ^ bitLen n :=
  (bitLenAux_spec n n (Nat.le_refl n)).1

theorem two_pow_bitLen_le (n : Nat) (h : n ≠ 0) : 2 ^ (bitLen n - 1) ≤ n :=
  (bitLenAux_spec n n (Nat.le_refl n)).2 h

theorem bitLen_zero : bitLen 0 = 0 := by
  simp [bitLen, bitLenAux]

theorem bitLen_le_iff (n L : Nat) : bitLen n ≤ L ↔ n < 2 ^ L := by
  constructor
  · intro h
    exact Nat.lt_of_lt_of_le (lt_two_pow_bitLen n) (Nat.pow_le_pow_right (by norm_num) h)
  · intro h
    by_cases h0 : n = 0
    · subst h0
      simp [bitLen_zero]
    · have h1 := two_pow_bitLen_le n h0
      have h2 : 2 ^ (bitLen n - 1) < 2 ^ L := Nat.lt_of_le_of_lt h1 h
      have h3 : bitLen n - 1 < L := (Nat.pow_lt_pow_iff_right (by norm_num)).mp h2
      omega

theorem bitLen_mono {m n : Nat} (h : m ≤ n) : bitLen m ≤ bitLen n :=
  (bitLen_le_iff m (bitLen n)).mpr (Nat.lt_of_le_of_lt h (lt_two_pow_bitLen n))

theorem bitLen_pos {n : Nat} (h : n ≠ 0) : 1 ≤ bitLen n := by
  by_contra hc
  have h0 : bitLen n = 0 := by omega
  have := lt_two_pow_bitLen n
  rw [h0] at this
  simp at this
  exact h this

theorem bitLen_eq {n L : Nat} (h1 : 2 ^ L ≤ n) (h2 : n < 2 ^ (L + 1)) : bitLen n = L + 1 := by
  have hle : bitLen n ≤ L + 1 := (bitLen_le_iff n (L + 1)).mpr h2
  have hn : ¬ bitLen n ≤ L := by
    intro hc
    have := (bitLen_le_iff n L).mp hc
    omega
  omega

theorem bitLen_mul_two_pow (m k : Nat) (h : m ≠ 0) : bitLen (m * 2 ^ k) = bitLen m + k := by
  have hpos := bitLen_pos h
  have h1 := two_pow_bitLen_le m h
  have h2 := lt_two_pow_bitLen m
  have hk : 0 < 2 ^ k := by positivity
  have e : bitLen m + k = (bitLen m - 1 + k) + 1 := by omega
  rw [e]
  apply bitLen_eq
  · rw [pow_add]
    exact Nat.mul_le_mul_right _ h1
  · have : 2 ^ (bitLen m - 1 + k + 1) = 2 ^ bitLen m * 2 ^ k := by
      rw [← pow_add]
      congr 1
      omega
    rw [this]
    exact Nat.mul_lt_mul_of_pos_right h2 hk

theorem rhe_spec (n d : Nat) (hd : 0 < d) :
    2 * rhe n d * d ≤ 2 * n + d ∧ 2 * n ≤ 2 * rhe n d * d + d ∧
    (2 * n = 2 * rhe n d * d + d → rhe n d % 2 = 0) ∧
    (2 * n + d = 2 * rhe n d * d → rhe n d % 2 = 0) := by
  have hdm := Nat.div_add_mod n d
  have hr := Nat.mod_lt n hd
  have hq : n / d * d + n % d = n := by rw [Nat.mul_comm]; exact hdm
  have e0 : 2 * (n / d) * d = 2 * (n / d * d) := by ring
  have e1 : 2 * (n / d + 1) * d = 2 * (n / d * d) + 2 * d := by ring
  unfold rhe
  simp only
  split_ifs with h1 h2 h3
  · rw [e0]
    refine ⟨by omega, by omega, ?_, ?_⟩
    · intro h; exfalso; omega
    · intro h; exfalso; omega
  · rw [e1]
    refine ⟨by omega, by omega, ?_, ?_⟩
    · intro h; exfalso; omega
    · intro h; exfalso; omega
  · rw [e0]
    exact ⟨by omega, by omega, fun _ => h3, fun _ => h3⟩
  · rw [e1]
    refine ⟨by omega, by omega, ?_, ?_⟩
    · intro _; omega
    · intro _; omega

theorem rhe_le {n d k : Nat} (hd : 0 < d) (h : n ≤ k * d) : rhe n d ≤ k := by
  obtain ⟨h1, _, _, h4⟩ := rhe_spec n d hd
  generalize rhe n d = r at *
  by_contra hc
  have hk : k + 1 ≤ r := by omega
  have h5 : 2 * (k + 1) * d ≤ 2 * r * d :=
    Nat.mul_le_mul_right d (Nat.mul_le_mul_left 2 hk)
  have e : 2 * (k + 1) * d = 2 * (k * d) + 2 * d := by ring
  omega

theorem le_rhe {n d k : Nat} (hd : 0 < d) (h : k * d ≤ n) : k ≤ rhe n d := by
  obtain ⟨_, h2, _, _⟩ := rhe_spec n d hd
  generalize rhe n d = r at *
  by_contra hc
  have hk : r + 1 ≤ k := by omega
  have h5 : 2 * (r + 1) * d ≤ 2 * k * d :=
    Nat.mul_le_mul_right d (Nat.mul_le_mul_left 2 hk)
  have e : 2 * (r + 1) * d = 2 * r * d + 2 * d := by ring
  have e2 : 2 * k * d = 2 * (k * d) := by ring
  omega

theorem rhe_exact (k d : Nat) (hd : 0 < d) : rhe (k * d) d = k :=
  Nat.le_antisymm (rhe_le hd (Nat.le_refl _)) (le_rhe hd (Nat.le_refl _))

/-- Two nearest-integer roundings of ordered rationals cannot be out of order:
the arithmetic core, over the integers. -/
theorem rhe_mono_arith (n d n' d' k k' : Int) (pd : 0 < d) (pd' : 0 < d')
    (a1 : 2 * k * d ≤ 2 * n + d) (b2 : 2 * n' ≤ 2 * k' * d' + d')
    (c : n * d' ≤ n' * d) (hk : k' + 1 ≤ k) :
    k = k' + 1 ∧ 2 * n + d = 2 * k * d ∧ 2 * n' = 2 * k' * d' + d' := by
  have pdd : 0 < d * d' := mul_pos pd pd'
  have hA : 0 ≤ (2 * n + d - 2 * k * d) * d' := mul_nonneg (by linarith) (le_of_lt pd')
  have hB : 0 ≤ (2 * k' * d' + d' - 2 * n') * d := mul_nonneg (by linarith) (le_of_lt pd)
  have hK : 0 ≤ (k - k' - 1) * (d * d') := mul_nonneg (by linarith) (le_of_lt pdd)
  have ident : (2 * n + d - 2 * k * d) * d' + (2 * k' * d' + d' - 2 * n') * d
      + 2 * (n' * d - n * d') + 2 * ((k - k' - 1) * (d * d')) = 0 := by ring
  have zA : (2 * n + d - 2 * k * d) * d' = 0 := by linarith
  have zB : (2 * k' * d' + d' - 2 * n') * d = 0 := by linarith
  have zK : (k - k' - 1) * (d * d') = 0 := by linarith
  refine ⟨?_, ?_, ?_⟩
  · rcases mul_eq_zero.mp zK with h0 | h0
    · linarith
    · exact absurd h0 (ne_of_gt pdd)
  · rcases mul_eq_zero.mp zA with h0 | h0
    · linarith
    · exact absurd h0 (ne_of_gt pd')
  · rcases mul_eq_zero.mp zB with h0 | h0
    · linarith
    · exact absurd h0 (ne_of_gt pd)

theorem rhe_mono {n d n' d' : Nat} (hd : 0 < d) (hd' : 0 < d') (h : n * d' ≤ n' * d) :
    rhe n d ≤ rhe n' d' := by
  obtain ⟨h1, _, _, h4⟩ := rhe_spec n d hd
  obtain ⟨_, g2, g3, _⟩ := rhe_spec n' d' hd'
  generalize rhe n d = k at *
  generalize rhe n' d' = k' at *
  by_contra hc
  have hk : k' + 1 ≤ k := by omega
  have a1 : (2 : Int) * k * d ≤ 2 * n + d := by exact_mod_cast h1
  have b2 : (2 : Int) * n' ≤ 2 * k' * d' + d' := by exact_mod_cast g2
  have c : (n : Int) * d' ≤ n' * d := by exact_mod_cast h
  have k1 : (k' : Int) + 1 ≤ k := by exact_mod_cast hk
  have pd : (0 : Int) < d := by exact_mod_cast hd
  have pd' : (0 : Int) < d' := by exact_mod_cast hd'
  obtain ⟨e1, e2, e3⟩ := rhe_mono_arith n d n' d' k k' pd pd' a1 b2 c k1
  have v1 : 2 * n + d = 2 * k * d := by exact_mod_cast e2
  have v2 : 2 * n' = 2 * k' * d' + d' := by exact_mod_cast e3
  have keq : k = k' + 1 := by exact_mod_cast e1
  have p1 := h4 v1
  have p2 := g3 v2
  omega

theorem roundUnits_le {n d B : Nat} (hd : 0 < d) (h : n ≤ B * d)
    (hdiv : 2 ^ (bitLen B - 53) ∣ B) : roundUnits n d ≤ B := by
  have hq : n / d ≤ B := Nat.div_le_of_le_mul (by rw [Nat.mul_comm]; exact h)
  have hs : bitLen (n / d) - 53 ≤ bitLen B - 53 := Nat.sub_le_sub_right (bitLen_mono hq) 53
  have hdiv2 : 2 ^ (bitLen (n / d) - 53) ∣ B :=
    Nat.dvd_trans (Nat.pow_dvd_pow 2 hs) hdiv
  obtain ⟨k, hk⟩ := hdiv2
  unfold roundUnits
  simp only
  generalize bitLen (n / d) - 53 = s at *
  have hpos : 0 < d * 2 ^ s := Nat.mul_pos hd (by positivity)
  have hn : n ≤ k * (d * 2 ^ s) := by
    calc n ≤ B * d := h
      _ = k * (d * 2 ^ s) := by rw [hk]; ring
  have := rhe_le hpos hn
  calc rhe n (d * 2 ^ s) * 2 ^ s ≤ k * 2 ^ s := Nat.mul_le_mul_right _ this
    _ = B := by rw [hk]; ring

theorem le_roundUnits {n d B : Nat} (hd : 0 < d) (h : B * d ≤ n)
    (hdiv : 2 ^ (bitLen (n / d) - 53) ∣ B) : B ≤ roundUnits n d := by
  obtain ⟨k, hk⟩ := hdiv
  unfold roundUnits
  simp only
  generalize bitLen (n / d) - 53 = s at *
  have hpos : 0 < d * 2 ^ s := Nat.mul_pos hd (by positivity)
  have hn : k * (d * 2 ^ s) ≤ n := by
    calc k * (d * 2 ^ s) = B * d := by rw [hk]; ring
      _ ≤ n := h
  have := le_rhe hpos hn
  calc B = k * 2 ^ s := by rw [hk]; ring
    _ ≤ rhe n (d * 2 ^ s) * 2 ^ s := Nat.mul_le_mul_right _ this

theorem roundUnits_exact (m d : Nat) (hd : 0 < d) (hm : 2 ^ (bitLen m - 53) ∣ m) :
    roundUnits (m * d) d = m := by
  apply Nat.le_antisymm
  · exact roundUnits_le hd (Nat.le_refl _) hm
  · apply le_roundUnits hd (Nat.le_refl _)
    rw [Nat.mul_div_cancel _ hd]
    exact hm

theorem roundUnits_mono {n d n' d' : Nat} (hd : 0 < d) (hd' : 0 < d')
    (h : n * d' ≤ n' * d) : roundUnits n d ≤ roundUnits n' d' := by
  have hq : n / d ≤ n' / d' := by
    rw [Nat.le_div_iff_mul_le hd']
    calc n / d * d' ≤ n' * d / d := by
          rw [Nat.le_div_iff_mul_le hd]
          calc n / d * d' * d = (n / d * d) * d' := by ring
            _ ≤ n * d' := Nat.mul_le_mul_right _ (Nat.div_mul_le_self n d)
            _ ≤ n' * d := h
      _ = n' := Nat.mul_div_cancel _ hd
  have hL := bitLen_mono hq
  by_cases hs : bitLen (n / d) - 53 = bitLen (n' / d') - 53
  · unfold roundUnits
    simp only
    rw [hs]
    generalize bitLen (n' / d') - 53 = s
    apply Nat.mul_le_mul_right
    apply rhe_mono (Nat.mul_pos hd (by positivity)) (Nat.mul_pos hd' (by positivity))
    calc n * (d' * 2 ^ s) = (n * d') * 2 ^ s := by ring
      _ ≤ (n' * d) * 2 ^ s := Nat.mul_le_mul_right _ h
      _ = n' * (d * 2 ^ s) := by ring
  · have hlt : bitLen (n / d) < bitLen (n' / d') := by omega
    have h53 : 53 < bitLen (n' / d') := by omega
    have hne : n' / d' ≠ 0 := by
      intro h0
      rw [h0, bitLen_zero] at h53
      omega
    -- the smaller value rounds to at most `2 ^ bitLen (n / d)`
    have up : roundUnits n d ≤ 2 ^ bitLen (n / d) := by
      apply roundUnits_le hd
      · have := lt_two_pow_bitLen (n / d)
        have h2 : n < (n / d + 1) * d := by
          have := Nat.lt_succ_self (n / d)
          exact (Nat.div_lt_iff_lt_mul hd).mp this
        calc n ≤ (n / d + 1) * d := le_of_lt h2
          _ ≤ 2 ^ bitLen (n / d) * d := Nat.mul_le_mul_right _ this
      · exact Nat.pow_dvd_pow 2 (by
          have : bitLen (2 ^ bitLen (n / d)) = bitLen (n / d) + 1 :=
            bitLen_eq (Nat.le_refl _) (Nat.pow_lt_pow_right (by norm_num) (Nat.lt_succ_self _))
          omega)
    -- the larger value rounds to at least `2 ^ (bitLen (n' / d') - 1)`
    have lo : 2 ^ (bitLen (n' / d') - 1) ≤ roundUnits n' d' := by
      apply le_roundUnits hd'
      · have := two_pow_bitLen_le (n' / d') hne
        calc 2 ^ (bitLen (n' / d') - 1) * d' ≤ n' / d' * d' := Nat.mul_le_mul_right _ this
          _ ≤ n' := Nat.div_mul_le_self n' d'
      · exact Nat.pow_dvd_pow 2 (by omega)
    calc roundUnits n d ≤ 2 ^ bitLen (n / d) := up
      _ ≤ 2 ^ (bitLen (n' / d') - 1) := Nat.pow_le_pow_right (by norm_num) (by omega)
      _ ≤ roundUnits n' d' := lo

theorem representable_small (c k : Nat) (hc : c < 2 ^ 53) :
    2 ^ (bitLen (c * 2 ^ k) - 53) ∣ c * 2 ^ k := by
  by_cases h0 : c = 0
  · subst h0
    simp
  · rw [bitLen_mul_two_pow c k h0]
    have hb : bitLen c ≤ 53 := (bitLen_le_iff c 53).mpr hc
    exact Nat.dvd_trans (Nat.pow_dvd_pow 2 (by omega)) (Nat.dvd_mul_left _ _)

theorem overflowUnits_eq : overflowUnits = 2 ^ 1024 * oneUnits := by
  unfold overflowUnits oneUnits
  rw [← pow_add]

theorem oneUnits_pos : 0 < oneUnits := by
  unfold oneUnits
  positivity

/-- A non-negative exact value bounded by a representable magnitude below the
overflow threshold rounds to a finite value, bounded by the same magnitude. -/
theorem round_fin {n d B : Nat} (hd : 0 < d) (h : n ≤ B * d)
    (hdiv : 2 ^ (bitLen B - 53) ∣ B) (hB : B < overflowUnits) :
    F64.round false n d = .fin ((roundUnits n d : Nat) : Int) := by
  have hle := roundUnits_le hd h hdiv
  unfold F64.round
  simp only
  rw [if_neg (by omega)]
  simp

theorem mul_oneUnits_representable (c : Nat) (hc : c < 2 ^ 53) :
    2 ^ (bitLen (c * oneUnits) - 53) ∣ c * oneUnits := by
  unfold oneUnits
  exact representable_small c 1074 hc

theorem oneUnits_representable : 2 ^ (bitLen oneUnits - 53) ∣ oneUnits := by
  have := mul_oneUnits_representable 1 (by norm_num)
  rw [Nat.one_mul] at this
  exact this

theorem oneUnits_lt_overflowUnits : oneUnits < overflowUnits := by
  rw [overflowUnits_eq]
  calc oneUnits = 1 * oneUnits := (Nat.one_mul _).symm
    _ < 2 ^ 1024 * oneUnits := Nat.mul_lt_mul_of_pos_right (by norm_num) oneUnits_pos

theorem xor_neg_natCast (a b : Nat) :
    xor (decide ((a : Int) < 0)) (decide ((b : Int) < 0)) = false := by
  have ha : ¬ ((a : Int) < 0) := not_lt.mpr (Int.ofNat_nonneg a)
  have hb : ¬ ((b : Int) < 0) := not_lt.mpr (Int.ofNat_nonneg b)
  simp [ha, hb]

theorem mul_fin_natCast (a b : Nat) :
    F64.mul (.fin (a : Int)) (.fin (b : Int)) = F64.round false (a * b) oneUnits := by
  simp only [F64.mul]
  rw [xor_neg_natCast, Int.natAbs_ofNat, Int.natAbs_ofNat]

theorem div_fin_natCast (a b : Nat) (hb : b ≠ 0) :
    F64.div (.fin (a : Int)) (.fin (b : Int)) = F64.round false (a * oneUnits) b := by
  have hb0 : ¬ ((b : Int) = 0) := by exact_mod_cast hb
  simp only [F64.div, hb0, if_false]
  rw [xor_neg_natCast, Int.natAbs_ofNat, Int.natAbs_ofNat]

/-- Conversion of a natural number below `2^63`: finite, and bounded by `2^63`. -/
theorem ofInt_natCast (i : Nat) (h : i < 2 ^ 63) :
    F64.ofInt (i : Int) = .fin ((roundUnits (i * oneUnits) 1 : Nat) : Int) ∧
    roundUnits (i * oneUnits) 1 ≤ 2 ^ 63 * oneUnits := by
  have hdiv : 2 ^ (bitLen (2 ^ 63 * oneUnits) - 53) ∣ 2 ^ 63 * oneUnits := by
    have e : 2 ^ 63 * oneUnits = 1 * 2 ^ (63 + 1074) := by
      unfold oneUnits
      rw [pow_add]; ring
    rw [e]
    exact representable_small 1 _ (by norm_num)
  have hle : i * oneUnits ≤ 2 ^ 63 * oneUnits * 1 := by
    rw [Nat.mul_one]
    exact Nat.mul_le_mul_right _ (le_of_lt h)
  have hB : 2 ^ 63 * oneUnits < overflowUnits := by
    rw [overflowUnits_eq]
    exact Nat.mul_lt_mul_of_pos_right (by norm_num) oneUnits_pos
  constructor
  · unfold F64.ofInt
    have hn : decide ((i : Int) < 0) = false := by simp
    rw [hn, Int.natAbs_ofNat]
    exact round_fin (by norm_num) hle hdiv hB
  · exact roundUnits_le (by norm_num) hle hdiv

/-- Conversion of a natural number below `2^53` is exact. -/
theorem ofInt_exact (i : Nat) (h : i < 2 ^ 53) :
    F64.ofInt (i : Int) = .fin ((i * oneUnits : Nat) : Int) := by
  have h63 : i < 2 ^ 63 := Nat.lt_of_lt_of_le h (by norm_num)
  rw [(ofInt_natCast i h63).1]
  have := roundUnits_exact (i * oneUnits) 1 (by norm_num) (mul_oneUnits_representable i h)
  rw [Nat.mul_one] at this
  rw [this]

theorem trunc_fin_natCast (r : Nat) : F64.trunc (.fin (r : Int)) = some ((r / oneUnits : Nat) : Int) := by
  unfold F64.trunc
  simp

/-! ## `collectMemory`, the `meminfo` branch -/

/-- On a readable `meminfo` whose numbers all parse, `collectMemory` makes one
save, of the value computed from the two swap entries. -/
theorem collectMemory_meminfo_run (env : Env) (path content : Str) (m : List (Str × Int))
    (hex : env.FileExists (path ++ "/meminfo".toList) = .ok true)
    (hrd : env.ReadFile (path ++ "/meminfo".toList) = .ok content)
    (hparse : meminfoLoop (Split '\n' content) [] = .ok m) :
    collectMemory env path = ⟨[.save "swap".toList []
      (swapFromMeminfo env (mapGet m "SwapFree".toList) (mapGet m "SwapTotal".toList))], .nil⟩ := by
  unfold collectMemory
  rw [hex]
  simp only [hrd, hparse]

/-- C1, as the code has it: in the `meminfo` branch, when `SwapFree` is 0 the
value saved for swap is 100, shown as `100%`, whatever `SwapTotal` is; when
`SwapFree` equals `SwapTotal` and is not 0 the value saved is 0, shown as `0%`. -/
theorem collectMemory_swap_endpoints (env : Env) (path content : Str) (m : List (Str × Int))
    (hex : env.FileExists (path ++ "/meminfo".toList) = .ok true)
    (hrd : env.ReadFile (path ++ "/meminfo".toList) = .ok content)
    (hparse : meminfoLoop (Split '\n' content) [] = .ok m) :
    (mapGet m "SwapFree".toList = 0 →
      collectMemory env path = ⟨[.save "swap".toList [] 100], .nil⟩ ∧
      displayPercent 100 = "100%".toList) ∧
    (mapGet m "SwapFree".toList = mapGet m "SwapTotal".toList →
      mapGet m "SwapFree".toList ≠ 0 →
      collectMemory env path = ⟨[.save "swap".toList [] 0], .nil⟩ ∧
      displayPercent 0 = "0%".toList) := by
  have hrun := collectMemory_meminfo_run env path content m hex hrd hparse
  generalize mapGet m "SwapFree".toList = free at hrun ⊢
  generalize mapGet m "SwapTotal".toList = total at hrun ⊢
  constructor
  · intro h0
    refine ⟨?_, by decide⟩
    rw [hrun]
    simp [swapFromMeminfo, h0]
  · intro heq hne
    refine ⟨?_, by decide⟩
    rw [hrun]
    subst heq
    simp [swapFromMeminfo, hne]

/-- Witness of `collectMemory_swap_endpoints`: a host whose 2048 kB of swap are
all free saves 0. -/
theorem collectMemory_swap_endpoints_witness :
    idleSwapEnv.FileExists ("/proc".toList ++ "/meminfo".toList) = .ok true ∧
    idleSwapEnv.ReadFile ("/proc".toList ++ "/meminfo".toList) = .ok idleSwapMeminfo ∧
    meminfoLoop (Split '\n' idleSwapMeminfo) [] =
      .ok [("SwapFree".toList, 2048), ("SwapTotal".toList, 2048), ("MemTotal".toList, 1024)] ∧
    collectMemory idleSwapEnv "/proc".toList = ⟨[.save "swap".toList [] 0], .nil⟩ ∧
    displayPercent 0 = "0%".toList :=
  ⟨by decide, by decide, by decide,
    (collectMemory_swap_endpoints idleSwapEnv "/proc".toList idleSwapMeminfo
      [("SwapFree".toList, 2048), ("SwapTotal".toList, 2048), ("MemTotal".toList, 1024)]
      (by decide) (by decide) (by decide)).2 (by decide) (by decide)⟩

/-- C1 fails as stated: on a host without swap space `SwapFree` equals
`SwapTotal`, both 0, and the value saved is 100, not 0. -/
theorem collectMemory_no_swap_saves_100 :
    meminfoLoop (Split '\n' noSwapMeminfo) [] =
      .ok [("SwapFree".toList, 0), ("SwapTotal".toList, 0), ("MemTotal".toList, 1024)] ∧
    mapGet [("SwapFree".toList, 0), ("SwapTotal".toList, 0), ("MemTotal".toList, 1024)]
      "SwapFree".toList =
    mapGet [("SwapFree".toList, 0), ("SwapTotal".toList, 0), ("MemTotal".toList, 1024)]
      "SwapTotal".toList ∧
    collectMemory noSwapEnv "/proc".toList = ⟨[.save "swap".toList [] 100], .nil⟩ ∧
    displayPercent 100 = "100%".toList := by
  refine ⟨by decide, by decide, by decide, by decide⟩

/-- The product `100*(float64(free)/float64(total))` for `0 < free < total`,
both `int64`: a finite value between 0 and 100. -/
theorem swap_product_bounds (free total : Nat) (h1 : 0 < free) (h2 : free < total)
    (h3 : total < 2 ^ 63) :
    ∃ r : Nat, F64.mul (F64.ofInt 100) (F64.div (F64.ofInt (free : Int)) (F64.ofInt (total : Int)))
        = .fin (r : Int) ∧ r ≤ 100 * oneUnits := by
  obtain ⟨ha, _⟩ := ofInt_natCast free (by omega)
  obtain ⟨hb, _⟩ := ofInt_natCast total h3
  have hab : roundUnits (free * oneUnits) 1 ≤ roundUnits (total * oneUnits) 1 :=
    roundUnits_mono (by norm_num) (by norm_num)
      (by rw [Nat.mul_one, Nat.mul_one]; exact Nat.mul_le_mul_right _ (le_of_lt h2))
  have hbpos : oneUnits ≤ roundUnits (total * oneUnits) 1 := by
    have hm : roundUnits (1 * oneUnits) 1 ≤ roundUnits (total * oneUnits) 1 :=
      roundUnits_mono (by norm_num) (by norm_num)
        (by rw [Nat.mul_one, Nat.mul_one]; exact Nat.mul_le_mul_right _ (by omega))
    have he : roundUnits (1 * oneUnits * 1) 1 = 1 * oneUnits :=
      roundUnits_exact (1 * oneUnits) 1 (by norm_num)
        (mul_oneUnits_representable 1 (by norm_num))
    rw [Nat.mul_one] at he
    rw [he, Nat.one_mul] at hm
    exact hm
  generalize roundUnits (free * oneUnits) 1 = a at ha hab
  generalize roundUnits (total * oneUnits) 1 = b at hb hab hbpos
  have hU := oneUnits_pos
  have hbp : 0 < b := by omega
  have hdivU := oneUnits_representable
  have hUlt := oneUnits_lt_overflowUnits
  -- the quotient is at most one
  have hquot : a * oneUnits ≤ oneUnits * b := by
    rw [Nat.mul_comm oneUnits b]
    exact Nat.mul_le_mul_right _ hab
  have hdiv : F64.div (.fin (a : Int)) (.fin (b : Int))
      = .fin ((roundUnits (a * oneUnits) b : Nat) : Int) := by
    rw [div_fin_natCast a b (ne_of_gt hbp)]
    exact round_fin hbp hquot hdivU hUlt
  have hq : roundUnits (a * oneUnits) b ≤ oneUnits := roundUnits_le hbp hquot hdivU
  generalize roundUnits (a * oneUnits) b = q at hdiv hq
  -- the product is at most one hundred
  have h100 : F64.ofInt 100 = .fin ((100 * oneUnits : Nat) : Int) := by
    have := ofInt_exact 100 (by norm_num)
    exact_mod_cast this
  have hdiv100 := mul_oneUnits_representable 100 (by norm_num)
  have h100lt : 100 * oneUnits < overflowUnits := by
    rw [overflowUnits_eq]
    exact Nat.mul_lt_mul_of_pos_right (by norm_num) hU
  have hprod : 100 * oneUnits * q ≤ 100 * oneUnits * oneUnits := Nat.mul_le_mul_left _ hq
  refine ⟨roundUnits (100 * oneUnits * q) oneUnits, ?_, roundUnits_le hU hprod hdiv100⟩
  rw [ha, hb, hdiv, h100, mul_fin_natCast]
  exact round_fin hU hprod hdiv100 h100lt

/-- The value saved from `SwapFree = free` and `SwapTotal = total` with
`0 < free < total`: 100 less the integer part of the binary64 product, which
lies between 0 and 100, so that neither the conversion to `int8` nor the
subtraction leaves the range of `int8`. -/
theorem swapFromMeminfo_trunc (env : Env) (free total : Int) (h1 : 0 < free)
    (h2 : free < total) (h3 : total < 2 ^ 63) :
    ∃ T : Int,
      F64.trunc (F64.mul (F64.ofInt 100) (F64.div (F64.ofInt free) (F64.ofInt total))) = some T ∧
      0 ≤ T ∧ T ≤ 100 ∧ swapFromMeminfo env free total = 100 - T := by
  obtain ⟨f, rfl⟩ := Int.eq_ofNat_of_zero_le (le_of_lt h1)
  obtain ⟨t, rfl⟩ := Int.eq_ofNat_of_zero_le (le_of_lt (lt_trans h1 h2))
  have h1' : 0 < f := by exact_mod_cast h1
  have h2' : f < t := by exact_mod_cast h2
  have h3' : t < 2 ^ 63 := by exact_mod_cast h3
  obtain ⟨r, hr, hle⟩ := swap_product_bounds f t h1' h2' h3'
  have hT : r / oneUnits ≤ 100 := by
    apply Nat.div_le_of_le_mul
    rw [Nat.mul_comm]
    exact hle
  refine ⟨((r / oneUnits : Nat) : Int), ?_, Int.ofNat_nonneg _, by exact_mod_cast hT, ?_⟩
  · rw [hr, trunc_fin_natCast]
  · unfold swapFromMeminfo
    have hf0 : ¬ ((f : Int) = 0) := by omega
    have hft : ¬ ((f : Int) = (t : Int)) := by omega
    rw [if_neg hf0, if_neg hft, hr]
    unfold F64.toInt
    rw [trunc_fin_natCast]
    simp only
    generalize r / oneUnits = T at hT
    have hin : -(2 ^ (8 - 1) : Int) ≤ (T : Int) ∧ (T : Int) < 2 ^ (8 - 1) := by
      constructor
      · have : (0 : Int) ≤ (T : Int) := Int.ofNat_nonneg T
        norm_num
        omega
      · norm_num
        omega
    rw [if_pos hin]
    unfold wrapInt
    norm_num
    omega

/-- C2, as the code has it: in the `meminfo` branch, for `SwapFree = free` and
`SwapTotal = total` with `0 < free < total`, the value saved for swap is
`100 - T`, where `T` is the integer part (the fraction is cut off, not rounded)
of the binary64 product `100*(float64(free)/float64(total))`, and
`0 ≤ T ≤ 100`. -/
theorem collectMemory_swap_truncates (env : Env) (path content : Str) (m : List (Str × Int))
    (free total : Int)
    (hex : env.FileExists (path ++ "/meminfo".toList) = .ok true)
    (hrd : env.ReadFile (path ++ "/meminfo".toList) = .ok content)
    (hparse : meminfoLoop (Split '\n' content) [] = .ok m)
    (hf : mapGet m "SwapFree".toList = free) (ht : mapGet m "SwapTotal".toList = total)
    (h1 : 0 < free) (h2 : free < total) (h3 : total < 2 ^ 63) :
    ∃ T : Int,
      F64.trunc (F64.mul (F64.ofInt 100) (F64.div (F64.ofInt free) (F64.ofInt total))) = some T ∧
      0 ≤ T ∧ T ≤ 100 ∧
      collectMemory env path = ⟨[.save "swap".toList [] (100 - T)], .nil⟩ := by
  obtain ⟨T, hT, h0, h100, hsave⟩ := swapFromMeminfo_trunc env free total h1 h2 h3
  refine ⟨T, hT, h0, h100, ?_⟩
  rw [collectMemory_meminfo_run env path content m hex hrd hparse, hf, ht, hsave]

/-- Witness of `collectMemory_swap_truncates`: 2 kB free of 3 kB. -/
theorem collectMemory_swap_truncates_witness :
    thirdSwapEnv.FileExists ("/proc".toList ++ "/meminfo".toList) = .ok true ∧
    thirdSwapEnv.ReadFile ("/proc".toList ++ "/meminfo".toList) = .ok thirdSwapMeminfo ∧
    meminfoLoop (Split '\n' thirdSwapMeminfo) [] =
      .ok [("SwapFree".toList, 2), ("SwapTotal".toList, 3)] ∧
    ∃ T : Int,
      F64.trunc (F64.mul (F64.ofInt 100) (F64.div (F64.ofInt 2) (F64.ofInt 3))) = some T ∧
      0 ≤ T ∧ T ≤ 100 ∧
      collectMemory thirdSwapEnv "/proc".toList = ⟨[.save "swap".toList [] (100 - T)], .nil⟩ :=
  ⟨by decide, by decide, by decide,
    collectMemory_swap_truncates thirdSwapEnv "/proc".toList thirdSwapMeminfo
      [("SwapFree".toList, 2), ("SwapTotal".toList, 3)] 2 3
      (by decide) (by decide) (by decide) (by decide) (by decide)
      (by decide) (by decide) (by decide)⟩

/-- C2 fails as stated: with 2 kB free of 3 kB the value saved is 34, while
100 less the nearest integer to `100 * 2 / 3` is 33. -/
theorem collectMemory_two_thirds_saves_34 :
    meminfoLoop (Split '\n' thirdSwapMeminfo) [] =
      .ok [("SwapFree".toList, 2), ("SwapTotal".toList, 3)] ∧
    collectMemory thirdSwapEnv "/proc".toList = ⟨[.save "swap".toList [] 34], .nil⟩ ∧
    (100 : Int) - round ((100 * 2 : ℚ) / 3) = 33 := by
  refine ⟨by decide, by decide!, ?_⟩
  norm_num [round_eq]

/-! ## `collectDisk` -/

/-- C3 at a failing input: the line whose fifth field is `-%` is not among the
lines the claim takes values from, yet `collectDisk` saves 0 for its mount
point `/data`, next to the 50 of `/`; the line of three fields saves nothing
and the collector returns `nil`. -/
theorem collectDisk_saves_dash_line :
    dfDashEnv.ReadLines dfDashOutput = .ok
      [ "Filesystem 1K-blocks Used Available Use% Mounted on".toList,
        "/dev/sda1  100G  50G  50G  50%  /".toList,
        "/dev/sdb1  100G  50G  50G  -%  /data".toList,
        "/dev/sdc1  100G  50G".toList ] ∧
    ParseInt "-".toList 32 = (0, some (.num "ParseInt".toList "-".toList .ErrSyntax)) ∧
    collectDisk dfDashEnv [] =
      ⟨[ .saveType "disk".toList "/".toList 50 .Gauge,
         .saveType "disk".toList "/data".toList 0 .Gauge ], .nil⟩ := by
  refine ⟨by decide, by decide, by decide⟩

/-- C4 at a failing input: the lines whose percentage is `abc%` and
`4294967296%` are not skipped; `collectDisk` saves for their mount points the
values `ParseInt` returns with its error, 0 and 2147483647. -/
theorem collectDisk_saves_garbled_lines :
    ParseInt "abc".toList 32 = (0, some (.num "ParseInt".toList "abc".toList .ErrSyntax)) ∧
    ParseInt "4294967296".toList 32 =
      (2147483647, some (.num "ParseInt".toList "4294967296".toList .ErrRange)) ∧
    collectDisk dfGarbledEnv [] =
      ⟨[ .saveType "disk".toList "/".toList 50 .Gauge,
         .saveType "disk".toList "/mnt".toList 0 .Gauge,
         .saveType "disk".toList "/big".toList 2147483647 .Gauge ], .nil⟩ := by
  refine ⟨by decide, by decide!, by decide!⟩

/-! ## `collectLoadAverage` -/

/-- C5 at a failing input: for the load averages `0.29 0.57 0.58` the values
saved are 28, 56 and 57, one less than the numbers multiplied by 100. -/
theorem collectLoadAverage_loses_a_hundredth :
    collectLoadAverage loadEnv029 "/proc".toList =
      ⟨[ .save "load".toList "1".toList 28,
         .save "load".toList "5".toList 56,
         .save "load".toList "15".toList 57 ], .nil⟩ ∧
    collectLoadAverage loadEnv050 "/proc".toList =
      ⟨[ .save "load".toList "1".toList 50,
         .save "load".toList "5".toList 120,
         .save "load".toList "15".toList 235 ], .nil⟩ := by
  refine ⟨by decide!, by decide!⟩

/-! ## `collectCpu` -/

theorem wrapInt_add_wrapInt (a b : Int) : wrapInt 64 (wrapInt 64 a + b) = wrapInt 64 (a + b) := by
  unfold wrapInt
  norm_num
  omega

theorem wrapInt_of_mem (x : Int) (h1 : -(2 ^ 63) ≤ x) (h2 : x < 2 ^ 63) : wrapInt 64 x = x := by
  unfold wrapInt
  norm_num at h1 h2 ⊢
  omega

/-- C6, as the code has it: when the first line of `stat` is `cpu` followed by
at least eight integers in the order user, nice, system, idle, iowait, irq,
softirq, steal, `collectCpu` returns `nil` and saves exactly five values: under
`("cpu","")` the sum of the seven other than idle, in 64-bit arithmetic, and
user, system, iowait and steal under their names.  The sum is the plain sum
whenever that fits in an `int64`. -/
theorem collectCpu_saves (env : Env) (path contents line : Str) (rest more : List Str)
    (fuser fnice fsystem fidle fiowait firq fsoftirq fsteal : Str)
    (user nice system iowait irq softIrq steal : Int)
    (hex : env.FileExists (path ++ "/stat".toList) = .ok true)
    (hrd : env.ReadFile (path ++ "/stat".toList) = .ok contents)
    (hline : Split '\n' contents = line :: rest)
    (hfields : Fields line = "cpu".toList :: fuser :: fnice :: fsystem :: fidle :: fiowait ::
      firq :: fsoftirq :: fsteal :: more)
    (h1 : ParseInt fuser 64 = (user, none)) (h2 : ParseInt fnice 64 = (nice, none))
    (h3 : ParseInt fsystem 64 = (system, none)) (h5 : ParseInt fiowait 64 = (iowait, none))
    (h6 : ParseInt firq 64 = (irq, none)) (h7 : ParseInt fsoftirq 64 = (softIrq, none))
    (h8 : ParseInt fsteal 64 = (steal, none)) :
    collectCpu env path =
      ⟨[ .save "cpu".toList [] (wrapInt 64 (user + nice + system + iowait + irq + softIrq + steal)),
         .save "cpu".toList "user".toList user,
         .save "cpu".toList "system".toList system,
         .save "cpu".toList "iowait".toList iowait,
         .save "cpu".toList "steal".toList steal ], .nil⟩ ∧
    (-(2 ^ 63) ≤ user + nice + system + iowait + irq + softIrq + steal →
      user + nice + system + iowait + irq + softIrq + steal < 2 ^ 63 →
      wrapInt 64 (user + nice + system + iowait + irq + softIrq + steal)
        = user + nice + system + iowait + irq + softIrq + steal) := by
  constructor
  · unfold collectCpu
    rw [hex]
    simp only [hrd]
    unfold saveCpu
    rw [hline]
    simp only [hfields, List.getElem?_cons_succ, List.getElem?_cons_zero, h1, h2, h3, h5, h6, h7, h8]
    simp only [add64, wrapInt_add_wrapInt]
  · intro ha hb
    exact wrapInt_of_mem _ ha hb

/-- Witness of `collectCpu_saves`: a `stat` in the layout of the kernel. -/
theorem collectCpu_saves_witness :
    statEnv.FileExists ("/proc".toList ++ "/stat".toList) = .ok true ∧
    statEnv.ReadFile ("/proc".toList ++ "/stat".toList) = .ok statContents ∧
    collectCpu statEnv "/proc".toList =
      ⟨[ .save "cpu".toList [] (wrapInt 64 (10 + 20 + 30 + 50 + 60 + 70 + 80)),
         .save "cpu".toList "user".toList 10,
         .save "cpu".toList "system".toList 30,
         .save "cpu".toList "iowait".toList 50,
         .save "cpu".toList "steal".toList 80 ], .nil⟩ ∧
    wrapInt 64 (10 + 20 + 30 + 50 + 60 + 70 + 80) = 10 + 20 + 30 + 50 + 60 + 70 + 80 :=
  ⟨by decide, by decide,
    (collectCpu_saves statEnv "/proc".toList statContents "cpu  10 20 30 4000 50 60 70 80 0 0".toList
      ["cpu0 10 20 30 4000 50 60 70 80 0 0".toList, "intr 0".toList, []] ["0".toList, "0".toList]
      "10".toList "20".toList "30".toList "4000".toList "50".toList "60".toList "70".toList
      "80".toList 10 20 30 50 60 70 80
      (by decide) (by decide) (by decide) (by decide) (by decide) (by decide) (by decide)
      (by decide) (by decide) (by decide) (by decide)).1,
    (collectCpu_saves statEnv "/proc".toList statContents "cpu  10 20 30 4000 50 60 70 80 0 0".toList
      ["cpu0 10 20 30 4000 50 60 70 80 0 0".toList, "intr 0".toList, []] ["0".toList, "0".toList]
      "10".toList "20".toList "30".toList "4000".toList "50".toList "60".toList "70".toList
      "80".toList 10 20 30 50 60 70 80
      (by decide) (by decide) (by decide) (by decide) (by decide) (by decide) (by decide)
      (by decide) (by decide) (by decide) (by decide)).2 (by decide) (by decide)⟩

/-- C6 fails as stated: when the first line of `stat` is `cpu` followed by
seven integers, the field of index 8 does not exist and `collectCpu` stops
with an index out of range, saving nothing. -/
theorem collectCpu_seven_fields_panics :
    Fields "cpu 1 2 3 4 5 6 7".toList =
      ["cpu".toList, "1".toList, "2".toList, "3".toList, "4".toList, "5".toList, "6".toList,
        "7".toList] ∧
    collectCpu statSevenEnv "/proc".toList = ⟨[], .runtimePanic⟩ := by
  refine ⟨by decide, by decide⟩

/-! ## `normalizeSwap` -/

theorem representable_mul_two_pow (m k : Nat) (h : 2 ^ (bitLen m - 53) ∣ m) :
    2 ^ (bitLen (m * 2 ^ k) - 53) ∣ m * 2 ^ k := by
  by_cases h0 : m = 0
  · subst h0
    simp
  · rw [bitLen_mul_two_pow m k h0]
    have e : bitLen m + k - 53 ≤ (bitLen m - 53) + k := by omega
    exact Nat.dvd_trans (Nat.pow_dvd_pow 2 e) (by rw [pow_add]; exact Nat.mul_dvd_mul_right h _)

/-- Rounding a representable magnitude returns it. -/
theorem round_exact (neg : Bool) (m d : Nat) (hd : 0 < d) (hm : 2 ^ (bitLen m - 53) ∣ m) :
    F64.round neg (m * d) d =
      if overflowUnits ≤ m then .inf neg else .fin (if neg then -(m : Int) else (m : Int)) := by
  unfold F64.round
  simp only
  rw [roundUnits_exact m d hd hm]

/-- Multiplying a binary64 value by a power of two below `2^53` is exact. -/
theorem mul_two_pow_exact (v : F64) (k : Nat) (hk : k < 53) (hv : v.valid) :
    F64.mul v (F64.ofInt ((2 ^ k : Nat) : Int)) = v.timesExact (2 ^ k) ∧
    (v.timesExact (2 ^ k)).valid := by
  have h2 : 2 ^ k < 2 ^ 53 := Nat.pow_lt_pow_right (by norm_num) hk
  have hof := ofInt_exact (2 ^ k) h2
  have hpos : 0 < 2 ^ k * oneUnits := Nat.mul_pos (by positivity) oneUnits_pos
  cases v with
  | nan => exact ⟨by rw [hof]; simp [F64.mul, F64.timesExact], trivial⟩
  | inf n =>
    constructor
    · rw [hof]
      have hne : ¬ (((2 ^ k * oneUnits : Nat) : Int) = 0) := by
        exact_mod_cast (ne_of_gt hpos)
      have hnn : ¬ (((2 ^ k * oneUnits : Nat) : Int) < 0) := not_lt.mpr (Int.ofNat_nonneg _)
      simp only [F64.mul, F64.timesExact, hne, if_false, hnn, decide_False, Bool.xor_false]
    · trivial
  | fin x =>
    obtain ⟨hlt, hdvd⟩ := hv
    have hrep := representable_mul_two_pow x.natAbs k hdvd
    have hnn : decide (((2 ^ k * oneUnits : Nat) : Int) < 0) = false := by
      have : ¬ (((2 ^ k * oneUnits : Nat) : Int) < 0) := not_lt.mpr (Int.ofNat_nonneg _)
      simp [this]
    have hmul : F64.mul (.fin x) (F64.ofInt ((2 ^ k : Nat) : Int)) =
        if overflowUnits ≤ x.natAbs * 2 ^ k then .inf (decide (x < 0))
        else .fin (if decide (x < 0) then -((x.natAbs * 2 ^ k : Nat) : Int)
          else ((x.natAbs * 2 ^ k : Nat) : Int)) := by
      rw [hof]
      simp only [F64.mul]
      rw [hnn, Bool.xor_false, Int.natAbs_ofNat]
      have e : x.natAbs * (2 ^ k * oneUnits) = (x.natAbs * 2 ^ k) * oneUnits := by ring
      rw [e]
      exact round_exact _ _ _ oneUnits_pos hrep
    by_cases hov : overflowUnits ≤ x.natAbs * 2 ^ k
    · constructor
      · rw [hmul, if_pos hov]
        simp only [F64.timesExact]
        rw [if_neg (by omega)]
      · simp only [F64.timesExact]
        rw [if_neg (by omega)]
        trivial
    · have hval : (if decide (x < 0) then -((x.natAbs * 2 ^ k : Nat) : Int)
          else ((x.natAbs * 2 ^ k : Nat) : Int)) = x * ((2 ^ k : Nat) : Int) := by
        have hc : ((x.natAbs * 2 ^ k : Nat) : Int) = (x.natAbs : Int) * ((2 ^ k : Nat) : Int) :=
          Nat.cast_mul _ _
        by_cases hx : x < 0
        · simp only [hx, decide_True, if_true]
          have : (x.natAbs : Int) = -x := by omega
          rw [hc, this]
          ring
        · simp only [hx, decide_False]
          have : (x.natAbs : Int) = x := by omega
          rw [hc, this]
          simp
      constructor
      · rw [hmul, if_neg hov, hval]
        simp only [F64.timesExact]
        rw [if_pos (by omega)]
      · simp only [F64.timesExact]
        rw [if_pos (by omega)]
        have hn : (x * ((2 ^ k : Nat) : Int)).natAbs = x.natAbs * 2 ^ k := by
          rw [Int.natAbs_mul, Int.natAbs_ofNat]
        show _ ∧ _
        rw [hn]
        exact ⟨by omega, hrep⟩

theorem timesExact_timesExact (v : F64) (a b : Nat) (ha : 0 < a) (hb : 0 < b) :
    (v.timesExact a).timesExact b = v.timesExact (a * b) := by
  cases v with
  | nan => rfl
  | inf n => rfl
  | fin x =>
    by_cases h1 : x.natAbs * a < overflowUnits
    · have hn : (x * (a : Int)).natAbs = x.natAbs * a := by
        rw [Int.natAbs_mul, Int.natAbs_ofNat]
      simp only [F64.timesExact, if_pos h1, hn]
      have e : x.natAbs * a * b = x.natAbs * (a * b) := by ring
      rw [e]
      have hs : decide (x * (a : Int) < 0) = decide (x < 0) := by
        have hap : (0 : Int) < (a : Int) := by exact_mod_cast ha
        by_cases hx : x < 0
        · have : x * (a : Int) < 0 := mul_neg_of_neg_of_pos hx hap
          simp [hx, this]
        · have : ¬ x * (a : Int) < 0 := not_lt.mpr (mul_nonneg (not_lt.mp hx) (le_of_lt hap))
          simp [hx, this]
      rw [hs]
      push_cast
      rw [mul_assoc]
    · have h2 : ¬ x.natAbs * (a * b) < overflowUnits := by
        intro hc
        apply h1
        calc x.natAbs * a = x.natAbs * a * 1 := (Nat.mul_one _).symm
          _ ≤ x.natAbs * a * b := Nat.mul_le_mul_left _ hb
          _ = x.natAbs * (a * b) := by ring
          _ < overflowUnits := hc
      simp only [F64.timesExact, if_neg h1, if_neg h2]

/-- C8: `normalizeSwap` returns its argument for `K`, and its exact products by
1024, `1024^2` and `1024^3` for `M`, `G` and `T`, in either case of the letter;
for any other suffix it returns its argument. -/
theorem normalizeSwap_eq_spec (v : F64) (size : Char) (hv : v.valid) :
    normalizeSwap v size = normalizeSwapSpec v size := by
  have k10 : F64.ofInt 1024 = F64.ofInt ((2 ^ 10 : Nat) : Int) := by norm_num
  obtain ⟨m1, v1⟩ := mul_two_pow_exact v 10 (by norm_num) hv
  obtain ⟨m2, v2⟩ := mul_two_pow_exact (v.timesExact (2 ^ 10)) 10 (by norm_num) v1
  obtain ⟨m3, _⟩ := mul_two_pow_exact ((v.timesExact (2 ^ 10)).timesExact (2 ^ 10)) 10
    (by norm_num) v2
  have c2 := timesExact_timesExact v (2 ^ 10) (2 ^ 10) (by norm_num) (by norm_num)
  have c3 := timesExact_timesExact v (2 ^ 10 * 2 ^ 10) (2 ^ 10) (by norm_num) (by norm_num)
  have e1 : (1024 : Nat) = 2 ^ 10 := by norm_num
  have e2 : (1024 ^ 2 : Nat) = 2 ^ 10 * 2 ^ 10 := by norm_num
  have e3 : (1024 ^ 3 : Nat) = 2 ^ 10 * 2 ^ 10 * 2 ^ 10 := by norm_num
  unfold normalizeSwap normalizeSwapSpec
  rw [k10, m1, m2, m3, c2, c3, e2, e3, e1]
  by_cases hM : size = 'M' ∨ size = 'm'
  · have hK : ¬ (size = 'K' ∨ size = 'k') := by
      rcases hM with h | h <;> subst h <;> decide
    rw [if_pos hM, if_neg hK, if_pos hM]
  · rw [if_neg hM, if_neg hM]

/-- Witness of `normalizeSwap_eq_spec`: 4096 with the suffix `G`. -/
theorem normalizeSwap_eq_spec_witness :
    (F64.fin ((4096 * oneUnits : Nat) : Int)).valid ∧
    normalizeSwap (F64.fin ((4096 * oneUnits : Nat) : Int)) 'G' =
      normalizeSwapSpec (F64.fin ((4096 * oneUnits : Nat) : Int)) 'G' ∧
    normalizeSwapSpec (F64.fin ((4096 * oneUnits : Nat) : Int)) 'G' =
      F64.fin ((4096 * 1024 * 1024 * oneUnits : Nat) : Int) :=
  have h : (F64.fin ((4096 * oneUnits : Nat) : Int)).valid :=
    ⟨by decide!, by decide!⟩
  ⟨h, normalizeSwap_eq_spec _ 'G' h, by decide!⟩

/-! ## Exact operations on `float64` -/

theorem signed_natAbs_eq (b : Bool) (z : Int) (h1 : b = true → z ≤ 0) (h2 : b = false → 0 ≤ z) :
    (if b then -((z.natAbs : Nat) : Int) else ((z.natAbs : Nat) : Int)) = z := by
  cases b with
  | true =>
    have := h1 rfl
    simp only [if_true]
    omega
  | false =>
    have := h2 rfl
    simp only [Bool.false_eq_true, if_false]
    omega

/-- Conversion of an integer of magnitude below `2^53` is exact. -/
theorem ofInt_exact_int (x : Int) (h : x.natAbs < 2 ^ 53) :
    F64.ofInt x = .fin (x * (oneUnits : Int)) := by
  unfold F64.ofInt
  have e : x.natAbs * oneUnits = (x.natAbs * oneUnits) * 1 := (Nat.mul_one _).symm
  rw [e, round_exact _ _ 1 (by norm_num) (mul_oneUnits_representable _ h)]
  have hlt : x.natAbs * oneUnits < overflowUnits := by
    rw [overflowUnits_eq]
    exact Nat.mul_lt_mul_of_pos_right (Nat.lt_of_lt_of_le h (by norm_num)) oneUnits_pos
  rw [if_neg (by omega)]
  refine congrArg F64.fin ?_
  have hn : (x * (oneUnits : Int)).natAbs = x.natAbs * oneUnits := by
    rw [Int.natAbs_mul, Int.natAbs_ofNat]
  rw [← hn]
  have hU : (0 : Int) < (oneUnits : Int) := by exact_mod_cast oneUnits_pos
  apply signed_natAbs_eq
  · intro hb
    have hx : x < 0 := by simpa using hb
    exact le_of_lt (mul_neg_of_neg_of_pos hx hU)
  · intro hb
    have hx : 0 ≤ x := by simpa using hb
    exact mul_nonneg hx (le_of_lt hU)

/-- A product whose exact value is a representable magnitude is that value. -/
theorem mul_exact_int (x y z : Int) (hz : z * (oneUnits : Int) = x * y)
    (hrep : 2 ^ (bitLen z.natAbs - 53) ∣ z.natAbs) (hlt : z.natAbs < overflowUnits) :
    F64.mul (.fin x) (.fin y) = .fin z := by
  simp only [F64.mul]
  have hm : x.natAbs * y.natAbs = z.natAbs * oneUnits := by
    have := congrArg Int.natAbs hz
    rw [Int.natAbs_mul, Int.natAbs_mul, Int.natAbs_ofNat] at this
    exact this.symm
  rw [hm, round_exact _ _ _ oneUnits_pos hrep, if_neg (by omega)]
  refine congrArg F64.fin ?_
  have hU : (0 : Int) < (oneUnits : Int) := by exact_mod_cast oneUnits_pos
  apply signed_natAbs_eq
  · intro hb
    have hxy : x * y ≤ 0 := by
      by_cases hx : x < 0
      · have hy : ¬ y < 0 := by
          intro hy
          simp [hx, hy] at hb
        exact mul_nonpos_of_nonpos_of_nonneg (le_of_lt hx) (not_lt.mp hy)
      · have hy : y < 0 := by
          by_contra hy
          simp [hx, hy] at hb
        exact mul_nonpos_of_nonneg_of_nonpos (not_lt.mp hx) (le_of_lt hy)
    rw [← hz] at hxy
    by_contra hc
    have : 0 < z * (oneUnits : Int) := mul_pos (not_le.mp hc) hU
    omega
  · intro hb
    have hxy : 0 ≤ x * y := by
      by_cases hx : x < 0
      · have hy : y < 0 := by
          by_contra hy
          simp [hx, hy] at hb
        exact le_of_lt (mul_pos_of_neg_of_neg hx hy)
      · have hy : ¬ y < 0 := by
          intro hy
          simp [hx, hy] at hb
        exact mul_nonneg (not_lt.mp hx) (not_lt.mp hy)
    rw [← hz] at hxy
    by_contra hc
    have : z * (oneUnits : Int) < 0 := mul_neg_of_neg_of_pos (not_le.mp hc) hU
    omega

/-- A quotient by a positive value whose exact value is a representable
magnitude is that value. -/
theorem div_exact_int (x y z : Int) (hy : 0 < y) (hz : z * y = x * (oneUnits : Int))
    (hrep : 2 ^ (bitLen z.natAbs - 53) ∣ z.natAbs) (hlt : z.natAbs < overflowUnits) :
    F64.div (.fin x) (.fin y) = .fin z := by
  have hy0 : ¬ (y = 0) := ne_of_gt hy
  have hyn : ¬ (y < 0) := not_lt.mpr (le_of_lt hy)
  simp only [F64.div, hy0, if_false, hyn, decide_False, Bool.xor_false]
  have hm : x.natAbs * oneUnits = z.natAbs * y.natAbs := by
    have := congrArg Int.natAbs hz
    rw [Int.natAbs_mul, Int.natAbs_mul, Int.natAbs_ofNat] at this
    exact this.symm
  have hyp : 0 < y.natAbs := Int.natAbs_pos.mpr (ne_of_gt hy)
  rw [hm, round_exact _ _ _ hyp hrep, if_neg (by omega)]
  refine congrArg F64.fin ?_
  have hU : (0 : Int) < (oneUnits : Int) := by exact_mod_cast oneUnits_pos
  apply signed_natAbs_eq
  · intro hb
    have hx : x < 0 := by simpa using hb
    have h1 : z * y < 0 := by rw [hz]; exact mul_neg_of_neg_of_pos hx hU
    by_contra hc
    have : 0 ≤ z * y := mul_nonneg (le_of_lt (not_le.mp hc)) (le_of_lt hy)
    omega
  · intro hb
    have hx : 0 ≤ x := by simpa using hb
    have h1 : 0 ≤ z * y := by rw [hz]; exact mul_nonneg hx (le_of_lt hU)
    by_contra hc
    have : z * y < 0 := mul_neg_of_neg_of_pos (not_le.mp hc) hy
    omega

theorem trunc_mul_oneUnits (z : Int) : F64.trunc (.fin (z * (oneUnits : Int))) = some z := by
  have hU : (0 : Int) < (oneUnits : Int) := by exact_mod_cast oneUnits_pos
  have hn : (z * (oneUnits : Int)).natAbs / oneUnits = z.natAbs := by
    rw [Int.natAbs_mul, Int.natAbs_ofNat, Nat.mul_div_cancel _ oneUnits_pos]
  simp only [F64.trunc, hn]
  refine congrArg some ?_
  by_cases hz : z < 0
  · have : z * (oneUnits : Int) < 0 := mul_neg_of_neg_of_pos hz hU
    rw [if_pos this]
    omega
  · have : ¬ z * (oneUnits : Int) < 0 := not_lt.mpr (mul_nonneg (not_lt.mp hz) (le_of_lt hU))
    rw [if_neg this]
    omega

/-! ## `NewHostStore` and `tickPercentage` -/

theorem natAbs_mul_oneUnits (z : Int) : (z * (oneUnits : Int)).natAbs = z.natAbs * oneUnits := by
  rw [Int.natAbs_mul, Int.natAbs_ofNat]

theorem small_mul_oneUnits_valid (z : Int) (h : z.natAbs < 2 ^ 53) :
    2 ^ (bitLen (z * (oneUnits : Int)).natAbs - 53) ∣ (z * (oneUnits : Int)).natAbs ∧
    (z * (oneUnits : Int)).natAbs < overflowUnits := by
  rw [natAbs_mul_oneUnits]
  refine ⟨mul_oneUnits_representable _ h, ?_⟩
  rw [overflowUnits_eq]
  exact Nat.mul_lt_mul_of_pos_right (Nat.lt_of_lt_of_le h (by norm_num)) oneUnits_pos

/-- The transform on a tick delta that is `k` cycles, all magnitudes below
`2^53`: exactly `100 * k`. -/
theorem tickPercentage_cycles (env : Env) (c : Nat) (hc : 0 < c) (cur prev k : Int)
    (hd : cur - prev = k * (c : Int)) (hsmall : (cur - prev).natAbs < 2 ^ 53)
    (hk : (100 * k).natAbs < 2 ^ 53) :
    tickPercentage env (.fin ((c : Int) * (oneUnits : Int))) cur prev = 100 * k := by
  have hU : (0 : Int) < (oneUnits : Int) := by exact_mod_cast oneUnits_pos
  have hcp : (0 : Int) < (c : Int) := by exact_mod_cast hc
  have hkabs : k.natAbs < 2 ^ 53 := by
    have e : (cur - prev).natAbs = k.natAbs * c := by
      rw [hd, Int.natAbs_mul, Int.natAbs_ofNat]
    have : k.natAbs ≤ k.natAbs * c := Nat.le_mul_of_pos_right _ hc
    omega
  have hwrap : wrapInt 64 (cur - prev) = cur - prev := by
    apply wrapInt_of_mem <;> omega
  obtain ⟨r1, l1⟩ := small_mul_oneUnits_valid k hkabs
  obtain ⟨r2, l2⟩ := small_mul_oneUnits_valid (100 * k) hk
  have h100 : F64.ofInt 100 = .fin (100 * (oneUnits : Int)) :=
    ofInt_exact_int 100 (by norm_num)
  have hdiv : F64.div (.fin ((cur - prev) * (oneUnits : Int))) (.fin ((c : Int) * (oneUnits : Int)))
      = .fin (k * (oneUnits : Int)) :=
    div_exact_int _ _ _ (mul_pos hcp hU) (by rw [hd]; ring) r1 l1
  have hmul : F64.mul (.fin (k * (oneUnits : Int))) (.fin (100 * (oneUnits : Int)))
      = .fin (100 * k * (oneUnits : Int)) :=
    mul_exact_int _ _ _ (by ring) r2 l2
  unfold tickPercentage
  rw [hwrap, ofInt_exact_int _ hsmall, hdiv, h100, hmul]
  unfold F64.toInt
  rw [trunc_mul_oneUnits]
  simp only
  rw [if_pos]
  constructor
  · norm_num
    omega
  · norm_num
    omega

/-- Rounding a magnitude of at least `2^52` units moves it by at most one part
in `2^53`. -/
theorem roundUnits_rel (n d : Nat) (hd : 0 < d) (h : 2 ^ 52 ≤ n / d) :
    n * (2 ^ 53 - 1) ≤ roundUnits n d * d * 2 ^ 53 ∧
    roundUnits n d * d * 2 ^ 53 ≤ n * (2 ^ 53 + 1) := by
  have hL : 53 ≤ bitLen (n / d) := by
    by_contra hc
    have h52 : bitLen (n / d) ≤ 52 := by omega
    rw [bitLen_le_iff] at h52
    omega
  have hne : n / d ≠ 0 := by
    have : 0 < 2 ^ 52 := by positivity
    omega
  have h1 := two_pow_bitLen_le (n / d) hne
  obtain ⟨s, hs⟩ : ∃ s, bitLen (n / d) = s + 53 := ⟨bitLen (n / d) - 53, by omega⟩
  unfold roundUnits
  simp only
  rw [hs] at h1 ⊢
  rw [Nat.add_sub_cancel]
  have e : s + 53 - 1 = s + 52 := by omega
  rw [e, pow_add] at h1
  have h2 : 2 ^ s * 2 ^ 52 * d ≤ n :=
    le_trans (Nat.mul_le_mul_right d h1) (Nat.div_mul_le_self n d)
  have hW : 0 < d * 2 ^ s := Nat.mul_pos hd (by positivity)
  obtain ⟨sp1, sp2, -, -⟩ := rhe_spec n (d * 2 ^ s) hW
  generalize rhe n (d * 2 ^ s) = k at sp1 sp2 ⊢
  have eA : k * 2 ^ s * d = k * (d * 2 ^ s) := by ring
  have eW : 2 ^ s * 2 ^ 52 * d = d * 2 ^ s * 2 ^ 52 := by ring
  have e1 : 2 * k * (d * 2 ^ s) = 2 * (k * (d * 2 ^ s)) := by ring
  rw [eA]
  rw [eW] at h2
  rw [e1] at sp1 sp2
  generalize k * (d * 2 ^ s) = A at sp1 sp2 ⊢
  generalize d * 2 ^ s = W at sp1 sp2 h2 hW
  omega

/-- A bounded exact value rounds to a finite value of the sign given. -/
theorem round_signed (neg : Bool) {n d B : Nat} (hd : 0 < d) (h : n ≤ B * d)
    (hdiv : 2 ^ (bitLen B - 53) ∣ B) (hB : B < overflowUnits) :
    F64.round neg n d =
      .fin (if neg then -((roundUnits n d : Nat) : Int) else ((roundUnits n d : Nat) : Int)) := by
  have hle := roundUnits_le hd h hdiv
  unfold F64.round
  simp only
  rw [if_neg (by omega)]

theorem roundUnits_zero (d : Nat) (hd : 0 < d) : roundUnits 0 d = 0 := by
  have h := @roundUnits_le 0 d 0 hd (by simp) (dvd_zero _)
  omega

/-- The two roundings of `tickPercentage`, in units, for a tick delta of
magnitude `D` and a cycle of `c` ticks: the quotient is at most `2^45` and the
product at most `2^52`. -/
theorem tick_units_le (D c : Nat) (hc : 0 < c) (hD : D ≤ 2 ^ 45) :
    roundUnits (D * oneUnits * oneUnits) (c * oneUnits) ≤ 2 ^ 45 * oneUnits ∧
    roundUnits (roundUnits (D * oneUnits * oneUnits) (c * oneUnits) * (100 * oneUnits)) oneUnits
      ≤ 2 ^ 52 * oneUnits := by
  have hU := oneUnits_pos
  have r45 := mul_oneUnits_representable (2 ^ 45) (by norm_num)
  have r52 := mul_oneUnits_representable (2 ^ 52) (by norm_num)
  generalize oneUnits = U at hU r45 r52 ⊢
  have hcU : 0 < c * U := Nat.mul_pos hc hU
  have hQ : roundUnits (D * U * U) (c * U) ≤ 2 ^ 45 * U := by
    refine roundUnits_le hcU ?_ r45
    calc D * U * U ≤ 2 ^ 45 * U * U :=
          Nat.mul_le_mul_right _ (Nat.mul_le_mul_right _ hD)
      _ = 2 ^ 45 * U * (1 * U) := by rw [Nat.one_mul]
      _ ≤ 2 ^ 45 * U * (c * U) := Nat.mul_le_mul_left _ (Nat.mul_le_mul_right _ hc)
  refine ⟨hQ, ?_⟩
  refine roundUnits_le hU ?_ r52
  generalize roundUnits (D * U * U) (c * U) = Q at hQ ⊢
  calc Q * (100 * U) ≤ 2 ^ 45 * U * (100 * U) := Nat.mul_le_mul_right _ hQ
    _ = 2 ^ 45 * 100 * U * U := by ring
    _ ≤ 2 ^ 52 * U * U :=
      Nat.mul_le_mul_right _ (Nat.mul_le_mul_right _ (by norm_num))

/-- Arithmetic of two roundings of relative error `2^-53` each, on a quotient
`100 * D / c` with `100 * D ≤ 2^51`: the result `P` stays on the same side of
every `j * U` that the exact value misses by one part in `c` or more. -/
theorem tick_sandwich_arith (U D c Q P : Nat) (hU : 0 < U) (hc : 0 < c)
    (hD : 100 * D ≤ 2 ^ 51)
    (a1l : D * U * (2 ^ 53 - 1) ≤ Q * c * 2 ^ 53) (a1u : Q * c * 2 ^ 53 ≤ D * U * (2 ^ 53 + 1))
    (a2l : Q * 100 * (2 ^ 53 - 1) ≤ P * 2 ^ 53) (a2u : P * 2 ^ 53 ≤ Q * 100 * (2 ^ 53 + 1)) :
    (∀ j : Nat, j * c + 1 ≤ 100 * D → j * U ≤ P) ∧
    (∀ j : Nat, 100 * D + 1 ≤ j * c → P < j * U) := by
  have hpos : 0 < 2 ^ 53 * (c * 2 ^ 53) := Nat.mul_pos (by positivity) (Nat.mul_pos hc (by positivity))
  constructor
  · intro j hj
    have s1 : Q * 100 * (2 ^ 53 - 1) * (c * 2 ^ 53) ≤ P * 2 ^ 53 * (c * 2 ^ 53) :=
      Nat.mul_le_mul_right _ a2l
    have s2 : Q * 100 * (2 ^ 53 - 1) * (c * 2 ^ 53) = Q * c * 2 ^ 53 * (100 * (2 ^ 53 - 1)) := by
      ring
    have s3 : D * U * (2 ^ 53 - 1) * (100 * (2 ^ 53 - 1)) ≤ Q * c * 2 ^ 53 * (100 * (2 ^ 53 - 1)) :=
      Nat.mul_le_mul_right _ a1l
    have s4 : D * U * (2 ^ 53 - 1) * (100 * (2 ^ 53 - 1))
        = U * (100 * D * ((2 ^ 53 - 1) * (2 ^ 53 - 1))) := by ring
    have s5 : 2 ^ 53 * 2 ^ 53 * (j * c) ≤ 100 * D * ((2 ^ 53 - 1) * (2 ^ 53 - 1)) := by
      have : 2 ^ 53 * 2 ^ 53 * (j * c) ≤ 2 ^ 53 * 2 ^ 53 * (100 * D - 1) :=
        Nat.mul_le_mul_left _ (by omega)
      refine le_trans this ?_
      generalize 100 * D = X at hD
      omega
    have s6 : j * U * (2 ^ 53 * (c * 2 ^ 53)) = U * (2 ^ 53 * 2 ^ 53 * (j * c)) := by ring
    have s7 : P * 2 ^ 53 * (c * 2 ^ 53) = P * (2 ^ 53 * (c * 2 ^ 53)) := by ring
    have : j * U * (2 ^ 53 * (c * 2 ^ 53)) ≤ P * (2 ^ 53 * (c * 2 ^ 53)) := by
      rw [s6, ← s7]
      calc U * (2 ^ 53 * 2 ^ 53 * (j * c))
          ≤ U * (100 * D * ((2 ^ 53 - 1) * (2 ^ 53 - 1))) := Nat.mul_le_mul_left _ s5
        _ = D * U * (2 ^ 53 - 1) * (100 * (2 ^ 53 - 1)) := s4.symm
        _ ≤ Q * c * 2 ^ 53 * (100 * (2 ^ 53 - 1)) := s3
        _ = Q * 100 * (2 ^ 53 - 1) * (c * 2 ^ 53) := s2.symm
        _ ≤ P * 2 ^ 53 * (c * 2 ^ 53) := s1
    exact Nat.le_of_mul_le_mul_right this hpos
  · intro j hj
    have s1 : P * 2 ^ 53 * (c * 2 ^ 53) ≤ Q * 100 * (2 ^ 53 + 1) * (c * 2 ^ 53) :=
      Nat.mul_le_mul_right _ a2u
    have s2 : Q * 100 * (2 ^ 53 + 1) * (c * 2 ^ 53) = Q * c * 2 ^ 53 * (100 * (2 ^ 53 + 1)) := by
      ring
    have s3 : Q * c * 2 ^ 53 * (100 * (2 ^ 53 + 1)) ≤ D * U * (2 ^ 53 + 1) * (100 * (2 ^ 53 + 1)) :=
      Nat.mul_le_mul_right _ a1u
    have s4 : D * U * (2 ^ 53 + 1) * (100 * (2 ^ 53 + 1))
        = U * (100 * D * ((2 ^ 53 + 1) * (2 ^ 53 + 1))) := by ring
    have s5 : 100 * D * ((2 ^ 53 + 1) * (2 ^ 53 + 1)) < 2 ^ 53 * 2 ^ 53 * (j * c) := by
      have : 2 ^ 53 * 2 ^ 53 * (100 * D + 1) ≤ 2 ^ 53 * 2 ^ 53 * (j * c) :=
        Nat.mul_le_mul_left _ hj
      refine lt_of_lt_of_le ?_ this
      generalize 100 * D = X at hD
      omega
    have s6 : j * U * (2 ^ 53 * (c * 2 ^ 53)) = U * (2 ^ 53 * 2 ^ 53 * (j * c)) := by ring
    have s7 : P * 2 ^ 53 * (c * 2 ^ 53) = P * (2 ^ 53 * (c * 2 ^ 53)) := by ring
    have : P * (2 ^ 53 * (c * 2 ^ 53)) < j * U * (2 ^ 53 * (c * 2 ^ 53)) := by
      rw [s6, ← s7]
      calc P * 2 ^ 53 * (c * 2 ^ 53)
          ≤ Q * 100 * (2 ^ 53 + 1) * (c * 2 ^ 53) := s1
        _ = Q * c * 2 ^ 53 * (100 * (2 ^ 53 + 1)) := s2
        _ ≤ D * U * (2 ^ 53 + 1) * (100 * (2 ^ 53 + 1)) := s3
        _ = U * (100 * D * ((2 ^ 53 + 1) * (2 ^ 53 + 1))) := s4
        _ < U * (2 ^ 53 * 2 ^ 53 * (j * c)) := Nat.mul_lt_mul_of_pos_left s5 hU
    exact Nat.lt_of_mul_lt_mul_right this

/-- The product of `tickPercentage` against the multiples of one: for a tick
delta of magnitude `D` with `0 < 100 * D ≤ 2^51` and a cycle of `c` ticks,
`c < 2^53`, the rounded product, in units, is at least `j` when
`j * c < 100 * D` and below `j` when `100 * D < j * c`. -/
theorem tick_units_sandwich (D c : Nat) (hD1 : 0 < D) (hc : 0 < c) (hc53 : c < 2 ^ 53)
    (hD : 100 * D ≤ 2 ^ 51) :
    (∀ j : Nat, j * c + 1 ≤ 100 * D → j * oneUnits ≤
      roundUnits (roundUnits (D * oneUnits * oneUnits) (c * oneUnits) * (100 * oneUnits))
        oneUnits) ∧
    (∀ j : Nat, 100 * D + 1 ≤ j * c →
      roundUnits (roundUnits (D * oneUnits * oneUnits) (c * oneUnits) * (100 * oneUnits))
        oneUnits < j * oneUnits) := by
  have hU := oneUnits_pos
  have hUbig : 2 ^ 158 ≤ oneUnits := by
    have e : oneUnits = 2 ^ 158 * 2 ^ 916 := by
      unfold oneUnits
      rw [← pow_add]
    rw [e]
    exact Nat.le_mul_of_pos_right _ (by positivity)
  generalize oneUnits = U at hU hUbig ⊢
  have hcU : 0 < c * U := Nat.mul_pos hc hU
  have hDU : U ≤ D * U := Nat.le_mul_of_pos_left _ hD1
  have hq1 : 2 ^ 52 ≤ D * U * U / (c * U) := by
    rw [Nat.le_div_iff_mul_le hcU]
    have h105 : 2 ^ 52 * c ≤ U := by omega
    calc 2 ^ 52 * (c * U) = 2 ^ 52 * c * U := by ring
      _ ≤ U * U := Nat.mul_le_mul_right _ h105
      _ ≤ D * U * U := Nat.mul_le_mul_right _ hDU
  obtain ⟨a1l, a1u⟩ := roundUnits_rel _ _ hcU hq1
  generalize roundUnits (D * U * U) (c * U) = Q at a1l a1u ⊢
  have b1l : D * U * (2 ^ 53 - 1) ≤ Q * c * 2 ^ 53 := by
    refine Nat.le_of_mul_le_mul_right ?_ hU
    calc D * U * (2 ^ 53 - 1) * U = D * U * U * (2 ^ 53 - 1) := by ring
      _ ≤ Q * (c * U) * 2 ^ 53 := a1l
      _ = Q * c * 2 ^ 53 * U := by ring
  have b1u : Q * c * 2 ^ 53 ≤ D * U * (2 ^ 53 + 1) := by
    refine Nat.le_of_mul_le_mul_right ?_ hU
    calc Q * c * 2 ^ 53 * U = Q * (c * U) * 2 ^ 53 := by ring
      _ ≤ D * U * U * (2 ^ 53 + 1) := a1u
      _ = D * U * (2 ^ 53 + 1) * U := by ring
  have hQbig : 2 ^ 52 ≤ Q * 100 := by
    by_contra hlt
    have hQ : Q < 2 ^ 52 := by omega
    have h1 : Q * c ≤ 2 ^ 52 * 2 ^ 53 := Nat.mul_le_mul (le_of_lt hQ) (le_of_lt hc53)
    have h2 : Q * c * 2 ^ 53 ≤ 2 ^ 52 * 2 ^ 53 * 2 ^ 53 := Nat.mul_le_mul_right _ h1
    have h3 : U * (2 ^ 53 - 1) ≤ D * U * (2 ^ 53 - 1) := Nat.mul_le_mul_right _ hDU
    omega
  have hq2 : 2 ^ 52 ≤ Q * (100 * U) / U := by
    rw [← Nat.mul_assoc, Nat.mul_div_cancel _ hU]
    exact hQbig
  obtain ⟨a2l, a2u⟩ := roundUnits_rel _ _ hU hq2
  generalize roundUnits (Q * (100 * U)) U = P at a2l a2u ⊢
  have b2l : Q * 100 * (2 ^ 53 - 1) ≤ P * 2 ^ 53 := by
    refine Nat.le_of_mul_le_mul_right ?_ hU
    calc Q * 100 * (2 ^ 53 - 1) * U = Q * (100 * U) * (2 ^ 53 - 1) := by ring
      _ ≤ P * U * 2 ^ 53 := a2l
      _ = P * 2 ^ 53 * U := by ring
  have b2u : P * 2 ^ 53 ≤ Q * 100 * (2 ^ 53 + 1) := by
    refine Nat.le_of_mul_le_mul_right ?_ hU
    calc P * 2 ^ 53 * U = P * U * 2 ^ 53 := by ring
      _ ≤ Q * (100 * U) * (2 ^ 53 + 1) := a2u
      _ = Q * 100 * (2 ^ 53 + 1) * U := by ring
  exact tick_sandwich_arith U D c Q P hU hc hD b1l b1u b2l b2u

/-- The integer part of the rounded product of `tickPercentage` against the
integer part of the exact quotient `100 * D / c`: equal to it when `c` does not
divide `100 * D`, and else equal to it or one less. -/
theorem tick_units_div (D c : Nat) (hc : 0 < c) (hc53 : c < 2 ^ 53) (hD : 100 * D ≤ 2 ^ 51) :
    roundUnits (roundUnits (D * oneUnits * oneUnits) (c * oneUnits) * (100 * oneUnits))
        oneUnits / oneUnits ≤ 100 * D / c ∧
    100 * D / c ≤ roundUnits (roundUnits (D * oneUnits * oneUnits) (c * oneUnits) *
        (100 * oneUnits)) oneUnits / oneUnits + 1 ∧
    (100 * D % c ≠ 0 →
      roundUnits (roundUnits (D * oneUnits * oneUnits) (c * oneUnits) * (100 * oneUnits))
        oneUnits / oneUnits = 100 * D / c) := by
  have hU := oneUnits_pos
  by_cases hD0 : D = 0
  · subst hD0
    have hcU : 0 < c * oneUnits := Nat.mul_pos hc hU
    rw [Nat.zero_mul, Nat.zero_mul, roundUnits_zero _ hcU, Nat.zero_mul, roundUnits_zero _ hU]
    simp
  · obtain ⟨lo, hi⟩ := tick_units_sandwich D c (Nat.pos_of_ne_zero hD0) hc hc53 hD
    generalize roundUnits (roundUnits (D * oneUnits * oneUnits) (c * oneUnits) *
      (100 * oneUnits)) oneUnits = P at lo hi ⊢
    generalize oneUnits = U at hU lo hi ⊢
    have hdm := Nat.div_add_mod (100 * D) c
    have hml := Nat.mod_lt (100 * D) hc
    generalize 100 * D / c = m at hdm ⊢
    generalize 100 * D % c = r at hdm hml ⊢
    have hcm : c * m = m * c := Nat.mul_comm _ _
    have hup : P / U ≤ m := by
      have := hi (m + 1) (by rw [Nat.add_mul]; omega)
      have := (Nat.div_lt_iff_lt_mul hU).mpr this
      omega
    refine ⟨hup, ?_, ?_⟩
    · by_cases hm : m = 0
      · rw [hm]
        exact Nat.zero_le _
      · obtain ⟨m', rfl⟩ : ∃ m', m = m' + 1 := ⟨m - 1, by omega⟩
        have h1 : m' * c + 1 ≤ 100 * D := by
          rw [Nat.add_mul] at hcm
          omega
        have := (Nat.le_div_iff_mul_le hU).mpr (lo m' h1)
        omega
    · intro hr
      have h1 : m * c + 1 ≤ 100 * D := by omega
      have := (Nat.le_div_iff_mul_le hU).mpr (lo m h1)
      omega

theorem trunc_signed (b : Prop) [Decidable b] (P : Nat) :
    F64.trunc (.fin (if b then -((P : Nat) : Int) else ((P : Nat) : Int))) =
      some (if b then -((P / oneUnits : Nat) : Int) else ((P / oneUnits : Nat) : Int)) := by
  by_cases hb : b
  · rw [if_pos hb, if_pos hb]
    simp only [F64.trunc, Int.natAbs_neg, Int.natAbs_ofNat]
    refine congrArg some ?_
    by_cases hP : P = 0
    · subst hP
      simp
    · have : -((P : Nat) : Int) < 0 := by omega
      rw [if_pos this]
  · rw [if_neg hb, if_neg hb]
    exact trunc_fin_natCast P

/-- The float64 expression of `tickPercentage` for a tick delta `d` with
`100 * |d| ≤ 2^51` and a cycle of `c` ticks, `0 < c`: a finite value of the
sign of `d` whose magnitude is the twice rounded quotient. -/
theorem tick_product_fin (c : Nat) (hc : 0 < c) (d : Int)
    (hD : 100 * d.natAbs ≤ 2 ^ 51) :
    F64.mul (F64.div (F64.ofInt d) (.fin ((c : Int) * (oneUnits : Int)))) (F64.ofInt 100) =
      .fin (if d < 0
        then -((roundUnits (roundUnits (d.natAbs * oneUnits * oneUnits) (c * oneUnits) *
          (100 * oneUnits)) oneUnits : Nat) : Int)
        else ((roundUnits (roundUnits (d.natAbs * oneUnits * oneUnits) (c * oneUnits) *
          (100 * oneUnits)) oneUnits : Nat) : Int)) := by
  have hU := oneUnits_pos
  have hUi : (0 : Int) < (oneUnits : Int) := by exact_mod_cast oneUnits_pos
  have hci : (0 : Int) < (c : Int) := by exact_mod_cast hc
  have hd53 : d.natAbs < 2 ^ 53 := by omega
  have hd45 : d.natAbs ≤ 2 ^ 45 := by omega
  obtain ⟨hQ, hP⟩ := tick_units_le d.natAbs c hc hd45
  have hcU : 0 < c * oneUnits := Nat.mul_pos hc hU
  have r45 := mul_oneUnits_representable (2 ^ 45) (by norm_num)
  have r52 := mul_oneUnits_representable (2 ^ 52) (by norm_num)
  have l45 : 2 ^ 45 * oneUnits < overflowUnits := by
    rw [overflowUnits_eq]
    exact Nat.mul_lt_mul_of_pos_right (by norm_num) hU
  have l52 : 2 ^ 52 * oneUnits < overflowUnits := by
    rw [overflowUnits_eq]
    exact Nat.mul_lt_mul_of_pos_right (by norm_num) hU
  have hn1 : d.natAbs * oneUnits * oneUnits ≤ 2 ^ 45 * oneUnits * (c * oneUnits) := by
    calc d.natAbs * oneUnits * oneUnits ≤ 2 ^ 45 * oneUnits * oneUnits :=
          Nat.mul_le_mul_right _ (Nat.mul_le_mul_right _ hd45)
      _ = 2 ^ 45 * oneUnits * (1 * oneUnits) := by rw [Nat.one_mul]
      _ ≤ 2 ^ 45 * oneUnits * (c * oneUnits) :=
        Nat.mul_le_mul_left _ (Nat.mul_le_mul_right _ hc)
  have hn2 : roundUnits (d.natAbs * oneUnits * oneUnits) (c * oneUnits) * (100 * oneUnits)
      ≤ 2 ^ 52 * oneUnits * oneUnits := by
    calc roundUnits (d.natAbs * oneUnits * oneUnits) (c * oneUnits) * (100 * oneUnits)
        ≤ 2 ^ 45 * oneUnits * (100 * oneUnits) := Nat.mul_le_mul_right _ hQ
      _ = 2 ^ 45 * 100 * oneUnits * oneUnits := by
        rw [Nat.mul_assoc (2 ^ 45) 100, Nat.mul_assoc (2 ^ 45), Nat.mul_assoc (2 ^ 45),
          Nat.mul_assoc 100, Nat.mul_left_comm oneUnits 100]
      _ ≤ 2 ^ 52 * oneUnits * oneUnits :=
        Nat.mul_le_mul_right _ (Nat.mul_le_mul_right _ (by norm_num))
  have hcU0 : ¬ ((c : Int) * (oneUnits : Int) = 0) := ne_of_gt (mul_pos hci hUi)
  have hcUn : ¬ ((c : Int) * (oneUnits : Int) < 0) := not_lt.mpr (le_of_lt (mul_pos hci hUi))
  have h100n : ¬ ((100 : Int) * (oneUnits : Int) < 0) :=
    not_lt.mpr (le_of_lt (mul_pos (by norm_num) hUi))
  have hcabs : ((c : Int) * (oneUnits : Int)).natAbs = c * oneUnits := by
    rw [natAbs_mul_oneUnits, Int.natAbs_ofNat]
  have h100abs : ((100 : Int) * (oneUnits : Int)).natAbs = 100 * oneUnits := by
    have e : (100 : Int).natAbs = 100 := rfl
    rw [natAbs_mul_oneUnits, e]
  rw [ofInt_exact_int d hd53, ofInt_exact_int 100 (by norm_num)]
  simp only [F64.div, hcU0, if_false, hcUn, decide_False, Bool.xor_false]
  rw [natAbs_mul_oneUnits, hcabs, round_signed _ hcU hn1 r45 l45]
  simp only [F64.mul, h100n, decide_False, Bool.xor_false]
  rw [h100abs]
  generalize roundUnits (d.natAbs * oneUnits * oneUnits) (c * oneUnits) = Q at hn2 ⊢
  by_cases hneg : d < 0
  · have hs : d * (oneUnits : Int) < 0 := mul_neg_of_neg_of_pos hneg hUi
    simp only [hs, decide_True, if_true, Int.natAbs_neg, Int.natAbs_ofNat]
    rw [round_signed _ hU hn2 r52 l52, if_pos hneg]
    refine congrArg F64.fin ?_
    by_cases hQ0 : Q = 0
    · subst hQ0
      rw [Nat.zero_mul, roundUnits_zero _ hU]
      simp
    · have : -((Q : Nat) : Int) < 0 := by omega
      simp only [this, decide_True, if_true]
  · have hs : ¬ (d * (oneUnits : Int) < 0) :=
      not_lt.mpr (mul_nonneg (not_lt.mp hneg) (le_of_lt hUi))
    simp only [hs, decide_False, Bool.false_eq_true, if_false, Int.natAbs_ofNat]
    rw [round_signed _ hU hn2 r52 l52, if_neg hneg]
    have : ¬ (((Q : Nat) : Int) < 0) := not_lt.mpr (Int.ofNat_nonneg Q)
    simp only [this, decide_False, Bool.false_eq_true, if_false]

/-- The transform on any tick delta `d = cur - prev` with `100 * |d| ≤ 2^51`,
for a cycle of `c` ticks, `0 < c < 2^53`: the integer part `T` of the float64
product, of the sign of `d`, with `|T|` the integer part of `100 * |d| / c`
when `c` does not divide `100 * |d|`, and that or one less when it does. -/
theorem tickPercentage_any (env : Env) (c : Nat) (hc : 0 < c) (hc53 : c < 2 ^ 53)
    (cur prev : Int) (hD : 100 * (cur - prev).natAbs ≤ 2 ^ 51) :
    ∃ T : Int,
      F64.trunc (F64.mul (F64.div (F64.ofInt (cur - prev))
        (.fin ((c : Int) * (oneUnits : Int)))) (F64.ofInt 100)) = some T ∧
      tickPercentage env (.fin ((c : Int) * (oneUnits : Int))) cur prev = T ∧
      (0 ≤ cur - prev → 0 ≤ T) ∧ (cur - prev ≤ 0 → T ≤ 0) ∧
      T.natAbs ≤ 100 * (cur - prev).natAbs / c ∧
      100 * (cur - prev).natAbs / c ≤ T.natAbs + 1 ∧
      (100 * (cur - prev).natAbs % c ≠ 0 → T.natAbs = 100 * (cur - prev).natAbs / c) := by
  have hwrap : wrapInt 64 (cur - prev) = cur - prev := by
    apply wrapInt_of_mem <;> omega
  have hprod := tick_product_fin c hc (cur - prev) hD
  obtain ⟨b1, b2, b3⟩ := tick_units_div (cur - prev).natAbs c hc hc53 hD
  have hm : 100 * (cur - prev).natAbs / c ≤ 2 ^ 51 := le_trans (Nat.div_le_self _ _) hD
  have hm0 : (cur - prev).natAbs = 0 → 100 * (cur - prev).natAbs / c = 0 := by
    intro h
    rw [h]
    simp
  generalize roundUnits (roundUnits ((cur - prev).natAbs * oneUnits * oneUnits) (c * oneUnits) *
    (100 * oneUnits)) oneUnits = P at hprod b1 b2 b3
  have htr := trunc_signed (cur - prev < 0) P
  rw [← hprod] at htr
  generalize P / oneUnits = t at htr b1 b2 b3
  generalize 100 * (cur - prev).natAbs / c = m at b1 b2 b3 hm hm0 ⊢
  refine ⟨_, htr, ?_, ?_, ?_, ?_, ?_, ?_⟩
  · unfold tickPercentage
    rw [hwrap]
    unfold F64.toInt
    rw [htr]
    simp only
    rw [if_pos]
    constructor
    · split_ifs <;> omega
    · split_ifs <;> omega
  · intro h
    rw [if_neg (by omega)]
    omega
  · intro h
    have := hm0
    split_ifs <;> omega
  · split_ifs <;> omega
  · split_ifs <;> omega
  · intro h
    have := b3 h
    split_ifs <;> omega

/-- C9, as the code has it: after `NewHostStore(n)` with
`0 < n * CLK_TCK < 2^53`, `cycleTicks` is exactly `n * CLK_TCK`, and for every
`cur` and `prev` `tickPercentage(cur, prev)` is the float64 value
`(cur - prev) / cycleTicks * 100` converted to `int64`.  It is 0 when
`cur = prev`, 100 when `cur - prev = cycleTicks`, and `100 * k` when
`cur - prev = k * cycleTicks`, for tick deltas and results of magnitude below
`2^53`.  For every tick delta with `100 * |cur - prev| ≤ 2^51` it is the
integer part `T` of that float64 value, of the sign of `cur - prev`, and `|T|`
is the integer part of the exact quotient `100 * |cur - prev| / cycleTicks`
when `cycleTicks` does not divide `100 * |cur - prev|`, and that integer part
or one less when it does. -/
theorem tickPercentage_linear (env : Env) (n : Nat) (hpos : 0 < n * env.CLK_TCK)
    (hlt : n * env.CLK_TCK < 2 ^ 53) :
    (NewHostStore env n).cycleTicks = .fin (((n * env.CLK_TCK : Nat) : Int) * (oneUnits : Int)) ∧
    (∀ cur : Int, tickPercentage env (NewHostStore env n).cycleTicks cur cur = 0) ∧
    (∀ cur prev : Int, cur - prev = ((n * env.CLK_TCK : Nat) : Int) →
      tickPercentage env (NewHostStore env n).cycleTicks cur prev = 100) ∧
    (∀ cur prev k : Int, cur - prev = k * ((n * env.CLK_TCK : Nat) : Int) →
      (cur - prev).natAbs < 2 ^ 53 → (100 * k).natAbs < 2 ^ 53 →
      tickPercentage env (NewHostStore env n).cycleTicks cur prev = 100 * k) ∧
    (∀ cur prev : Int, tickPercentage env (NewHostStore env n).cycleTicks cur prev =
      F64.toInt env.convert 64
        (F64.mul (F64.div (F64.ofInt (wrapInt 64 (cur - prev)))
          (.fin (((n * env.CLK_TCK : Nat) : Int) * (oneUnits : Int)))) (F64.ofInt 100))) ∧
    (∀ cur prev : Int, 100 * (cur - prev).natAbs ≤ 2 ^ 51 →
      ∃ T : Int,
        F64.trunc (F64.mul (F64.div (F64.ofInt (cur - prev)) (NewHostStore env n).cycleTicks)
          (F64.ofInt 100)) = some T ∧
        tickPercentage env (NewHostStore env n).cycleTicks cur prev = T ∧
        (0 ≤ cur - prev → 0 ≤ T) ∧ (cur - prev ≤ 0 → T ≤ 0) ∧
        T.natAbs ≤ 100 * (cur - prev).natAbs / (n * env.CLK_TCK) ∧
        100 * (cur - prev).natAbs / (n * env.CLK_TCK) ≤ T.natAbs + 1 ∧
        (100 * (cur - prev).natAbs % (n * env.CLK_TCK) ≠ 0 →
          T.natAbs = 100 * (cur - prev).natAbs / (n * env.CLK_TCK))) := by
  have hct : (NewHostStore env n).cycleTicks
      = .fin (((n * env.CLK_TCK : Nat) : Int) * (oneUnits : Int)) := by
    simp only [NewHostStore]
    rw [Nat.mod_eq_of_lt (Nat.lt_of_lt_of_le hlt (by norm_num))]
    exact ofInt_exact_int _ (by rw [Int.natAbs_ofNat]; exact hlt)
  refine ⟨hct, ?_, ?_, ?_, ?_, ?_⟩
  · intro cur
    rw [hct]
    have := tickPercentage_cycles env (n * env.CLK_TCK) hpos cur cur 0 (by simp) (by simp)
      (by simp)
    simpa using this
  · intro cur prev hd
    rw [hct]
    have := tickPercentage_cycles env (n * env.CLK_TCK) hpos cur prev 1 (by rw [hd]; ring)
      (by rw [hd, Int.natAbs_ofNat]; exact hlt) (by norm_num)
    simpa using this
  · intro cur prev k hd h1 h2
    rw [hct]
    exact tickPercentage_cycles env (n * env.CLK_TCK) hpos cur prev k hd h1 h2
  · intro cur prev
    rw [hct]
    rfl
  · intro cur prev hD
    rw [hct]
    exact tickPercentage_any env (n * env.CLK_TCK) hpos hlt cur prev hD

/-- Witness of `tickPercentage_linear`: a cycle of 15 seconds at 100 ticks per
second, with a delta of two cycles, and a delta of 1501 ticks, one tick more
than a cycle, for which the transform is 100. -/
theorem tickPercentage_linear_witness :
    0 < 15 * bareEnv.CLK_TCK ∧ 15 * bareEnv.CLK_TCK < 2 ^ 53 ∧
    tickPercentage bareEnv (NewHostStore bareEnv 15).cycleTicks 3100 100 = 100 * 2 ∧
    tickPercentage bareEnv (NewHostStore bareEnv 15).cycleTicks 1601 100 = 100 :=
  ⟨by decide, by decide,
    (tickPercentage_linear bareEnv 15 (by decide) (by decide)).2.2.2.1 3100 100 2
      (by decide) (by decide) (by decide),
    by
      obtain ⟨T, -, h2, h3, -, -, -, h7⟩ :=
        (tickPercentage_linear bareEnv 15 (by decide) (by decide)).2.2.2.2.2 1601 100
          (by decide)
      have e := h7 (by decide)
      have e2 : 100 * ((1601 : Int) - 100).natAbs / (15 * bareEnv.CLK_TCK) = 100 := by decide
      have e3 := h3 (by decide)
      rw [e2] at e
      rw [h2]
      omega⟩

/-- C9 fails as stated: with `CLK_TCK = 100` and a cycle of one second,
`tickPercentage(129, 100)` is 28, while the integer part of
`100 * (129 - 100) / 100` is 29. -/
theorem tickPercentage_29_ticks_is_28 :
    (NewHostStore bareEnv 1).cycleTicks = F64.ofInt (1 * 100) ∧
    tickPercentage bareEnv (NewHostStore bareEnv 1).cycleTicks 129 100 = 28 ∧
    (100 * (129 - 100) : Int) / (1 * 100) = 29 := by
  refine ⟨by decide!, by decide!, by decide⟩

/-! ## `CollectHost` -/

/-- C10: `CollectHost` runs load average, memory, cpu and disk in this order
and stops at the first collector that does not return `nil`: it ends the way
that collector ended, in particular with exactly its error, and the store has
been called by the collectors up to that one only.  It returns `nil` exactly
when all four return `nil`, and then all four have made their calls. -/
theorem CollectHost_first_error (env : Env) (path : Str) :
    (∀ o, (collectLoadAverage env path).result = o → o ≠ .nil →
      CollectHost env path = ⟨(collectLoadAverage env path).calls, o⟩) ∧
    (∀ o, (collectLoadAverage env path).result = .nil →
      (collectMemory env path).result = o → o ≠ .nil →
      CollectHost env path =
        ⟨(collectLoadAverage env path).calls ++ (collectMemory env path).calls, o⟩) ∧
    (∀ o, (collectLoadAverage env path).result = .nil →
      (collectMemory env path).result = .nil →
      (collectCpu env path).result = o → o ≠ .nil →
      CollectHost env path =
        ⟨(collectLoadAverage env path).calls ++ (collectMemory env path).calls ++
          (collectCpu env path).calls, o⟩) ∧
    (∀ o, (collectLoadAverage env path).result = .nil →
      (collectMemory env path).result = .nil →
      (collectCpu env path).result = .nil →
      (collectDisk env []).result = o →
      CollectHost env path =
        ⟨(collectLoadAverage env path).calls ++ (collectMemory env path).calls ++
          (collectCpu env path).calls ++ (collectDisk env []).calls, o⟩) ∧
    ((CollectHost env path).result = .nil ↔
      (collectLoadAverage env path).result = .nil ∧ (collectMemory env path).result = .nil ∧
      (collectCpu env path).result = .nil ∧ (collectDisk env []).result = .nil) := by
  unfold CollectHost
  generalize collectLoadAverage env path = r1
  generalize collectMemory env path = r2
  generalize collectCpu env path = r3
  generalize collectDisk env [] = r4
  obtain ⟨c1, o1⟩ := r1
  obtain ⟨c2, o2⟩ := r2
  obtain ⟨c3, o3⟩ := r3
  obtain ⟨c4, o4⟩ := r4
  refine ⟨?_, ?_, ?_, ?_, ?_⟩
  · intro o h hne
    simp only at h
    subst h
    cases o1 <;> simp_all
  · intro o h1 h hne
    simp only at h h1
    subst h h1
    cases o2 <;> simp_all
  · intro o h1 h2 h hne
    simp only at h h1 h2
    subst h h1 h2
    cases o3 <;> simp_all
  · intro o h1 h2 h3 h
    simp only at h h1 h2 h3
    subst h h1 h2 h3
    cases o4 <;> simp
  · cases o1 <;> cases o2 <;> cases o3 <;> cases o4 <;> simp

/-! ## `collectMemory`, the fallback branch -/

theorem isDigit_toNat (c : Char) (h : isDigit c = true) : 48 ≤ c.toNat ∧ c.toNat ≤ 57 := by
  simp only [isDigit, Bool.and_eq_true, decide_eq_true_eq, Char.le_def] at h
  obtain ⟨h1, h2⟩ := h
  have e1 : ('0' : Char).val.toNat = 48 := by decide
  have e2 : ('9' : Char).val.toNat = 57 := by decide
  have a1 : ('0' : Char).val.toNat ≤ c.val.toNat := h1
  have a2 : c.val.toNat ≤ ('9' : Char).val.toNat := h2
  rw [e1] at a1
  rw [e2] at a2
  exact ⟨a1, a2⟩

theorem isDigit_ne (c x : Char) (h : isDigit c = true) (hx : isDigit x = false) : c ≠ x := by
  intro e
  subst e
  rw [h] at hx
  exact Bool.noConfusion hx

theorem isUpper_ne (c x : Char) (h : isUpper c = true) (hx : isUpper x = false) : c ≠ x := by
  intro e
  subst e
  rw [h] at hx
  exact Bool.noConfusion hx

theorem digitVal_le (c : Char) (h : isDigit c = true) : digitVal c ≤ 9 := by
  have := isDigit_toNat c h
  have e : ('0' : Char).toNat = 48 := by decide
  unfold digitVal
  rw [e]
  omega

theorem digitsVal_lt (s : Str) (hs : ∀ c ∈ s, isDigit c = true) :
    ∀ acc : Nat, digitsVal s acc < (acc + 1) * 10 ^ s.length := by
  induction s with
  | nil =>
    intro acc
    simp [digitsVal]
  | cons c cs ih =>
    intro acc
    have hc := digitVal_le c (hs c (List.mem_cons_self _ _))
    have := ih (fun x hx => hs x (List.mem_cons_of_mem _ hx)) (acc * 10 + digitVal c)
    simp only [digitsVal, List.length_cons]
    calc digitsVal cs (acc * 10 + digitVal c)
        < (acc * 10 + digitVal c + 1) * 10 ^ cs.length := this
      _ ≤ ((acc + 1) * 10) * 10 ^ cs.length := Nat.mul_le_mul_right _ (by omega)
      _ = (acc + 1) * 10 ^ (cs.length + 1) := by rw [pow_succ]; ring

/-- The pattern of `swapRegexp` cannot match at a character other than `=`, so
the search passes over a text without `=`. -/
theorem swapRegexp_skip (pre s : Str) (h : ∀ c ∈ pre, c ≠ '=') :
    swapRegexp (pre ++ s) = swapRegexp s := by
  induction pre with
  | nil => rfl
  | cons p ps ih =>
    have hp : p ≠ '=' := h p (List.mem_cons_self _ _)
    have hnone : swapMatchAt (p :: (ps ++ s)) = none := by
      unfold swapMatchAt
      split
      · rename_i heq
        simp only [List.cons.injEq] at heq
        exact absurd heq.1 hp
      · rfl
    have step : swapRegexp (p :: (ps ++ s)) = swapRegexp (ps ++ s) := by
      unfold swapRegexp
      simp only [findFrom, hnone]
    rw [List.cons_append, step]
    exact ih (fun c hc => h c (List.mem_cons_of_mem _ hc))

/-- The match of `swapRegexp` at `= ` followed by digits, a dot, two digits
and an upper-case letter. -/
theorem swapRegexp_group (D rest : Str) (a b u : Char) (hD : D ≠ [])
    (hDd : ∀ c ∈ D, isDigit c = true) (ha : isDigit a = true) (hb : isDigit b = true)
    (hu : isUpper u = true) :
    swapRegexp ('=' :: ' ' :: (D ++ '.' :: a :: b :: u :: rest)) =
      some (D ++ ['.', a, b, u], rest.takeWhile (fun c => c != '\n')) := by
  have hdot : ¬ (isDigit '.' = true) := by decide
  have ht : (D ++ '.' :: a :: b :: u :: rest).takeWhile isDigit = D := by
    rw [List.takeWhile_append_of_pos hDd, List.takeWhile_cons_of_neg hdot, List.append_nil]
  have hd : (D ++ '.' :: a :: b :: u :: rest).dropWhile isDigit = '.' :: a :: b :: u :: rest := by
    rw [List.dropWhile_append_of_pos hDd, List.dropWhile_cons_of_neg hdot]
  unfold swapRegexp
  simp only [findFrom, swapMatchAt, ht, hd, hD, if_false, ha, hb, hu, and_self, if_true]

theorem isUpper_toNat (c : Char) (h : isUpper c = true) : 65 ≤ c.toNat ∧ c.toNat ≤ 90 := by
  simp only [isUpper, Bool.and_eq_true, decide_eq_true_eq, Char.le_def] at h
  obtain ⟨h1, h2⟩ := h
  have e1 : ('A' : Char).val.toNat = 65 := by decide
  have e2 : ('Z' : Char).val.toNat = 90 := by decide
  have a1 : ('A' : Char).val.toNat ≤ c.val.toNat := h1
  have a2 : c.val.toNat ≤ ('Z' : Char).val.toNat := h2
  rw [e1] at a1
  rw [e2] at a2
  exact ⟨a1, a2⟩

theorem isUpper_of_isDigit (c : Char) (h : isDigit c = true) : isUpper c = false := by
  have h1 := isDigit_toNat c h
  by_contra hc
  have h2 := isUpper_toNat c (by simpa using hc)
  omega

/-- A string that starts with a digit is none of the names `special` knows. -/
theorem special_digit_head (d : Char) (r : Str) (hd : isDigit d = true) :
    special (d :: r) = none := by
  have hl : lowerChar d = d := by
    unfold lowerChar
    rw [isUpper_of_isDigit d hd]
    simp
  have n1 : d ≠ '+' := isDigit_ne d '+' hd (by decide)
  have n2 : d ≠ '-' := isDigit_ne d '-' hd (by decide)
  have n3 : d ≠ 'i' := isDigit_ne d 'i' hd (by decide)
  have n4 : d ≠ 'n' := isDigit_ne d 'n' hd (by decide)
  unfold special
  simp [hl, n1, n2, n3, n4]

/-- The scanner on digits, a dot and two digits. -/
theorem readFloat_two_decimals (D : Str) (a b : Char) (hD : D ≠ [])
    (hDd : ∀ c ∈ D, isDigit c = true) (ha : isDigit a = true) (hb : isDigit b = true) :
    readFloat (D ++ ['.', a, b]) = some (false, digitsVal (D ++ [a, b]) 0, -2) := by
  obtain ⟨d, D', rfl⟩ := List.exists_cons_of_ne_nil hD
  have hd : isDigit d = true := hDd d (List.mem_cons_self _ _)
  have n1 : d ≠ '+' := isDigit_ne d '+' hd (by decide)
  have n2 : d ≠ '-' := isDigit_ne d '-' hd (by decide)
  have hdot : ¬ (isDigit '.' = true) := by decide
  have ht : (d :: D' ++ ['.', a, b]).takeWhile isDigit = d :: D' := by
    rw [List.takeWhile_append_of_pos hDd, List.takeWhile_cons_of_neg hdot, List.append_nil]
  have hdr : (d :: D' ++ ['.', a, b]).dropWhile isDigit = ['.', a, b] := by
    rw [List.dropWhile_append_of_pos hDd, List.dropWhile_cons_of_neg hdot]
  have hab : ∀ c ∈ [a, b], isDigit c = true := by
    intro c hc
    simp only [List.mem_cons, List.mem_singleton, List.not_mem_nil, or_false] at hc
    rcases hc with h | h <;> subst h <;> assumption
  have ht2 : [a, b].takeWhile isDigit = [a, b] := by
    have := @List.takeWhile_append_of_pos _ isDigit [a, b] [] hab
    simpa using this
  have hd2 : [a, b].dropWhile isDigit = [] := by
    have := @List.dropWhile_append_of_pos _ isDigit [a, b] [] hab
    simpa using this
  have hhead : (d :: D' ++ ['.', a, b]).head? = some d := rfl
  have hs1 : ¬ (some d = some '+' ∨ some d = some '-') := by
    simp [n1, n2]
  have hneg : decide (some d = some '-') = false := by
    simp [n2]
  unfold readFloat
  simp only [hhead, hs1, if_false, ht, hdr, ht2, hd2, hneg]
  simp [readExp]

set_option exponentiation.threshold 1100 in
theorem two_decimals_bound (D : Str) (a b : Char) (hDd : ∀ c ∈ D, isDigit c = true)
    (ha : isDigit a = true) (hb : isDigit b = true) (hlen : D.length ≤ 300) :
    digitsVal (D ++ [a, b]) 0 * oneUnits ≤ 2 ^ 1023 * oneUnits * 100 := by
  have hall : ∀ c ∈ D ++ [a, b], isDigit c = true := by
    intro c hc
    simp only [List.mem_append, List.mem_cons, List.mem_singleton, List.not_mem_nil,
      or_false] at hc
    rcases hc with h | h | h
    · exact hDd c h
    · subst h; exact ha
    · subst h; exact hb
  have h1 := digitsVal_lt (D ++ [a, b]) hall 0
  have hl : (D ++ [a, b]).length ≤ 302 := by
    simp only [List.length_append, List.length_cons, List.length_nil]
    omega
  have h2 : 10 ^ (D ++ [a, b]).length ≤ 10 ^ 302 := Nat.pow_le_pow_right (by decide) hl
  have h3 : (10 : Nat) ^ 302 ≤ 2 ^ 1023 * 100 := by
    have e1 : (10 : Nat) ^ 302 = (10 ^ 3) ^ 100 * 100 := by
      rw [← pow_mul]
      exact pow_add 10 300 2
    have e2 : (2 : Nat) ^ 1000 = (2 ^ 10) ^ 100 := by rw [← pow_mul]
    have l1 : ((10 : Nat) ^ 3) ^ 100 ≤ (2 ^ 10) ^ 100 := Nat.pow_le_pow_left (by norm_num) 100
    have l2 : (2 : Nat) ^ 1000 ≤ 2 ^ 1023 := Nat.pow_le_pow_right (by norm_num) (by norm_num)
    rw [e1]
    exact Nat.mul_le_mul_right _ (le_trans (by rw [e2]; exact l1) l2)
  have h4 : digitsVal (D ++ [a, b]) 0 ≤ 2 ^ 1023 * 100 := by
    rw [Nat.zero_add, Nat.one_mul] at h1
    omega
  calc digitsVal (D ++ [a, b]) 0 * oneUnits ≤ 2 ^ 1023 * 100 * oneUnits :=
        Nat.mul_le_mul_right _ h4
    _ = 2 ^ 1023 * oneUnits * 100 := by ring

/-- On digits, a dot and two digits, with at most 300 digits before the dot,
`ParseFloat` returns the nearest binary64 value and no error. -/
theorem ParseFloat_two_decimals (D : Str) (a b : Char) (hD : D ≠ [])
    (hDd : ∀ c ∈ D, isDigit c = true) (ha : isDigit a = true) (hb : isDigit b = true)
    (hlen : D.length ≤ 300) :
    ParseFloat (D ++ ['.', a, b]) = (nearestTwoDecimals D a b, none) := by
  obtain ⟨d, D', hcons⟩ := List.exists_cons_of_ne_nil hD
  have hsp : special (D ++ ['.', a, b]) = none := by
    rw [hcons, List.cons_append]
    exact special_digit_head d _ (hDd d (by rw [hcons]; exact List.mem_cons_self _ _))
  have hB : 2 ^ (bitLen (2 ^ 1023 * oneUnits) - 53) ∣ 2 ^ 1023 * oneUnits := by
    have e : 2 ^ 1023 * oneUnits = 1 * 2 ^ (1023 + 1074) := by
      unfold oneUnits
      rw [pow_add, Nat.one_mul]
    rw [e]
    exact representable_small 1 _ (by norm_num)
  have hBlt : 2 ^ 1023 * oneUnits < overflowUnits := by
    rw [overflowUnits_eq]
    exact Nat.mul_lt_mul_of_pos_right (by norm_num) oneUnits_pos
  have hr := round_fin (n := digitsVal (D ++ [a, b]) 0 * oneUnits) (d := 100) (by norm_num)
    (two_decimals_bound D a b hDd ha hb hlen) hB hBlt
  unfold ParseFloat
  rw [hsp, readFloat_two_decimals D a b hD hDd ha hb]
  have hneg : ¬ ((0 : Int) ≤ -2) := by norm_num
  have hten : (10 : Nat) ^ (-(-2 : Int)).toNat = 100 := by decide
  simp only [hneg, if_false, hten, hr]
  rfl

theorem sized_getLast (D : Str) (a b u : Char) :
    (D ++ ['.', a, b, u]).getLast? = some u ∧ (D ++ ['.', a, b, u]).dropLast = D ++ ['.', a, b] := by
  have e : D ++ ['.', a, b, u] = (D ++ ['.', a, b]) ++ [u] := by simp
  rw [e]
  exact ⟨List.getLast?_concat _, List.dropLast_concat⟩

/-- The second group of the first match, when no line feed stands before the
end of the second size. -/
theorem takeWhile_to_second_size (mid D post : Str) (a b u : Char)
    (hmid : ∀ c ∈ mid, c ≠ '\n') (hDd : ∀ c ∈ D, isDigit c = true)
    (ha : isDigit a = true) (hb : isDigit b = true) (hu : isUpper u = true) :
    (mid ++ '=' :: ' ' :: (D ++ '.' :: a :: b :: u :: post)).takeWhile (fun c => c != '\n') =
      mid ++ '=' :: ' ' :: (D ++ '.' :: a :: b :: u :: post.takeWhile (fun c => c != '\n')) := by
  have hnl : ∀ c ∈ mid ++ '=' :: ' ' :: (D ++ ['.', a, b, u]), (c != '\n') = true := by
    intro c hc
    rw [bne_iff_ne]
    simp only [List.mem_append, List.mem_cons, List.mem_singleton, List.not_mem_nil,
      or_false] at hc
    rcases hc with h | h | h | h | h | h | h | h
    · exact hmid c h
    · subst h; decide
    · subst h; decide
    · exact isDigit_ne c '\n' (hDd c h) (by decide)
    · subst h; decide
    · subst h; exact isDigit_ne _ '\n' ha (by decide)
    · subst h; exact isDigit_ne _ '\n' hb (by decide)
    · subst h; exact isUpper_ne _ '\n' hu (by decide)
  have e : mid ++ '=' :: ' ' :: (D ++ '.' :: a :: b :: u :: post)
      = (mid ++ '=' :: ' ' :: (D ++ ['.', a, b, u])) ++ post := by simp
  rw [e, List.takeWhile_append_of_pos hnl]
  simp

/-- The fallback branch on a line with two sizes: `= `, digits, a dot, two
digits and an upper-case letter, twice, no `=` before the first size and
neither `=` nor a line feed between the two.  The two numbers parse, and one
value is saved. -/
theorem swapFallback_saves (env : Env) (pre mid post D1 D2 : Str) (a1 b1 u1 a2 b2 u2 : Char)
    (more : List Str)
    (hpre : ∀ c ∈ pre, c ≠ '=') (hmid : ∀ c ∈ mid, c ≠ '=' ∧ c ≠ '\n')
    (hD1 : D1 ≠ []) (hD1d : ∀ c ∈ D1, isDigit c = true) (hl1 : D1.length ≤ 300)
    (ha1 : isDigit a1 = true) (hb1 : isDigit b1 = true) (hu1 : isUpper u1 = true)
    (hD2 : D2 ≠ []) (hD2d : ∀ c ∈ D2, isDigit c = true) (hl2 : D2.length ≤ 300)
    (ha2 : isDigit a2 = true) (hb2 : isDigit b2 = true) (hu2 : isUpper u2 = true) :
    swapFallback env
      ((pre ++ '=' :: ' ' :: (D1 ++ '.' :: a1 :: b1 :: u1 ::
        (mid ++ '=' :: ' ' :: (D2 ++ '.' :: a2 :: b2 :: u2 :: post)))) :: more) =
      ⟨[.save "swap".toList []
        (if normalizeSwap (nearestTwoDecimals D1 a1 b1) u1 = .fin 0 then 100
         else F64.toInt env.convert 64 (F64.mul (F64.ofInt 100)
           (F64.div (normalizeSwap (nearestTwoDecimals D2 a2 b2) u2)
             (normalizeSwap (nearestTwoDecimals D1 a1 b1) u1))))], .nil⟩ := by
  have m1 : swapRegexp (pre ++ '=' :: ' ' :: (D1 ++ '.' :: a1 :: b1 :: u1 ::
      (mid ++ '=' :: ' ' :: (D2 ++ '.' :: a2 :: b2 :: u2 :: post)))) =
      some (D1 ++ ['.', a1, b1, u1],
        mid ++ '=' :: ' ' :: (D2 ++ '.' :: a2 :: b2 :: u2 ::
          post.takeWhile (fun c => c != '\n'))) := by
    rw [swapRegexp_skip pre _ hpre, swapRegexp_group D1 _ a1 b1 u1 hD1 hD1d ha1 hb1 hu1,
      takeWhile_to_second_size mid D2 post a2 b2 u2 (fun c hc => (hmid c hc).2) hD2d ha2 hb2 hu2]
  have m2 : swapRegexp (mid ++ '=' :: ' ' :: (D2 ++ '.' :: a2 :: b2 :: u2 ::
      post.takeWhile (fun c => c != '\n'))) =
      some (D2 ++ ['.', a2, b2, u2],
        (post.takeWhile (fun c => c != '\n')).takeWhile (fun c => c != '\n')) := by
    rw [swapRegexp_skip mid _ (fun c hc => (hmid c hc).1),
      swapRegexp_group D2 _ a2 b2 u2 hD2 hD2d ha2 hb2 hu2]
  obtain ⟨g1, d1⟩ := sized_getLast D1 a1 b1 u1
  obtain ⟨g2, d2⟩ := sized_getLast D2 a2 b2 u2
  have p1 := ParseFloat_two_decimals D1 a1 b1 hD1 hD1d ha1 hb1 hl1
  have p2 := ParseFloat_two_decimals D2 a2 b2 hD2 hD2d ha2 hb2 hl2
  unfold swapFallback
  simp only [m1, m2, g1, g2, d1, d2, p1, p2]
  split_ifs <;> rfl

/-- C7, as the code has it: in the fallback branch, when the first line of the
output has `= `, a two-decimal number and an upper-case letter, and later the
same once more (no `=` before the first, neither `=` nor a line feed between
the two, at most 300 digits before each point), both numbers parse to the
nearest binary64 value, both are scaled by `normalizeSwap` according to their
letter, and the collector returns `nil` after saving one value for swap: 100
when the scaled total is zero, else the binary64 value `100*(u/t)` converted
to `int64`. -/
theorem collectMemory_fallback_saves (env : Env) (path sout pre mid post D1 D2 : Str)
    (a1 b1 u1 a2 b2 u2 : Char) (more : List Str)
    (hex : env.FileExists (path ++ "/meminfo".toList) = .ok false)
    (hcmd : env.CombinedOutput "sysctl".toList ["-n".toList, "vm.swapusage".toList] = .ok sout)
    (hlines : env.ReadLines sout = .ok
      ((pre ++ '=' :: ' ' :: (D1 ++ '.' :: a1 :: b1 :: u1 ::
        (mid ++ '=' :: ' ' :: (D2 ++ '.' :: a2 :: b2 :: u2 :: post)))) :: more))
    (hpre : ∀ c ∈ pre, c ≠ '=') (hmid : ∀ c ∈ mid, c ≠ '=' ∧ c ≠ '\n')
    (hD1 : D1 ≠ []) (hD1d : ∀ c ∈ D1, isDigit c = true) (hl1 : D1.length ≤ 300)
    (ha1 : isDigit a1 = true) (hb1 : isDigit b1 = true) (hu1 : isUpper u1 = true)
    (hD2 : D2 ≠ []) (hD2d : ∀ c ∈ D2, isDigit c = true) (hl2 : D2.length ≤ 300)
    (ha2 : isDigit a2 = true) (hb2 : isDigit b2 = true) (hu2 : isUpper u2 = true) :
    ParseFloat (D1 ++ ['.', a1, b1]) = (nearestTwoDecimals D1 a1 b1, none) ∧
    ParseFloat (D2 ++ ['.', a2, b2]) = (nearestTwoDecimals D2 a2 b2, none) ∧
    collectMemory env path =
      ⟨[.save "swap".toList []
        (if normalizeSwap (nearestTwoDecimals D1 a1 b1) u1 = .fin 0 then 100
         else F64.toInt env.convert 64 (F64.mul (F64.ofInt 100)
           (F64.div (normalizeSwap (nearestTwoDecimals D2 a2 b2) u2)
             (normalizeSwap (nearestTwoDecimals D1 a1 b1) u1))))], .nil⟩ := by
  refine ⟨ParseFloat_two_decimals D1 a1 b1 hD1 hD1d ha1 hb1 hl1,
    ParseFloat_two_decimals D2 a2 b2 hD2 hD2d ha2 hb2 hl2, ?_⟩
  unfold collectMemory
  rw [hex]
  simp only [hcmd, hlines]
  exact swapFallback_saves env pre mid post D1 D2 a1 b1 u1 a2 b2 u2 more hpre hmid
    hD1 hD1d hl1 ha1 hb1 hu1 hD2 hD2d hl2 ha2 hb2 hu2

/-- Witness of `collectMemory_fallback_saves`: the two examples of the claim,
4096.00M with 2048.00M used and 1.00G with 512.00M used, both save 50. -/
theorem collectMemory_fallback_saves_witness :
    (collectMemory
        (swapusageEnv "total = 4096.00M  used = 2048.00M  free = 2048.00M  (encrypted)".toList)
        "/proc".toList =
      ⟨[.save "swap".toList []
        (if normalizeSwap (nearestTwoDecimals "4096".toList '0' '0') 'M' = .fin 0 then 100
         else F64.toInt bareEnv.convert 64 (F64.mul (F64.ofInt 100)
           (F64.div (normalizeSwap (nearestTwoDecimals "2048".toList '0' '0') 'M')
             (normalizeSwap (nearestTwoDecimals "4096".toList '0' '0') 'M'))))], .nil⟩ ∧
      collectMemory
        (swapusageEnv "total = 4096.00M  used = 2048.00M  free = 2048.00M  (encrypted)".toList)
        "/proc".toList = ⟨[.save "swap".toList [] 50], .nil⟩) ∧
    (collectMemory
        (swapusageEnv "total = 1.00G  used = 512.00M  free = 512.00M".toList)
        "/proc".toList =
      ⟨[.save "swap".toList []
        (if normalizeSwap (nearestTwoDecimals "1".toList '0' '0') 'G' = .fin 0 then 100
         else F64.toInt bareEnv.convert 64 (F64.mul (F64.ofInt 100)
           (F64.div (normalizeSwap (nearestTwoDecimals "512".toList '0' '0') 'M')
             (normalizeSwap (nearestTwoDecimals "1".toList '0' '0') 'G'))))], .nil⟩ ∧
      collectMemory
        (swapusageEnv "total = 1.00G  used = 512.00M  free = 512.00M".toList)
        "/proc".toList = ⟨[.save "swap".toList [] 50], .nil⟩) :=
  ⟨⟨(collectMemory_fallback_saves
      (swapusageEnv "total = 4096.00M  used = 2048.00M  free = 2048.00M  (encrypted)".toList)
      "/proc".toList
      ("total = 4096.00M  used = 2048.00M  free = 2048.00M  (encrypted)".toList ++ ['\n'])
      "total ".toList "  used ".toList "  free = 2048.00M  (encrypted)".toList
      "4096".toList "2048".toList '0' '0' 'M' '0' '0' 'M' []
      (by decide) (by decide) (by decide) (by decide) (by decide)
      (by decide) (by decide) (by decide) (by decide) (by decide) (by decide)
      (by decide) (by decide) (by decide) (by decide) (by decide) (by decide)).2.2,
     by decide!⟩,
   ⟨(collectMemory_fallback_saves
      (swapusageEnv "total = 1.00G  used = 512.00M  free = 512.00M".toList)
      "/proc".toList
      ("total = 1.00G  used = 512.00M  free = 512.00M".toList ++ ['\n'])
      "total ".toList "  used ".toList "  free = 512.00M".toList
      "1".toList "512".toList '0' '0' 'G' '0' '0' 'M' []
      (by decide) (by decide) (by decide) (by decide) (by decide)
      (by decide) (by decide) (by decide) (by decide) (by decide) (by decide)
      (by decide) (by decide) (by decide) (by decide) (by decide) (by decide)).2.2,
     by decide!⟩⟩

/-- C7 fails as stated: with a total of 100.00M and 29.00M used the value
saved is 28, while the integer part of `100 * 29 / 100` is 29; and with a total
of 310 digits `ParseFloat` reports a range error, which the collector returns
without saving anything. -/
theorem collectMemory_fallback_29_of_100 :
    collectMemory (swapusageEnv "total = 100.00M  used = 29.00M  free = 71.00M".toList)
      "/proc".toList = ⟨[.save "swap".toList [] 28], .nil⟩ ∧
    (100 * (29 * 1024) : Int) / (100 * 1024) = 29 ∧
    collectMemory (swapusageEnv ("total = ".toList ++ hugeTotal ++ "M  used = 1.00M".toList))
      "/proc".toList = ⟨[], .error (.num "ParseFloat".toList hugeTotal .ErrRange)⟩ := by
  refine ⟨by decide!, by decide, by decide!⟩

/-- Witness of `CollectHost_first_error`: the load averages are saved, the
memory collector fails on a number beyond `int64`, and the pass ends with that
error before the cpu and disk collectors run. -/
theorem CollectHost_first_error_witness :
    (collectLoadAverage badMeminfoEnv "/proc".toList).result = .nil ∧
    (collectMemory badMeminfoEnv "/proc".toList).result =
      .error (.num "ParseInt".toList "99999999999999999999".toList .ErrRange) ∧
    (collectCpu badMeminfoEnv "/proc".toList).calls ≠ [] ∧
    CollectHost badMeminfoEnv "/proc".toList =
      ⟨(collectLoadAverage badMeminfoEnv "/proc".toList).calls ++
        (collectMemory badMeminfoEnv "/proc".toList).calls,
       .error (.num "ParseInt".toList "99999999999999999999".toList .ErrRange)⟩ :=
  ⟨by decide!, by decide!, by decide!,
    (CollectHost_first_error badMeminfoEnv "/proc".toList).2.1 _ (by decide!) (by decide!)
      (by decide)⟩

/-! ## Inputs the collectors do not guard against -/

/-- C11 at failing inputs: when `sysctl -n vm.swapusage` prints no line, a line
without the pattern, or a line with the pattern only once, `collectMemory`
does not return an error: it stops with an index out of range, on `lines[0]`
or on `matches[1]` of a `nil` match.  Nothing is saved. -/
theorem collectMemory_fallback_panics :
    silentSwapusageEnv.ReadLines [] = .ok [] ∧
    collectMemory silentSwapusageEnv "/proc".toList = ⟨[], .runtimePanic⟩ ∧
    swapRegexp "vm.swapusage: no swap devices".toList = none ∧
    collectMemory (swapusageEnv "vm.swapusage: no swap devices".toList) "/proc".toList =
      ⟨[], .runtimePanic⟩ ∧
    swapRegexp "total = 1024.00M".toList = some ("1024.00M".toList, []) ∧
    swapRegexp [] = none ∧
    collectMemory (swapusageEnv "total = 1024.00M".toList) "/proc".toList =
      ⟨[], .runtimePanic⟩ := by
  refine ⟨by decide, by decide, by decide, by decide, by decide, by decide, by decide⟩

/-- C16 at a failing input: an empty line among the lines of `df` is not
skipped; `line[0]` is an index out of range and `collectDisk` stops with a
panic, saving nothing, also not for the well-formed line after it. -/
theorem collectDisk_empty_line_panics :
    dfBlankEnv.ReadLines dfBlankOutput = .ok
      [ "Filesystem 1K-blocks Used Available Use% Mounted on".toList,
        [],
        "/dev/sda1  100G  50G  50G  50%  /".toList ] ∧
    collectDisk dfBlankEnv [] = ⟨[], .runtimePanic⟩ ∧
    saveDisk [ "Filesystem 1K-blocks Used Available Use% Mounted on".toList,
        "/dev/sda1  100G  50G  50G  50%  /".toList ] =
      ⟨[.saveType "disk".toList "/".toList 50 .Gauge], .nil⟩ := by
  refine ⟨by decide, by decide, by decide⟩

/-- C17 at failing inputs: with one or two well-formed tokens in `loadavg` the
collector does not return an error; it stops with an index out of range on
`slices[1]` or `slices[2]`.  The empty content does return the syntax error of
`ParseFloat`.  Nothing is saved in either case. -/
theorem collectLoadAverage_short_input_panics :
    Split ' ' "0.50".toList = ["0.50".toList] ∧
    collectLoadAverage (loadavgEnv "0.50".toList) "/proc".toList = ⟨[], .runtimePanic⟩ ∧
    Split ' ' "0.50 1.20".toList = ["0.50".toList, "1.20".toList] ∧
    collectLoadAverage (loadavgEnv "0.50 1.20".toList) "/proc".toList = ⟨[], .runtimePanic⟩ ∧
    collectLoadAverage (loadavgEnv []) "/proc".toList =
      ⟨[], .error (.num "ParseFloat".toList [] .ErrSyntax)⟩ := by
  refine ⟨by decide, by decide!, by decide, by decide!, by decide⟩

/-! ## `collectCpu` and fields that do not parse -/

/-- The value `ParseInt` returns together with an error: 0, or a bound of the
type. -/
theorem ParseInt_error_value (s : Str) (v : Int) (e : Error) (h : ParseInt s 64 = (v, some e)) :
    v = 0 ∨ v = 2 ^ 63 - 1 ∨ v = -(2 ^ 63) := by
  unfold ParseInt at h
  by_cases h0 : s = []
  · rw [if_pos h0] at h
    simp only [Prod.mk.injEq] at h
    exact Or.inl h.1.symm
  · rw [if_neg h0] at h
    simp only at h
    generalize ParseUint _ 64 = pu at h
    generalize decide (s.head? = some '-') = neg at h
    obtain ⟨un, cause⟩ := pu
    have hrest : (if neg = false ∧ 2 ^ (64 - 1) ≤ un then
            (((2 ^ (64 - 1) : Nat) : Int) - 1, some (Error.num "ParseInt".toList s .ErrRange))
          else if neg = true ∧ 2 ^ (64 - 1) < un then
            (-((2 ^ (64 - 1) : Nat) : Int), some (Error.num "ParseInt".toList s .ErrRange))
          else (if neg = true then -(un : Int) else (un : Int), none)) = (v, some e) →
        v = 0 ∨ v = 2 ^ 63 - 1 ∨ v = -(2 ^ 63) := by
      intro hc
      split_ifs at hc
      · simp only [Prod.mk.injEq] at hc
        right; left
        rw [← hc.1]
        norm_num
      · simp only [Prod.mk.injEq] at hc
        right; right
        rw [← hc.1]
        norm_num
      · exact absurd (congrArg Prod.snd hc) (by simp)
      · exact absurd (congrArg Prod.snd hc) (by simp)
    cases cause with
    | none => exact hrest h
    | some c =>
      cases c with
      | ErrSyntax =>
        simp only [Prod.mk.injEq] at h
        exact Or.inl h.1.symm
      | ErrRange => exact hrest h

/-- The saves of `collectCpu` on a first line of at least nine fields, whatever
the fields are. -/
theorem saveCpu_fields (contents line : Str) (rest more : List Str)
    (f0 f1 f2 f3 f4 f5 f6 f7 f8 : Str)
    (hline : Split '\n' contents = line :: rest)
    (hfields : Fields line = f0 :: f1 :: f2 :: f3 :: f4 :: f5 :: f6 :: f7 :: f8 :: more) :
    saveCpu contents =
      ⟨[ .save "cpu".toList []
           (wrapInt 64 ((ParseInt f1 64).1 + (ParseInt f2 64).1 + (ParseInt f3 64).1 +
             (ParseInt f5 64).1 + (ParseInt f6 64).1 + (ParseInt f7 64).1 + (ParseInt f8 64).1)),
         .save "cpu".toList "user".toList (ParseInt f1 64).1,
         .save "cpu".toList "system".toList (ParseInt f3 64).1,
         .save "cpu".toList "iowait".toList (ParseInt f5 64).1,
         .save "cpu".toList "steal".toList (ParseInt f8 64).1 ], .nil⟩ := by
  unfold saveCpu
  rw [hline]
  simp only [hfields, List.getElem?_cons_succ, List.getElem?_cons_zero]
  simp only [add64, wrapInt_add_wrapInt]

/-- C12, as the code has it: on a first line of `stat` with at least nine
fields `collectCpu` never returns an error for a field that is not a valid
64-bit integer.  It returns `nil` and saves the five metrics from the values
`ParseInt` returns, which for a rejected field is 0 or a bound of `int64`. -/
theorem collectCpu_ignores_parse_errors (env : Env) (path contents line : Str)
    (rest more : List Str) (f0 f1 f2 f3 f4 f5 f6 f7 f8 : Str)
    (hex : env.FileExists (path ++ "/stat".toList) = .ok true)
    (hrd : env.ReadFile (path ++ "/stat".toList) = .ok contents)
    (hline : Split '\n' contents = line :: rest)
    (hfields : Fields line = f0 :: f1 :: f2 :: f3 :: f4 :: f5 :: f6 :: f7 :: f8 :: more) :
    collectCpu env path =
      ⟨[ .save "cpu".toList []
           (wrapInt 64 ((ParseInt f1 64).1 + (ParseInt f2 64).1 + (ParseInt f3 64).1 +
             (ParseInt f5 64).1 + (ParseInt f6 64).1 + (ParseInt f7 64).1 + (ParseInt f8 64).1)),
         .save "cpu".toList "user".toList (ParseInt f1 64).1,
         .save "cpu".toList "system".toList (ParseInt f3 64).1,
         .save "cpu".toList "iowait".toList (ParseInt f5 64).1,
         .save "cpu".toList "steal".toList (ParseInt f8 64).1 ], .nil⟩ ∧
    (∀ (f : Str) (v : Int) (e : Error), ParseInt f 64 = (v, some e) →
      v = 0 ∨ v = 2 ^ 63 - 1 ∨ v = -(2 ^ 63)) := by
  refine ⟨?_, ParseInt_error_value⟩
  unfold collectCpu
  rw [hex]
  simp only [hrd]
  exact saveCpu_fields contents line rest more f0 f1 f2 f3 f4 f5 f6 f7 f8 hline hfields

/-- Witness of `collectCpu_ignores_parse_errors`: a first line whose user field
is beyond `int64` and whose nice field is `x`. -/
theorem collectCpu_ignores_parse_errors_witness :
    statGarbledEnv.FileExists ("/proc".toList ++ "/stat".toList) = .ok true ∧
    statGarbledEnv.ReadFile ("/proc".toList ++ "/stat".toList) =
      .ok "cpu 99999999999999999999 x 30 4000 50 60 70 80\n".toList ∧
    collectCpu statGarbledEnv "/proc".toList =
      ⟨[ .save "cpu".toList []
           (wrapInt 64 ((ParseInt "99999999999999999999".toList 64).1 +
             (ParseInt "x".toList 64).1 + (ParseInt "30".toList 64).1 +
             (ParseInt "50".toList 64).1 + (ParseInt "60".toList 64).1 +
             (ParseInt "70".toList 64).1 + (ParseInt "80".toList 64).1)),
         .save "cpu".toList "user".toList (ParseInt "99999999999999999999".toList 64).1,
         .save "cpu".toList "system".toList (ParseInt "30".toList 64).1,
         .save "cpu".toList "iowait".toList (ParseInt "50".toList 64).1,
         .save "cpu".toList "steal".toList (ParseInt "80".toList 64).1 ], .nil⟩ :=
  ⟨by decide, by decide,
    (collectCpu_ignores_parse_errors statGarbledEnv "/proc".toList
      "cpu 99999999999999999999 x 30 4000 50 60 70 80\n".toList
      "cpu 99999999999999999999 x 30 4000 50 60 70 80".toList [[]] []
      "cpu".toList "99999999999999999999".toList "x".toList "30".toList "4000".toList
      "50".toList "60".toList "70".toList "80".toList
      (by decide) (by decide) (by decide) (by decide)).1⟩

/-- C12 fails as stated: with a user field beyond `int64` and a nice field `x`
the collector returns `nil`, not an error, and saves five cpu metrics, the user
value being the largest `int64`. -/
theorem collectCpu_garbled_fields_saves :
    ParseInt "99999999999999999999".toList 64 =
      (9223372036854775807, some (.num "ParseInt".toList "99999999999999999999".toList .ErrRange)) ∧
    ParseInt "x".toList 64 = (0, some (.num "ParseInt".toList "x".toList .ErrSyntax)) ∧
    collectCpu statGarbledEnv "/proc".toList =
      ⟨[ .save "cpu".toList [] (-9223372036854775519),
         .save "cpu".toList "user".toList 9223372036854775807,
         .save "cpu".toList "system".toList 30,
         .save "cpu".toList "iowait".toList 50,
         .save "cpu".toList "steal".toList 80 ], .nil⟩ := by
  refine ⟨by decide!, by decide, by decide!⟩

/-! ## Lines of `meminfo` the pattern does not match -/

theorem Split_ne_nil (sep : Char) (s : Str) : Split sep s ≠ [] := by
  cases s with
  | nil => simp [Split]
  | cons c cs =>
    unfold Split
    split_ifs
    · simp
    · split <;> simp

theorem Split_append_sep (sep : Char) (A B : Str) :
    Split sep (A ++ sep :: B) = Split sep A ++ Split sep B := by
  induction A with
  | nil => simp [Split]
  | cons a A ih =>
    have e1 : Split sep (a :: (A ++ sep :: B)) =
        if a = sep then [] :: Split sep (A ++ sep :: B)
        else match Split sep (A ++ sep :: B) with
          | [] => [[a]]
          | w :: ws => (a :: w) :: ws := by rw [Split]
    have e2 : Split sep (a :: A) =
        if a = sep then [] :: Split sep A
        else match Split sep A with
          | [] => [[a]]
          | w :: ws => (a :: w) :: ws := by rw [Split]
    rw [List.cons_append, e1, e2, ih]
    by_cases ha : a = sep
    · rw [if_pos ha, if_pos ha]
      rfl
    · obtain ⟨w, ws, hw⟩ := List.exists_cons_of_ne_nil (Split_ne_nil sep A)
      rw [if_neg ha, if_neg ha, hw]
      rfl

theorem Split_no_sep (sep : Char) (s : Str) (h : ∀ x ∈ s, x ≠ sep) : Split sep s = [s] := by
  induction s with
  | nil => simp [Split]
  | cons c cs ih =>
    have hc : c ≠ sep := h c (List.mem_cons_self _ _)
    have := ih (fun x hx => h x (List.mem_cons_of_mem _ hx))
    simp only [Split, if_neg hc, this]

/-- The loop over the lines passes over a line the pattern does not match. -/
theorem meminfoLoop_skip (bad : Str) (hbad : meminfoParser bad = none) (ls1 ls2 : List Str) :
    ∀ m, meminfoLoop (ls1 ++ bad :: ls2) m = meminfoLoop (ls1 ++ ls2) m := by
  induction ls1 with
  | nil =>
    intro m
    simp only [List.nil_append]
    rw [meminfoLoop]
    by_cases h0 : bad = []
    · rw [if_pos h0]
    · rw [if_neg h0]
      simp only [hbad]
  | cons l ls ih =>
    intro m
    simp only [List.cons_append]
    rw [meminfoLoop, meminfoLoop]
    by_cases h0 : l = []
    · rw [if_pos h0, if_pos h0]
      exact ih m
    · rw [if_neg h0, if_neg h0]
      cases hp : meminfoParser l with
      | none => exact ih m
      | some kv =>
        obtain ⟨k, v⟩ := kv
        simp only
        cases hv : ParseInt v 64 with
        | mk val err =>
          cases err with
          | none => exact ih _
          | some e => rfl

/-- C13: a line that the pattern of `meminfo` does not match, inserted after
any line feed of the content, at its start or at its end, changes neither the
outcome of `collectMemory` nor the value it saves for swap. -/
theorem collectMemory_tolerates_unknown_line (env : Env) (path path' c c' bad : Str)
    (hbad : meminfoParser bad = none) (hnl : ∀ x ∈ bad, x ≠ '\n')
    (hex : env.FileExists (path ++ "/meminfo".toList) = .ok true)
    (hex' : env.FileExists (path' ++ "/meminfo".toList) = .ok true)
    (hrd : env.ReadFile (path ++ "/meminfo".toList) = .ok c)
    (hrd' : env.ReadFile (path' ++ "/meminfo".toList) = .ok c')
    (hins : (∃ A B, c = A ++ '\n' :: B ∧ c' = A ++ '\n' :: (bad ++ '\n' :: B)) ∨
      c' = bad ++ '\n' :: c ∨ c' = c ++ '\n' :: bad) :
    collectMemory env path' = collectMemory env path := by
  have hloop : meminfoLoop (Split '\n' c') [] = meminfoLoop (Split '\n' c) [] := by
    rcases hins with ⟨A, B, rfl, rfl⟩ | rfl | rfl
    · rw [Split_append_sep, Split_append_sep, Split_append_sep, Split_no_sep '\n' bad hnl]
      exact meminfoLoop_skip bad hbad _ _ []
    · rw [Split_append_sep, Split_no_sep '\n' bad hnl]
      exact meminfoLoop_skip bad hbad [] _ []
    · rw [Split_append_sep, Split_no_sep '\n' bad hnl]
      have := meminfoLoop_skip bad hbad (Split '\n' c) [] []
      rw [List.append_nil] at this
      exact this
  unfold collectMemory
  rw [hex, hex']
  simp only [hrd, hrd', hloop]

/-- Witness of `collectMemory_tolerates_unknown_line`: the line `garbage here`
inserted after the first line. -/
theorem collectMemory_tolerates_unknown_line_witness :
    meminfoParser "garbage here".toList = none ∧
    collectMemory twoMeminfoEnv "/alt".toList = collectMemory twoMeminfoEnv "/proc".toList ∧
    collectMemory twoMeminfoEnv "/proc".toList = ⟨[.save "swap".toList [] 34], .nil⟩ :=
  ⟨by decide,
    collectMemory_tolerates_unknown_line twoMeminfoEnv "/proc".toList "/alt".toList
      "SwapTotal: 3 kB\nSwapFree: 2 kB\n".toList
      "SwapTotal: 3 kB\ngarbage here\nSwapFree: 2 kB\n".toList "garbage here".toList
      (by decide) (by decide) (by decide) (by decide) (by decide) (by decide)
      (Or.inl ⟨"SwapTotal: 3 kB".toList, "SwapFree: 2 kB\n".toList, by decide, by decide⟩),
    by decide!⟩

/-! ## `displayLoad` -/

/-- Rounding to the nearest integer returns `v` when the value is within less
than one half of `v`. -/
theorem rhe_eq_of_near (m d v e : Nat) (hd : 0 < d) (he : 2 * e < d)
    (h1 : m ≤ v * d + e) (h2 : v * d ≤ m + e) : rhe m d = v := by
  obtain ⟨a, b, _, _⟩ := rhe_spec m d hd
  generalize rhe m d = r at a b ⊢
  have a' : 2 * (r * d) ≤ 2 * m + d := by
    calc 2 * (r * d) = 2 * r * d := by ring
      _ ≤ 2 * m + d := a
  have b' : 2 * m ≤ 2 * (r * d) + d := by
    calc 2 * m ≤ 2 * r * d + d := b
      _ = 2 * (r * d) + d := by ring
  have u : r * d < (v + 1) * d := by
    have : (v + 1) * d = v * d + d := by ring
    omega
  have l : v * d < (r + 1) * d := by
    have : (r + 1) * d = r * d + d := by ring
    omega
  have u' : r < v + 1 := Nat.lt_of_mul_lt_mul_right u
  have l' : v < r + 1 := Nat.lt_of_mul_lt_mul_right l
  omega

set_option exponentiation.threshold 1100 in
/-- The quotient `float64(v)/100` for `v` below `100 * 2^46`: a finite value
whose distance from `v / 100` is less than half a hundredth. -/
theorem div_hundred_near (v : Nat) (hv : v < 100 * 2 ^ 46) :
    ∃ X : Nat, F64.div (F64.ofInt (v : Int)) (F64.ofInt 100) = .fin (X : Int) ∧
      rhe (X * 100) oneUnits = v := by
  have hU := oneUnits_pos
  have hv53 : v < 2 ^ 53 := Nat.lt_of_lt_of_le hv (by norm_num)
  have h100 : F64.ofInt 100 = .fin ((100 * oneUnits : Nat) : Int) := by
    have := ofInt_exact 100 (by norm_num)
    exact_mod_cast this
  have hd : 0 < 100 * oneUnits := Nat.mul_pos (by norm_num) hU
  have hB : 2 ^ (bitLen (2 ^ 46 * oneUnits) - 53) ∣ 2 ^ 46 * oneUnits :=
    mul_oneUnits_representable (2 ^ 46) (by norm_num)
  have hBlt : 2 ^ 46 * oneUnits < overflowUnits := by
    rw [overflowUnits_eq]
    exact Nat.mul_lt_mul_of_pos_right (by norm_num) hU
  have hn : v * oneUnits * oneUnits ≤ 2 ^ 46 * oneUnits * (100 * oneUnits) := by
    have : v * oneUnits * oneUnits = v * (oneUnits * oneUnits) := by ring
    have e : 2 ^ 46 * oneUnits * (100 * oneUnits) = (100 * 2 ^ 46) * (oneUnits * oneUnits) := by
      ring
    rw [this, e]
    exact Nat.mul_le_mul_right _ (le_of_lt hv)
  refine ⟨roundUnits (v * oneUnits * oneUnits) (100 * oneUnits), ?_, ?_⟩
  · rw [ofInt_exact v hv53, h100, div_fin_natCast _ _ (ne_of_gt hd)]
    exact round_fin hd hn hB hBlt
  · -- the spacing at the quotient is at most `2^1067` units
    have hq : v * oneUnits * oneUnits / (100 * oneUnits) < 2 ^ 46 * oneUnits := by
      rw [Nat.div_lt_iff_lt_mul hd]
      have e : 2 ^ 46 * oneUnits * (100 * oneUnits) = (100 * 2 ^ 46) * (oneUnits * oneUnits) := by
        ring
      have e2 : v * oneUnits * oneUnits = v * (oneUnits * oneUnits) := by ring
      rw [e, e2]
      exact Nat.mul_lt_mul_of_pos_right hv (Nat.mul_pos hU hU)
    have hlen : bitLen (v * oneUnits * oneUnits / (100 * oneUnits)) ≤ 1120 := by
      rw [bitLen_le_iff]
      have : 2 ^ 46 * oneUnits = 2 ^ 1120 := by
        unfold oneUnits
        rw [← pow_add]
      rw [← this]
      exact hq
    unfold roundUnits
    simp only
    generalize hs : bitLen (v * oneUnits * oneUnits / (100 * oneUnits)) - 53 = s
    have hs1067 : s ≤ 1067 := by omega
    have hpow : 128 * 2 ^ s ≤ oneUnits := by
      have : 128 * 2 ^ s = 2 ^ (s + 7) := by rw [pow_add]; norm_num; ring
      rw [this]
      unfold oneUnits
      exact Nat.pow_le_pow_right (by norm_num) (by omega)
    have hD : 0 < 100 * oneUnits * 2 ^ s := Nat.mul_pos hd (by positivity)
    obtain ⟨a, b, _, _⟩ := rhe_spec (v * oneUnits * oneUnits) (100 * oneUnits * 2 ^ s) hD
    generalize rhe (v * oneUnits * oneUnits) (100 * oneUnits * 2 ^ s) = k at a b ⊢
    -- cancel one factor `oneUnits`
    have a' : 2 * (k * 2 ^ s * 100) ≤ 2 * (v * oneUnits) + 100 * 2 ^ s := by
      apply Nat.le_of_mul_le_mul_right _ hU
      calc 2 * (k * 2 ^ s * 100) * oneUnits = 2 * k * (100 * oneUnits * 2 ^ s) := by ring
        _ ≤ 2 * (v * oneUnits * oneUnits) + 100 * oneUnits * 2 ^ s := a
        _ = (2 * (v * oneUnits) + 100 * 2 ^ s) * oneUnits := by ring
    have b' : 2 * (v * oneUnits) ≤ 2 * (k * 2 ^ s * 100) + 100 * 2 ^ s := by
      apply Nat.le_of_mul_le_mul_right _ hU
      calc 2 * (v * oneUnits) * oneUnits = 2 * (v * oneUnits * oneUnits) := by ring
        _ ≤ 2 * k * (100 * oneUnits * 2 ^ s) + 100 * oneUnits * 2 ^ s := b
        _ = (2 * (k * 2 ^ s * 100) + 100 * 2 ^ s) * oneUnits := by ring
    apply rhe_eq_of_near (k * 2 ^ s * 100) oneUnits v (50 * 2 ^ s) hU
    · omega
    · omega
    · omega

/-- C14, as the code has it: for every raw value `v` with
`0 ≤ v < 100 * 2^46`, `displayLoad(v)` is the two-decimal rendering of
`v / 100`: the digits of `v div 100`, a point, and `v mod 100` on two digits.
So `displayLoad` gives `0.00`, `0.50`, `1.20` and `2.35` for 0, 50, 120 and
235. -/
theorem displayLoad_two_decimals (v : Nat) (hv : v < 100 * 2 ^ 46) :
    displayLoad (v : Int) = twoDecimalRendering v ∧
    displayLoad 0 = "0.00".toList ∧ displayLoad 50 = "0.50".toList ∧
    displayLoad 120 = "1.20".toList ∧ displayLoad 235 = "2.35".toList := by
  refine ⟨?_, by decide!, by decide!, by decide!, by decide!⟩
  obtain ⟨X, hX, hr⟩ := div_hundred_near v hv
  unfold displayLoad
  rw [hX]
  have hneg : ¬ ((X : Int) < 0) := not_lt.mpr (Int.ofNat_nonneg X)
  simp only [FormatFloat2, Int.natAbs_ofNat, hr, hneg, if_false, List.nil_append,
    twoDecimalRendering]
  have e1 : v / 10 % 10 = v % 100 / 10 := by omega
  have e2 : v % 10 = v % 100 % 10 := by omega
  rw [e1, e2]

/-- Witness of `displayLoad_two_decimals`: the raw value 123456. -/
theorem displayLoad_two_decimals_witness :
    123456 < 100 * 2 ^ 46 ∧ displayLoad ((123456 : Nat) : Int) = twoDecimalRendering 123456 ∧
    twoDecimalRendering 123456 = "1234.56".toList :=
  ⟨by decide, (displayLoad_two_decimals 123456 (by decide)).1, by decide⟩

/-- C14 fails as stated: the raw value `100 * 2^46 + 1` is below `2^53`, and
`displayLoad` renders it with the hundredths `02`, not `01`. -/
theorem displayLoad_large_value :
    (7036874417766401 : Int) < 2 ^ 53 ∧
    displayLoad 7036874417766401 = "70368744177664.02".toList ∧
    twoDecimalRendering 7036874417766401 = "70368744177664.01".toList := by
  refine ⟨by decide, by decide!, by decide!⟩

/-! ## The two sources of the load average -/

theorem trim_braces (s : Str) :
    (('\x7b' :: ' ' :: (s ++ [' ', '\x7d'])).drop 2).take
      (('\x7b' :: ' ' :: (s ++ [' ', '\x7d'])).length - 4) = s := by
  have hl : ('\x7b' :: ' ' :: (s ++ [' ', '\x7d'])).length - 4 = s.length := by
    simp only [List.length_cons, List.length_append, List.length_nil]
    omega
  rw [hl]
  simp only [List.drop_succ_cons, List.drop_zero]
  exact List.take_left' rfl

/-- C15: the fallback output line that holds a text between an opening brace
with a space and a space with a closing brace gives the same run of
`collectLoadAverage`, outcome and saves, as the file `loadavg` with that text
as content; in particular for a text of three tokens. -/
theorem collectLoadAverage_sources_agree (env : Env) (path path' s sout : Str)
    (more : List Str)
    (hex : env.FileExists (path ++ "/loadavg".toList) = .ok true)
    (hrd : env.ReadFile (path ++ "/loadavg".toList) = .ok s)
    (hex' : env.FileExists (path' ++ "/loadavg".toList) = .ok false)
    (hcmd : env.CombinedOutput "sysctl".toList ["-n".toList, "vm.loadavg".toList] = .ok sout)
    (hlines : env.ReadLines sout = .ok (('\x7b' :: ' ' :: (s ++ [' ', '\x7d'])) :: more)) :
    collectLoadAverage env path' = collectLoadAverage env path ∧
    collectLoadAverage env path = saveLoadAverage env s := by
  have h1 : collectLoadAverage env path = saveLoadAverage env s := by
    unfold collectLoadAverage
    rw [hex]
    simp only [hrd]
  have h2 : collectLoadAverage env path' = saveLoadAverage env s := by
    unfold collectLoadAverage
    rw [hex']
    simp only [hcmd, hlines]
    have hlen : ¬ (('\x7b' :: ' ' :: (s ++ [' ', '\x7d'])).length < 4) := by
      simp only [List.length_cons, List.length_append, List.length_nil]
      omega
    rw [if_neg hlen, trim_braces]
  exact ⟨by rw [h1, h2], h1⟩

/-- Witness of `collectLoadAverage_sources_agree`: the three tokens `0.50`,
`1.20`, `2.35` in the file and between braces in the output of `sysctl`. -/
theorem collectLoadAverage_sources_agree_witness :
    bothLoadEnv.ReadLines "\x7b 0.50 1.20 2.35 \x7d\n".toList =
      .ok ["\x7b 0.50 1.20 2.35 \x7d".toList] ∧
    collectLoadAverage bothLoadEnv "/none".toList = collectLoadAverage bothLoadEnv "/proc".toList ∧
    collectLoadAverage bothLoadEnv "/none".toList =
      ⟨[ .save "load".toList "1".toList 50,
         .save "load".toList "5".toList 120,
         .save "load".toList "15".toList 235 ], .nil⟩ :=
  ⟨by decide,
    (collectLoadAverage_sources_agree bothLoadEnv "/proc".toList "/none".toList
      "0.50 1.20 2.35".toList "\x7b 0.50 1.20 2.35 \x7d\n".toList []
      (by decide) (by decide) (by decide) (by decide) (by decide)).1,
    by decide!⟩

/-! ## The range of the swap percentage -/

theorem toInt_of_trunc (oor : F64 → Int) (bits : Nat) (f : F64) (T : Int)
    (h : f.trunc = some T) (h1 : -(2 ^ (bits - 1) : Int) ≤ T) (h2 : T < 2 ^ (bits - 1)) :
    F64.toInt oor bits f = T := by
  unfold F64.toInt
  rw [h]
  simp only
  rw [if_pos ⟨h1, h2⟩]

/-- C20: in the `meminfo` branch, for `SwapFree = free` and
`SwapTotal = total` with `0 ≤ free ≤ total`, the value saved for swap lies
between 0 and 100.  When the value is computed, that is for
`0 < free < total`, the product converted to `int8` is its integer part `T`
with `0 ≤ T ≤ 100`, and `100 - T` lies in the range of `int8` as well, so that
neither step wraps around. -/
theorem collectMemory_swap_in_range (env : Env) (path content : Str) (m : List (Str × Int))
    (free total : Int)
    (hex : env.FileExists (path ++ "/meminfo".toList) = .ok true)
    (hrd : env.ReadFile (path ++ "/meminfo".toList) = .ok content)
    (hparse : meminfoLoop (Split '\n' content) [] = .ok m)
    (hf : mapGet m "SwapFree".toList = free) (ht : mapGet m "SwapTotal".toList = total)
    (h0 : 0 ≤ free) (h1 : free ≤ total) (h2 : total < 2 ^ 63) :
    ∃ v : Int, collectMemory env path = ⟨[.save "swap".toList [] v], .nil⟩ ∧ 0 ≤ v ∧ v ≤ 100 ∧
      (free ≠ 0 → free ≠ total →
        ∃ T : Int,
          F64.trunc (F64.mul (F64.ofInt 100) (F64.div (F64.ofInt free) (F64.ofInt total)))
            = some T ∧
          F64.toInt env.convert 8
            (F64.mul (F64.ofInt 100) (F64.div (F64.ofInt free) (F64.ofInt total))) = T ∧
          -128 ≤ T ∧ T ≤ 127 ∧ -128 ≤ 100 - T ∧ 100 - T ≤ 127 ∧
          wrapInt 8 (100 - T) = 100 - T ∧ v = 100 - T) := by
  have hrun := collectMemory_meminfo_run env path content m hex hrd hparse
  rw [hf, ht] at hrun
  refine ⟨swapFromMeminfo env free total, hrun, ?_⟩
  by_cases hz : free = 0
  · have hv : swapFromMeminfo env free total = 100 := by
      unfold swapFromMeminfo
      rw [if_pos hz]
    rw [hv]
    exact ⟨by norm_num, by norm_num, fun h => absurd hz h⟩
  · by_cases he : free = total
    · have hv : swapFromMeminfo env free total = 0 := by
        unfold swapFromMeminfo
        rw [if_neg hz, if_pos he]
      rw [hv]
      exact ⟨by norm_num, by norm_num, fun _ h => absurd he h⟩
    · have hpos : 0 < free := lt_of_le_of_ne h0 (Ne.symm hz)
      have hlt : free < total := lt_of_le_of_ne h1 he
      obtain ⟨T, hT, hT0, hT100, hsave⟩ := swapFromMeminfo_trunc env free total hpos hlt h2
      have hconv := toInt_of_trunc env.convert 8 _ T hT (by norm_num; omega) (by norm_num; omega)
      have hw : wrapInt 8 (100 - T) = 100 - T := by
        unfold wrapInt
        norm_num
        omega
      refine ⟨by omega, by omega, fun _ _ => ⟨T, hT, hconv, by omega, by omega, by omega,
        by omega, hw, hsave⟩⟩

/-- Witness of `collectMemory_swap_in_range`: 2 kB free of 3 kB. -/
theorem collectMemory_swap_in_range_witness :
    thirdSwapEnv.FileExists ("/proc".toList ++ "/meminfo".toList) = .ok true ∧
    meminfoLoop (Split '\n' thirdSwapMeminfo) [] =
      .ok [("SwapFree".toList, 2), ("SwapTotal".toList, 3)] ∧
    ∃ v : Int, collectMemory thirdSwapEnv "/proc".toList = ⟨[.save "swap".toList [] v], .nil⟩ ∧
      0 ≤ v ∧ v ≤ 100 ∧
      ((2 : Int) ≠ 0 → (2 : Int) ≠ 3 →
        ∃ T : Int,
          F64.trunc (F64.mul (F64.ofInt 100) (F64.div (F64.ofInt 2) (F64.ofInt 3))) = some T ∧
          F64.toInt thirdSwapEnv.convert 8
            (F64.mul (F64.ofInt 100) (F64.div (F64.ofInt 2) (F64.ofInt 3))) = T ∧
          -128 ≤ T ∧ T ≤ 127 ∧ -128 ≤ 100 - T ∧ 100 - T ≤ 127 ∧
          wrapInt 8 (100 - T) = 100 - T ∧ v = 100 - T) :=
  ⟨by decide, by decide,
    collectMemory_swap_in_range thirdSwapEnv "/proc".toList thirdSwapMeminfo
      [("SwapFree".toList, 2), ("SwapTotal".toList, 3)] 2 3
      (by decide) (by decide) (by decide) (by decide) (by decide)
      (by decide) (by decide) (by decide)⟩

/-! ## The shape of the runs -/

/-- A run of the second half of `collectLoadAverage` either makes no call, or
makes the three saves of the load family and returns `nil`. -/
theorem saveLoadAverage_shape (env : Env) (s : Str) :
    (saveLoadAverage env s).calls = [] ∨
    ∃ v1 v5 v15 : Int, saveLoadAverage env s =
      ⟨[ .save "load".toList "1".toList v1, .save "load".toList "5".toList v5,
         .save "load".toList "15".toList v15 ], .nil⟩ := by
  unfold saveLoadAverage
  repeat' split
  all_goals first
    | exact Or.inl rfl
    | exact Or.inr ⟨_, _, _, rfl⟩

theorem collectLoadAverage_shape (env : Env) (path : Str) :
    (collectLoadAverage env path).calls = [] ∨
    ∃ v1 v5 v15 : Int, collectLoadAverage env path =
      ⟨[ .save "load".toList "1".toList v1, .save "load".toList "5".toList v5,
         .save "load".toList "15".toList v15 ], .nil⟩ := by
  unfold collectLoadAverage
  repeat' split
  all_goals first
    | exact Or.inl rfl
    | exact saveLoadAverage_shape env _

theorem swapFallback_shape (env : Env) (lines : List Str) :
    (swapFallback env lines).calls = [] ∨
    ∃ v : Int, swapFallback env lines = ⟨[.save "swap".toList [] v], .nil⟩ := by
  unfold swapFallback
  repeat' split
  all_goals first
    | exact Or.inl rfl
    | (simp only []; split_ifs <;> exact Or.inr ⟨_, rfl⟩)

/-- A run of `collectMemory` either makes no call, or makes one save for swap
and returns `nil`. -/
theorem collectMemory_shape (env : Env) (path : Str) :
    (collectMemory env path).calls = [] ∨
    ∃ v : Int, collectMemory env path = ⟨[.save "swap".toList [] v], .nil⟩ := by
  unfold collectMemory
  repeat' split
  all_goals first
    | exact Or.inl rfl
    | exact Or.inr ⟨_, rfl⟩
    | exact swapFallback_shape env _

theorem saveCpu_shape (contents : Str) :
    (saveCpu contents).calls = [] ∨
    ∃ t u s i st : Int, saveCpu contents =
      ⟨[ .save "cpu".toList [] t, .save "cpu".toList "user".toList u,
         .save "cpu".toList "system".toList s, .save "cpu".toList "iowait".toList i,
         .save "cpu".toList "steal".toList st ], .nil⟩ := by
  unfold saveCpu
  split
  · exact Or.inl rfl
  · simp only []
    split
    · exact Or.inr ⟨_, _, _, _, _, rfl⟩
    · exact Or.inl rfl

/-- A run of `collectCpu` either makes no call, or makes the five saves of the
cpu family and returns `nil`. -/
theorem collectCpu_shape (env : Env) (path : Str) :
    (collectCpu env path).calls = [] ∨
    ∃ t u s i st : Int, collectCpu env path =
      ⟨[ .save "cpu".toList [] t, .save "cpu".toList "user".toList u,
         .save "cpu".toList "system".toList s, .save "cpu".toList "iowait".toList i,
         .save "cpu".toList "steal".toList st ], .nil⟩ := by
  unfold collectCpu
  repeat' split
  all_goals first
    | exact Or.inl rfl
    | exact saveCpu_shape _

/-- A run of `collectDisk` either makes no call, or makes one `saveType` of a
gauge of the disk family for each entry of a map and returns `nil`. -/
theorem collectDisk_shape (env : Env) (path : Str) :
    (collectDisk env path).calls = [] ∨
    ∃ usage : List (Str × Int), collectDisk env path =
      ⟨usage.map (fun p => Call.saveType "disk".toList p.1 p.2 .Gauge), .nil⟩ := by
  unfold collectDisk saveDisk
  repeat' split
  all_goals first
    | exact Or.inl rfl
    | exact Or.inr ⟨_, rfl⟩

/-! ## Atomicity and the schema -/

/-- C18: a collector that returns an error has made no call on the store;
this holds for the four collectors, on every environment and path. -/
theorem collectors_atomic_on_error (env : Env) (path : Str) (e : Error) :
    ((collectLoadAverage env path).result = .error e →
      (collectLoadAverage env path).calls = []) ∧
    ((collectMemory env path).result = .error e → (collectMemory env path).calls = []) ∧
    ((collectCpu env path).result = .error e → (collectCpu env path).calls = []) ∧
    ((collectDisk env path).result = .error e → (collectDisk env path).calls = []) := by
  refine ⟨?_, ?_, ?_, ?_⟩
  · rcases collectLoadAverage_shape env path with h | ⟨_, _, _, h⟩
    · exact fun _ => h
    · intro he
      rw [h] at he
      exact Outcome.noConfusion he
  · rcases collectMemory_shape env path with h | ⟨_, h⟩
    · exact fun _ => h
    · intro he
      rw [h] at he
      exact Outcome.noConfusion he
  · rcases collectCpu_shape env path with h | ⟨_, _, _, _, _, h⟩
    · exact fun _ => h
    · intro he
      rw [h] at he
      exact Outcome.noConfusion he
  · rcases collectDisk_shape env path with h | ⟨_, h⟩
    · exact fun _ => h
    · intro he
      rw [h] at he
      exact Outcome.noConfusion he

/-- Witness of `collectors_atomic_on_error`: a `loadavg` whose third number
does not parse saves neither the first nor the second value. -/
theorem collectors_atomic_on_error_witness :
    (collectLoadAverage (loadavgEnv "0.50 1.20 x".toList) "/proc".toList).result =
      .error (.num "ParseFloat".toList "x".toList .ErrSyntax) ∧
    (collectLoadAverage (loadavgEnv "0.50 1.20 x".toList) "/proc".toList).calls = [] :=
  ⟨by decide!,
    (collectors_atomic_on_error (loadavgEnv "0.50 1.20 x".toList) "/proc".toList
      (.num "ParseFloat".toList "x".toList .ErrSyntax)).1 (by decide!)⟩

/-- C19: every call a collector makes is covered by the schema of
`NewHostStore`.  The saves of `collectLoadAverage` are for `("load","1")`,
`("load","5")`, `("load","15")` and that of `collectMemory` for `("swap","")`,
all declared as gauges; the saves of `collectCpu` are for `("cpu","")`,
`("cpu","user")`, `("cpu","system")`, `("cpu","iowait")`, `("cpu","steal")`,
all declared as counters with the transform `tickPercentage`; the calls of
`collectDisk` are `saveType` of a gauge in the family `disk`, which is declared
dynamic. -/
theorem schema_covers_saves (env : Env) (path : Str) (n : Nat) (c : Call) :
    (c ∈ (collectLoadAverage env path).calls →
      ∃ (name : Str) (v : Int), c = .save "load".toList name v ∧
        (name = "1".toList ∨ name = "5".toList ∨ name = "15".toList) ∧
        Decl.declareGauge "load".toList name (some .multiplyBy100) .displayLoad
          ∈ (NewHostStore env n).decls) ∧
    (c ∈ (collectMemory env path).calls →
      ∃ v : Int, c = .save "swap".toList [] v ∧
        Decl.declareGauge "swap".toList [] none .displayPercent ∈ (NewHostStore env n).decls) ∧
    (c ∈ (collectCpu env path).calls →
      ∃ (name : Str) (v : Int), c = .save "cpu".toList name v ∧
        (name = [] ∨ name = "user".toList ∨ name = "system".toList ∨ name = "iowait".toList ∨
          name = "steal".toList) ∧
        Decl.declareCounter "cpu".toList name (some .tickPercentage) .displayPercent
          ∈ (NewHostStore env n).decls) ∧
    (c ∈ (collectDisk env path).calls →
      ∃ (name : Str) (v : Int), c = .saveType "disk".toList name v .Gauge ∧
        Decl.declareDynamicFamily "disk".toList ∈ (NewHostStore env n).decls) := by
  refine ⟨?_, ?_, ?_, ?_⟩
  · rcases collectLoadAverage_shape env path with h | ⟨v1, v5, v15, h⟩
    · intro hc
      rw [h] at hc
      exact absurd hc (List.not_mem_nil c)
    · intro hc
      rw [h] at hc
      simp only [List.mem_cons, List.mem_singleton, List.not_mem_nil, or_false] at hc
      rcases hc with rfl | rfl | rfl
      · exact ⟨_, _, rfl, Or.inl rfl, by simp [NewHostStore]⟩
      · exact ⟨_, _, rfl, Or.inr (Or.inl rfl), by simp [NewHostStore]⟩
      · exact ⟨_, _, rfl, Or.inr (Or.inr rfl), by simp [NewHostStore]⟩
  · rcases collectMemory_shape env path with h | ⟨v, h⟩
    · intro hc
      rw [h] at hc
      exact absurd hc (List.not_mem_nil c)
    · intro hc
      rw [h] at hc
      simp only [List.mem_singleton] at hc
      subst hc
      exact ⟨_, rfl, by simp [NewHostStore]⟩
  · rcases collectCpu_shape env path with h | ⟨t, u, s, i, st, h⟩
    · intro hc
      rw [h] at hc
      exact absurd hc (List.not_mem_nil c)
    · intro hc
      rw [h] at hc
      simp only [List.mem_cons, List.mem_singleton, List.not_mem_nil, or_false] at hc
      rcases hc with rfl | rfl | rfl | rfl | rfl
      · exact ⟨_, _, rfl, Or.inl rfl, by simp [NewHostStore]⟩
      · exact ⟨_, _, rfl, Or.inr (Or.inl rfl), by simp [NewHostStore]⟩
      · exact ⟨_, _, rfl, Or.inr (Or.inr (Or.inl rfl)), by simp [NewHostStore]⟩
      · exact ⟨_, _, rfl, Or.inr (Or.inr (Or.inr (Or.inl rfl))), by simp [NewHostStore]⟩
      · exact ⟨_, _, rfl, Or.inr (Or.inr (Or.inr (Or.inr rfl))), by simp [NewHostStore]⟩
  · rcases collectDisk_shape env path with h | ⟨usage, h⟩
    · intro hc
      rw [h] at hc
      exact absurd hc (List.not_mem_nil c)
    · intro hc
      rw [h] at hc
      simp only [List.mem_map] at hc
      obtain ⟨p, _, rfl⟩ := hc
      exact ⟨_, _, rfl, by simp [NewHostStore]⟩

/-- Witness of `schema_covers_saves`: the save of the 15-minute load on a host
with a well-formed `loadavg`. -/
theorem schema_covers_saves_witness :
    Call.save "load".toList "15".toList 235 ∈
      (collectLoadAverage loadEnv050 "/proc".toList).calls ∧
    ∃ (name : Str) (v : Int),
      Call.save "load".toList "15".toList 235 = .save "load".toList name v ∧
      (name = "1".toList ∨ name = "5".toList ∨ name = "15".toList) ∧
      Decl.declareGauge "load".toList name (some .multiplyBy100) .displayLoad
        ∈ (NewHostStore loadEnv050 15).decls :=
  ⟨by decide!,
    (schema_covers_saves loadEnv050 "/proc".toList 15
      (.save "load".toList "15".toList 235)).1 (by decide!)⟩

end Metrics
